import Mathlib

/-!
Verification of the MDN (Markdown Numbers) converter suite: a shallow
embedding of `src/tools/python/utils.py`, `excel_parser.py` (Encoder),
`mdn_parser.py` (Decoder) and `mdn_validator.py` (Validator), together
with proofs settling the frozen claims about the natural-language
specification.

Conventions of the embedding:
* Python strings are `List Char` (ASCII fragment; the documents and
  workbooks exercised by the claims are ASCII).  `String` wrappers keep
  the source function names.
* Machine behaviour that can raise is modelled with `Except PyErr`.
* The YAML / JSON / CSV text codecs are external collaborators of the
  repository (spec §1); they are modelled here by executable functions
  that are faithful on the fragment of texts these programs emit and
  consume (block mappings of scalar values, flow-empty mappings, JSON
  objects, single-line CSV records).
-/

namespace MDN

/-! ### Python string primitives -/

/-- Whitespace for `str.strip` / blank-line tests (ASCII fragment). -/
def isPyWs (c : Char) : Bool := c == ' ' || c == '\t' || c == '\n' || c == '\r'

/-- Model of Python `str.strip()`. -/
def pyStrip (l : List Char) : List Char :=
  ((l.dropWhile isPyWs).reverse.dropWhile isPyWs).reverse

/-- Model of Python `str.split(sep)` for a one-character separator. -/
def splitChar (sep : Char) : List Char → List (List Char)
  | [] => [[]]
  | c :: rest =>
    match splitChar sep rest with
    | [] => [[c]]
    | r :: rs => if c == sep then [] :: r :: rs else (c :: r) :: rs

/-- Model of Python `content.split('---')`: non-overlapping left-to-right
splitting on the three-character separator. -/
def splitDashes : List Char → List (List Char)
  | '-' :: '-' :: '-' :: rest => [] :: splitDashes rest
  | c :: rest =>
    match splitDashes rest with
    | [] => [[c]]
    | r :: rs => (c :: r) :: rs
  | [] => [[]]

/-- Model of the Python substring test `pat in s`. -/
def containsSeq (pat : List Char) : List Char → Bool
  | [] => pat.isEmpty
  | c :: rest => pat.isPrefixOf (c :: rest) || containsSeq pat rest

/-- Characters `A`-`Z`. -/
def isUpperAZ (c : Char) : Bool := 'A' ≤ c && c ≤ 'Z'

/-- Characters `0`-`9`. -/
def isDigit09 (c : Char) : Bool := '0' ≤ c && c ≤ '9'

/-- Value of a decimal digit character. -/
def digitVal (c : Char) : Nat := c.toNat - 48

/-- Decimal value of a digit run, as computed by Python `int(...)`. -/
def digitsToNat (l : List Char) : Nat := l.foldl (fun a c => a * 10 + digitVal c) 0

/-- Model of Python `str.isalpha()` on the ASCII fragment. -/
def pyIsAlphaChar (c : Char) : Bool :=
  ('A' ≤ c && c ≤ 'Z') || ('a' ≤ c && c ≤ 'z')

/-- Python `s.isalpha()`: non-empty and every character alphabetic. -/
def pyIsAlpha (l : List Char) : Bool := !l.isEmpty && l.all pyIsAlphaChar

/-- Python `str.isdigit()` on the ASCII fragment: non-empty, all `0`-`9`. -/
def pyIsDigitStr (l : List Char) : Bool := !l.isEmpty && l.all isDigit09

/-- Model of Python `str.replace(x, '')`: delete every occurrence of `x`. -/
def removeAll (x : Char) (l : List Char) : List Char := l.filter (fun c => !(c == x))

/-- Exceptions raised by the modelled Python code. -/
inductive PyErr
  | valueError (msg : String)
  | typeError (msg : String)
  | attributeError (msg : String)
  | indexError (msg : String)
  | keyError (msg : String)
deriving DecidableEq, Repr

instance exceptDecEq {ε α : Type} [DecidableEq ε] [DecidableEq α] :
    DecidableEq (Except ε α) := fun a b =>
  match a, b with
  | .ok x, .ok y => decidable_of_iff (x = y) (by simp)
  | .error e, .error f => decidable_of_iff (e = f) (by simp)
  | .ok _, .error _ => isFalse (fun h => Except.noConfusion h)
  | .error _, .ok _ => isFalse (fun h => Except.noConfusion h)

/-- Decimal rendering of a natural number (`str(n)`), fuel-structured so the
kernel can evaluate it; `natStrGo (n+1) n` always has enough fuel. -/
def natStrGo : Nat → Nat → List Char
  | 0, _ => []
  | f + 1, n =>
    if n < 10 then [Char.ofNat (48 + n)]
    else natStrGo f (n / 10) ++ [Char.ofNat (48 + n % 10)]

/-- Model of Python `str(n)` for a natural number. -/
def natStr (n : Nat) : List Char := natStrGo (n + 1) n

/-- String form of `natStr`. -/
def natStrS (n : Nat) : String := ⟨natStr n⟩

/-- Model of Python `str(i)` for an integer. -/
def intStr (i : Int) : List Char :=
  if i < 0 then '-' :: natStr (-i).toNat else natStr i.toNat

/-! ### utils.py — reference arithmetic -/

/-- Value `ord(letter) - ord('A') + 1` used by `column_letter_to_index`
(`utils.py` line 59); over `Int` because Python `ord` arithmetic may go
negative on non-uppercase input. -/
def letterVal (c : Char) : Int := (c.toNat : Int) - 65 + 1

/-- Positional sum of `utils.py` lines 57-60: the i-th letter weighs
`26 ^ (len - i - 1)`. -/
def colLetterIndex : List Char → Int
  | [] => 0
  | c :: cs => letterVal c * (26 : Int) ^ cs.length + colLetterIndex cs

/-- `column_letter_to_index` of `utils.py` (lines 41-60). -/
def column_letter_to_index (s : String) : Int := colLetterIndex s.data

/-- Loop body of `column_index_to_letter` (`utils.py` lines 82-87):
`while n > 0: n -= 1; out = chr(65 + n % 26) + out; n //= 26`, with fuel
so that the recursion is structural (`n` fuel always suffices). -/
def itlGo : Nat → Nat → List Char
  | 0, _ => []
  | f + 1, n =>
    if n = 0 then []
    else itlGo f ((n - 1) / 26) ++ [Char.ofNat (65 + (n - 1) % 26)]

/-- Letters produced by the `column_index_to_letter` loop for index `n`. -/
def itlAux (n : Nat) : List Char := itlGo n n

/-- `column_index_to_letter` of `utils.py` (lines 63-88); raises
`ValueError` when the index is below 1. -/
def column_index_to_letter (i : Int) : Except PyErr String :=
  if i < 1 then .error (.valueError "Column index must be 1 or greater")
  else .ok ⟨itlAux i.toNat⟩

/-- `parse_cell_reference` of `utils.py` (lines 9-38).  `re.match` anchors
only at the start, and `[A-Z]` and `\d` are disjoint classes, so the match
succeeds exactly when a non-empty run of uppercase letters is followed
immediately by at least one digit; group 1 is the maximal letter run and
group 2 the maximal digit run after it. -/
def parse_cell_reference (s : String) : Except PyErr (String × Int × Int) :=
  let letters := s.data.takeWhile isUpperAZ
  let digits := (s.data.dropWhile isUpperAZ).takeWhile isDigit09
  if letters.isEmpty || digits.isEmpty then
    .error (.valueError ("Invalid cell reference: " ++ s))
  else
    .ok (⟨letters⟩, colLetterIndex letters, (digitsToNat digits : Int))

/-- Model of Python `range(a, b)` over integers. -/
def pyRange (a b : Int) : List Int :=
  (List.range (b - a).toNat).map (fun (k : Nat) => a + (k : Int))

/-- Column-range arm of `parse_range_reference` (`utils.py` lines 121-130):
each column from `start_col` to `end_col` is expanded to rows 1..1000. -/
def expandColumnRange (scol ecol : Int) : Except PyErr (List String) :=
  ((pyRange scol (ecol + 1)).mapM (fun ci => do
      let letter ← column_index_to_letter ci
      pure ((List.range' 1 1000).map (fun r => letter ++ natStrS r)))).map List.flatten

/-- Body of the `parse_range_reference` loop for one comma-separated part
(already stripped).  In the `A1:B3` arm the source slices the
`parse_cell_reference` triple with `[:2]`, binding
`start_col = letters : str` and `start_row = column index`; the following
`range(start_col, end_col + 1)` therefore evaluates `str + int` and raises
`TypeError` whenever both endpoint parses succeed. -/
def rangePart (part : List Char) : Except PyErr (List String) :=
  if part.contains ':' then
    match splitChar ':' part with
    | [st, en] =>
      if pyIsAlpha st && pyIsAlpha en then
        expandColumnRange (colLetterIndex st) (colLetterIndex en)
      else do
        let _ ← parse_cell_reference ⟨st⟩
        let _ ← parse_cell_reference ⟨en⟩
        .error (.typeError "can only concatenate str (not \"int\") to str")
    | _ => .error (.valueError "too many values to unpack (expected 2)")
  else
    .ok [⟨part⟩]

/-- Loop of `parse_range_reference` over the comma-split parts. -/
def rangeParts : List (List Char) → Except PyErr (List String)
  | [] => .ok []
  | p :: ps => do
    let cells ← rangePart (pyStrip p)
    let rest ← rangeParts ps
    pure (cells ++ rest)

/-- `parse_range_reference` of `utils.py` (lines 91-144). -/
def parse_range_reference (s : String) : Except PyErr (List String) :=
  rangeParts (splitChar ',' s.data)

/-! ### Python values and the CSV field coercion of the decoder -/

/-- Scalar Python values flowing through the converters. -/
inductive PLeaf
  | pnone
  | pbool (b : Bool)
  | pint (n : Int)
  | pfloat (q : ℚ)
  | pstr (s : String)
deriving DecidableEq, Repr

/-- Values one level inside a top-level mapping (the YAML/JSON payloads
these programs exchange nest at most two levels deep: a FORMAT document is
a mapping whose values are mappings of scalars). -/
inductive PSub
  | leaf (v : PLeaf)
  | list (l : List PLeaf)
  | dict (m : List (String × PLeaf))
deriving DecidableEq, Repr

/-- Top-level Python values produced by the structured-text codecs. -/
inductive PVal
  | leaf (v : PLeaf)
  | list (l : List PLeaf)
  | dict (m : List (String × PSub))
deriving DecidableEq, Repr

/-- Leading-minus stripping used to analyse Python `float(...)` input. -/
def floatCore (l : List Char) : List Char :=
  match l with
  | '-' :: r => r
  | _ => l

/-- Success condition of Python `float(v)` for `v` drawn from the decoder's
numeric screen (characters limited to digits, `.` and `-`): at most one
leading minus, at most one dot, at least one digit. -/
def floatLitOk (l : List Char) : Bool :=
  let m := floatCore l
  (m.count '.' ≤ 1) && !(m.contains '-') && m.any isDigit09 &&
    m.all (fun c => isDigit09 c || c == '.')

/-- Exact decimal value of a valid float literal (the claims only depend on
the classification and the decimal value, not on IEEE rounding). -/
def floatValOf (l : List Char) : ℚ :=
  let neg : Bool := match l with | '-' :: _ => true | _ => false
  let m := floatCore l
  let q : ℚ :=
    match splitChar '.' m with
    | [ip] => (digitsToNat ip : ℚ)
    | [ip, fp] => (digitsToNat ip : ℚ) + (digitsToNat fp : ℚ) / (10 : ℚ) ^ fp.length
    | _ => 0
  if neg then -q else q

/-- Field coercion of the decoder, `mdn_parser.py` lines 173-181:
empty string → `None`; `value.isdigit()` → `int(value)`;
`value.replace('.','').replace('-','').isdigit()` → `float(value)`
(which raises `ValueError` when the text is not a float literal);
otherwise the literal string. -/
def coerce_field (v : String) : Except PyErr PLeaf :=
  if v.data.isEmpty then .ok .pnone
  else if pyIsDigitStr v.data then .ok (.pint (digitsToNat v.data))
  else if pyIsDigitStr (removeAll '-' (removeAll '.' v.data)) then
    if floatLitOk v.data then .ok (.pfloat (floatValOf v.data))
    else .error (.valueError ("could not convert string to float: " ++ v))
  else .ok (.pstr v)

/-! ### Character-class facts -/

lemma char_le_iff_toNat (a b : Char) : a ≤ b ↔ a.toNat ≤ b.toNat := by
  rw [Char.le_def]
  exact Iff.rfl

lemma isUpperAZ_iff (c : Char) : isUpperAZ c = true ↔ 65 ≤ c.toNat ∧ c.toNat ≤ 90 := by
  unfold isUpperAZ
  rw [Bool.and_eq_true, decide_eq_true_iff, decide_eq_true_iff,
    char_le_iff_toNat, char_le_iff_toNat]
  exact Iff.rfl

lemma isDigit09_iff (c : Char) : isDigit09 c = true ↔ 48 ≤ c.toNat ∧ c.toNat ≤ 57 := by
  unfold isDigit09
  rw [Bool.and_eq_true, decide_eq_true_iff, decide_eq_true_iff,
    char_le_iff_toNat, char_le_iff_toNat]
  exact Iff.rfl

lemma pyIsAlphaChar_iff (c : Char) :
    pyIsAlphaChar c = true ↔ (65 ≤ c.toNat ∧ c.toNat ≤ 90) ∨ (97 ≤ c.toNat ∧ c.toNat ≤ 122) := by
  unfold pyIsAlphaChar
  rw [Bool.or_eq_true, Bool.and_eq_true, Bool.and_eq_true]
  simp only [decide_eq_true_iff, char_le_iff_toNat]
  exact Iff.rfl

lemma upper_not_digit {c : Char} (h : isUpperAZ c = true) : isDigit09 c = false := by
  rw [isUpperAZ_iff] at h
  rw [← Bool.not_eq_true, isDigit09_iff]
  omega

/-! ### Claim C5 — column letter / column index bijection -/

lemma itlGo_zero (f : Nat) : itlGo f 0 = [] := by cases f <;> simp [itlGo]

lemma itlGo_fuel : ∀ f g n, n ≤ f → n ≤ g → itlGo f n = itlGo g n := by
  intro f
  induction f with
  | zero =>
    intro g n hf _
    interval_cases n
    rw [itlGo_zero, itlGo_zero]
  | succ f ih =>
    intro g n hf hg
    match g with
    | 0 =>
      interval_cases n
      rw [itlGo_zero, itlGo_zero]
    | g + 1 =>
      by_cases hn : n = 0
      · subst hn; rw [itlGo_zero, itlGo_zero]
      · simp only [itlGo, hn, if_false]
        congr 1
        have h26 : (n - 1) / 26 ≤ n - 1 := Nat.div_le_self _ _
        exact ih _ _ (by omega) (by omega)

lemma itlAux_succ (n : Nat) (h : n ≠ 0) :
    itlAux n = itlAux ((n - 1) / 26) ++ [Char.ofNat (65 + (n - 1) % 26)] := by
  obtain ⟨f, rfl⟩ : ∃ f, n = f + 1 := ⟨n - 1, by omega⟩
  show itlGo (f + 1) (f + 1) = _
  simp only [itlGo, if_neg (by omega : ¬ f + 1 = 0)]
  congr 1
  have h26 : (f + 1 - 1) / 26 ≤ f := by
    have := Nat.div_le_self f 26; omega
  exact itlGo_fuel _ _ _ h26 (le_refl _)

lemma colLetterIndex_snoc (xs : List Char) (c : Char) :
    colLetterIndex (xs ++ [c]) = 26 * colLetterIndex xs + letterVal c := by
  induction xs with
  | nil => simp [colLetterIndex]
  | cons d ds ih =>
    simp only [List.cons_append, colLetterIndex, ih, List.append_eq, List.length_append,
      List.length_cons, List.length_nil]
    ring

lemma letterVal_ofNat_add (r : Nat) (h : r < 26) :
    letterVal (Char.ofNat (65 + r)) = (r : Int) + 1 := by
  interval_cases r <;> decide

lemma colLetterIndex_itlGo : ∀ f n, n ≤ f → colLetterIndex (itlGo f n) = (n : Int) := by
  intro f
  induction f with
  | zero =>
    intro n h
    interval_cases n
    simp [itlGo_zero, colLetterIndex]
  | succ f ih =>
    intro n h
    by_cases hn : n = 0
    · subst hn; simp [itlGo_zero, colLetterIndex]
    · simp only [itlGo, hn, if_false]
      rw [colLetterIndex_snoc]
      have hd : (n - 1) / 26 ≤ f := by
        have := Nat.div_le_self (n - 1) 26; omega
      rw [ih _ hd, letterVal_ofNat_add ((n - 1) % 26) (Nat.mod_lt _ (by norm_num))]
      have := Nat.div_add_mod (n - 1) 26
      omega

lemma colLetterIndex_itlAux (n : Nat) : colLetterIndex (itlAux n) = (n : Int) :=
  colLetterIndex_itlGo n n (le_refl n)

lemma colLetterIndex_nonneg (l : List Char) (h : ∀ c ∈ l, 1 ≤ letterVal c) :
    0 ≤ colLetterIndex l := by
  induction l with
  | nil => simp [colLetterIndex]
  | cons c cs ih =>
    simp only [colLetterIndex]
    have h1 : 1 ≤ letterVal c := h c (by simp)
    have h2 : (0 : Int) < 26 ^ cs.length := pow_pos (by norm_num) _
    have h3 : 0 ≤ colLetterIndex cs := ih (fun a ha => h a (by simp [ha]))
    nlinarith

lemma colLetterIndex_pos (l : List Char) (hne : l ≠ []) (h : ∀ c ∈ l, 1 ≤ letterVal c) :
    1 ≤ colLetterIndex l := by
  match l, hne with
  | c :: cs, _ =>
    simp only [colLetterIndex]
    have h1 : 1 ≤ letterVal c := h c (by simp)
    have h2 : (1 : Int) ≤ 26 ^ cs.length := one_le_pow₀ (by norm_num)
    have h3 : 0 ≤ colLetterIndex cs :=
      colLetterIndex_nonneg cs (fun a ha => h a (by simp [ha]))
    nlinarith

lemma upper_letterVal {c : Char} (h : isUpperAZ c = true) : 1 ≤ letterVal c := by
  rw [isUpperAZ_iff] at h
  unfold letterVal
  omega

lemma alpha_letterVal {c : Char} (h : pyIsAlphaChar c = true) : 1 ≤ letterVal c := by
  rw [pyIsAlphaChar_iff] at h
  unfold letterVal
  omega

lemma itlAux_colLetterIndex :
    ∀ l : List Char, (∀ c ∈ l, isUpperAZ c = true) → itlAux ((colLetterIndex l).toNat) = l := by
  intro l
  induction l using List.reverseRecOn with
  | nil => intro _; rfl
  | append_singleton xs c ih =>
    intro h
    have hxs : ∀ a ∈ xs, isUpperAZ a = true := fun a ha => h a (by simp [ha])
    have hc : isUpperAZ c = true := h c (by simp)
    have hcb := (isUpperAZ_iff c).mp hc
    have hL0 : 0 ≤ colLetterIndex xs :=
      colLetterIndex_nonneg xs (fun a ha => upper_letterVal (hxs a ha))
    rw [colLetterIndex_snoc]
    set a := (colLetterIndex xs).toNat with ha
    have hLa : colLetterIndex xs = (a : Int) := (Int.toNat_of_nonneg hL0).symm
    set w := c.toNat - 64 with hw
    have hvw : letterVal c = (w : Int) := by unfold letterVal; omega
    have htn : (26 * colLetterIndex xs + letterVal c).toNat = 26 * a + w := by
      rw [hLa, hvw]; omega
    rw [htn, itlAux_succ _ (by omega)]
    have hdiv : (26 * a + w - 1) / 26 = a := by omega
    have hmod : (26 * a + w - 1) % 26 = w - 1 := by omega
    rw [hdiv, hmod]
    congr 1
    · exact ih hxs
    · have : 65 + (w - 1) = c.toNat := by omega
      rw [this, Char.ofNat_toNat]

/-- C5: `column_letter_to_index` and `column_index_to_letter` are mutually
inverse — letters-to-index-to-letters is the identity on valid (non-empty,
uppercase) column strings, index-to-letters-to-index is the identity on
every integer at least 1, and the boundary pairs 1↔A, 26↔Z, 27↔AA,
702↔ZZ, 703↔AAA hold. -/
theorem C5_column_conversion_inverse :
    (∀ s : String, s.data ≠ [] → (∀ c ∈ s.data, isUpperAZ c = true) →
      column_index_to_letter (column_letter_to_index s) = .ok s)
    ∧ (∀ i : Int, 1 ≤ i →
      ∃ t, column_index_to_letter i = .ok t ∧ column_letter_to_index t = i)
    ∧ column_index_to_letter 1 = .ok "A"
    ∧ column_index_to_letter 26 = .ok "Z"
    ∧ column_index_to_letter 27 = .ok "AA"
    ∧ column_index_to_letter 702 = .ok "ZZ"
    ∧ column_index_to_letter 703 = .ok "AAA" := by
  refine ⟨?_, ?_, by decide, by decide, by decide, by decide, by decide⟩
  · intro s hne hupper
    have hpos : 1 ≤ column_letter_to_index s :=
      colLetterIndex_pos s.data hne (fun c hc => upper_letterVal (hupper c hc))
    unfold column_index_to_letter
    rw [if_neg (by omega)]
    have : itlAux ((column_letter_to_index s).toNat) = s.data :=
      itlAux_colLetterIndex s.data hupper
    rw [this]
  · intro i hi
    refine ⟨⟨itlAux i.toNat⟩, ?_, ?_⟩
    · unfold column_index_to_letter
      rw [if_neg (by omega)]
    · show colLetterIndex (itlAux i.toNat) = i
      rw [colLetterIndex_itlAux, Int.toNat_of_nonneg (by omega)]

theorem C5_column_conversion_inverse_witness :
    ("AB" : String).data ≠ [] ∧ (∀ c ∈ ("AB" : String).data, isUpperAZ c = true) ∧
      column_index_to_letter (column_letter_to_index "AB") = .ok "AB" ∧
      ∃ t, column_index_to_letter 27 = .ok t ∧ column_letter_to_index t = 27 :=
  ⟨by decide, by decide,
    C5_column_conversion_inverse.1 "AB" (by decide) (by decide),
    C5_column_conversion_inverse.2.1 27 (by norm_num)⟩

/-! ### Claim C7 — parse_cell_reference and its anchoring -/

/-- Property of matching the regular expression `[A-Z]+\d+` at the START of
the string (what `re.match` actually checks): some decomposition into a
non-empty uppercase run, a non-empty digit run, and an arbitrary rest. -/
def CellRefPrefixMatch (l : List Char) : Prop :=
  ∃ L D r, l = L ++ D ++ r ∧ L ≠ [] ∧ (∀ c ∈ L, isUpperAZ c = true)
    ∧ D ≠ [] ∧ (∀ c ∈ D, isDigit09 c = true)

/-- Matching the fully anchored pattern `^[A-Z]+[0-9]+$` of the claim. -/
def cellRefFullMatch (l : List Char) : Bool :=
  !(l.takeWhile isUpperAZ).isEmpty && !(l.dropWhile isUpperAZ).isEmpty
    && (l.dropWhile isUpperAZ).all isDigit09

lemma cellRefPrefixMatch_iff (l : List Char) :
    CellRefPrefixMatch l ↔
      ((l.takeWhile isUpperAZ).isEmpty = false
        ∧ ((l.dropWhile isUpperAZ).takeWhile isDigit09).isEmpty = false) := by
  constructor
  · rintro ⟨L, D, r, rfl, hL, hLu, hD, hDd⟩
    have hLtake : L.takeWhile isUpperAZ = L := List.takeWhile_eq_self_iff.mpr hLu
    have hLdrop : L.dropWhile isUpperAZ = [] := by
      have := List.takeWhile_append_dropWhile isUpperAZ L
      rw [hLtake] at this
      simpa using this
    obtain ⟨d, D₂, rfl⟩ : ∃ d D₂, D = d :: D₂ := by
      match D, hD with
      | d :: D₂, _ => exact ⟨d, D₂, rfl⟩
    have hddig : isDigit09 d = true := hDd d (by simp)
    have hdup : isUpperAZ d = false := by
      rw [← Bool.not_eq_true, isUpperAZ_iff]
      have := (isDigit09_iff d).mp hddig
      omega
    constructor
    · simp [List.append_assoc, List.takeWhile_append, hLtake, hL]
    · simp [List.append_assoc, List.dropWhile_append, hLdrop, hdup, hddig,
        List.dropWhile_cons, List.takeWhile_cons]
  · rintro ⟨h1, h2⟩
    refine ⟨l.takeWhile isUpperAZ, (l.dropWhile isUpperAZ).takeWhile isDigit09,
      (l.dropWhile isUpperAZ).dropWhile isDigit09, ?_, ?_, ?_, ?_, ?_⟩
    · rw [List.append_assoc, List.takeWhile_append_dropWhile,
        List.takeWhile_append_dropWhile]
    · exact List.isEmpty_eq_false.mp h1
    · exact fun c hc => List.mem_takeWhile_imp hc
    · exact List.isEmpty_eq_false.mp h2
    · exact fun c hc => List.mem_takeWhile_imp hc

lemma parse_cell_reference_eq (s : String) :
    parse_cell_reference s =
      (if ((s.data.takeWhile isUpperAZ).isEmpty
          || ((s.data.dropWhile isUpperAZ).takeWhile isDigit09).isEmpty) = true
        then .error (.valueError ("Invalid cell reference: " ++ s))
        else .ok (⟨s.data.takeWhile isUpperAZ⟩, colLetterIndex (s.data.takeWhile isUpperAZ),
          (digitsToNat ((s.data.dropWhile isUpperAZ).takeWhile isDigit09) : Int))) := rfl

/-- C7 (amended): `parse_cell_reference` fails exactly when the reference
has no prefix of one-or-more uppercase letters followed by one-or-more
digits (`re.match` anchors only at the start, so a trailing rest is
accepted), and on every string fully matching `^[A-Z]+[0-9]+$` it returns
the triple (letters, 1-based column index, row number). -/
theorem C7_parse_cell_reference_characterisation (s : String) :
    ((∃ e, parse_cell_reference s = .error e) ↔ ¬ CellRefPrefixMatch s.data)
    ∧ (cellRefFullMatch s.data = true →
      parse_cell_reference s = .ok (⟨s.data.takeWhile isUpperAZ⟩,
        colLetterIndex (s.data.takeWhile isUpperAZ),
        (digitsToNat (s.data.dropWhile isUpperAZ) : Int))) := by
  constructor
  · rw [cellRefPrefixMatch_iff, parse_cell_reference_eq]
    by_cases h : ((s.data.takeWhile isUpperAZ).isEmpty
        || ((s.data.dropWhile isUpperAZ).takeWhile isDigit09).isEmpty) = true
    · rw [if_pos h]
      simp only [Bool.or_eq_true] at h
      constructor
      · rintro - ⟨ha, hb⟩
        rcases h with h | h
        · rw [ha] at h; cases h
        · rw [hb] at h; cases h
      · intro _; exact ⟨_, rfl⟩
    · rw [if_neg h]
      simp only [Bool.or_eq_true, not_or, Bool.not_eq_true] at h
      constructor
      · rintro ⟨e, he⟩
        exact Except.noConfusion he
      · intro hn
        exact (hn h).elim
  · intro hfull
    unfold cellRefFullMatch at hfull
    simp only [Bool.and_eq_true, Bool.not_eq_true'] at hfull
    obtain ⟨⟨h1, h2⟩, h3⟩ := hfull
    have htake : (s.data.dropWhile isUpperAZ).takeWhile isDigit09
        = s.data.dropWhile isUpperAZ :=
      List.takeWhile_eq_self_iff.mpr (fun c hc => List.all_eq_true.mp h3 c hc)
    rw [parse_cell_reference_eq, htake, if_neg (by simp [h1, h2])]

/-- C7 counterexample: the string `A1B` does not match the claim's anchored
pattern `^[A-Z]+[0-9]+$`, yet `parse_cell_reference` succeeds on it (and
returns the parse of the `A1` prefix), so the claim as stated is false. -/
theorem C7_counterexample :
    cellRefFullMatch ("A1B" : String).data = false
      ∧ parse_cell_reference "A1B" = .ok ("A", 1, 1) := by decide

theorem C7_parse_cell_reference_witness :
    cellRefFullMatch ("B12" : String).data = true
      ∧ parse_cell_reference "B12" = .ok ("B", 2, 12) := by
  refine ⟨by decide, ?_⟩
  have h := (C7_parse_cell_reference_characterisation "B12").2 (by decide)
  exact h.trans (by decide)

/-! ### Claim C4 — CSV field coercion -/

/-- Matching of the claim's anchored pattern `^-?[0-9]+$`. -/
def intLitMatch (l : List Char) : Bool :=
  match l with
  | '-' :: r => pyIsDigitStr r
  | _ => pyIsDigitStr l

/-- Signed decimal value for a `^-?[0-9]+$` literal. -/
def intLitVal (l : List Char) : Int :=
  match l with
  | '-' :: r => -(digitsToNat r : Int)
  | _ => (digitsToNat l : Int)

/-- Matching of the claim's real rule: only digits, at most one `.`, and an
optional leading `-`, with at least one digit. -/
def specRealMatch (l : List Char) : Bool :=
  let m := floatCore l
  !(m.contains '-') && (m.count '.' ≤ 1) && m.any isDigit09 &&
    m.all (fun c => isDigit09 c || c == '.')

/-- Modelled from the claim's sentence (the coercion rule the spec states),
kept for comparison with the code's `coerce_field`. -/
def coerce_claimed (v : String) : PLeaf :=
  if v.data.isEmpty then .pnone
  else if intLitMatch v.data then .pint (intLitVal v.data)
  else if specRealMatch v.data then .pfloat (floatValOf v.data)
  else .pstr v

/-- C4 counterexample: on the field `-5` the claim's rule produces the
integer `-5` (it matches `^-?[0-9]+$`), but the decoder's coercion produces
the real `-5.0`, because `str.isdigit` cannot match a leading minus and the
field then falls through to the `float(...)` branch. -/
theorem C4_counterexample :
    coerce_field "-5" = .ok (.pfloat (-5)) ∧ coerce_claimed "-5" = .pint (-5) := by
  decide

lemma numericScreen_eq (l : List Char) :
    pyIsDigitStr (removeAll '-' (removeAll '.' l)) =
      (l.any isDigit09 && l.all (fun c => isDigit09 c || c == '.' || c == '-')) := by
  have hfilter : removeAll '-' (removeAll '.' l)
      = l.filter (fun c => !(c == '-') && !(c == '.')) := by
    unfold removeAll
    rw [List.filter_filter]
  unfold pyIsDigitStr
  rw [hfilter, Bool.eq_iff_iff]
  constructor
  · intro h
    rw [Bool.and_eq_true, Bool.not_eq_true', List.isEmpty_eq_false] at h
    obtain ⟨hne, hall⟩ := h
    rw [Bool.and_eq_true]
    constructor
    · obtain ⟨c, hc⟩ := List.exists_mem_of_ne_nil _ hne
      rw [List.any_eq_true]
      exact ⟨c, (List.mem_filter.mp hc).1, List.all_eq_true.mp hall c hc⟩
    · rw [List.all_eq_true]
      intro c hcl
      by_cases h1 : c = '-'
      · subst h1; decide
      by_cases h2 : c = '.'
      · subst h2; decide
      have hcf : c ∈ l.filter (fun c => !(c == '-') && !(c == '.')) :=
        List.mem_filter.mpr ⟨hcl, by simp [h1, h2]⟩
      have := List.all_eq_true.mp hall c hcf
      simp [this]
  · intro h
    rw [Bool.and_eq_true, List.any_eq_true] at h
    obtain ⟨⟨c₀, hc₀l, hc₀d⟩, hall⟩ := h
    rw [Bool.and_eq_true, Bool.not_eq_true', List.isEmpty_eq_false]
    constructor
    · intro hnil
      have hmem : c₀ ∈ l.filter (fun c => !(c == '-') && !(c == '.')) := by
        refine List.mem_filter.mpr ⟨hc₀l, ?_⟩
        have h1 : c₀ ≠ '-' := by rintro rfl; exact absurd hc₀d (by decide)
        have h2 : c₀ ≠ '.' := by rintro rfl; exact absurd hc₀d (by decide)
        simp [h1, h2]
      rw [hnil] at hmem
      cases hmem
    · rw [List.all_eq_true]
      intro c hcf
      obtain ⟨hcl, hR⟩ := List.mem_filter.mp hcf
      have hQ := List.all_eq_true.mp hall c hcl
      simp only [Bool.and_eq_true, Bool.not_eq_true', beq_eq_false_iff_ne, ne_eq] at hR
      simp only [Bool.or_eq_true, beq_iff_eq] at hQ
      rcases hQ with (hd | h') | h'
      · exact hd
      · exact absurd h' hR.2
      · exact absurd h' hR.1

/-- Coercion rule as the counterexample forces it to be amended: the empty
string is null; a field of plain digits (no sign) is an integer; a field
containing at least one digit and consisting only of digits, `.` and `-`
is passed to `float(...)`, yielding its decimal value for a valid float
literal and an uncaught `ValueError` otherwise; any other field stays the
literal string. -/
def coerce_amended (v : String) : Except PyErr PLeaf :=
  if v.data.isEmpty then .ok .pnone
  else if v.data.all isDigit09 then .ok (.pint (digitsToNat v.data))
  else if v.data.any isDigit09 && v.data.all (fun c => isDigit09 c || c == '.' || c == '-') then
    if floatLitOk v.data then .ok (.pfloat (floatValOf v.data))
    else .error (.valueError ("could not convert string to float: " ++ v))
  else .ok (.pstr v)

/-- C4 (amended): the decoder's field coercion agrees with the amended
rule on every field. -/
theorem C4_coercion_amended (v : String) : coerce_field v = coerce_amended v := by
  unfold coerce_field coerce_amended
  by_cases hempty : v.data.isEmpty
  · rw [if_pos hempty, if_pos hempty]
  rw [if_neg hempty, if_neg hempty]
  have hdig : pyIsDigitStr v.data = v.data.all isDigit09 := by
    unfold pyIsDigitStr
    rw [Bool.eq_iff_iff, Bool.and_eq_true, Bool.not_eq_true']
    constructor
    · exact fun h => h.2
    · intro h
      refine ⟨?_, h⟩
      simp only [Bool.not_eq_true] at hempty
      exact hempty
  rw [hdig, numericScreen_eq]

/-! ### Claim C6 — rectangular ranges raise TypeError -/

/-- C6: the docstring of `parse_range_reference` promises the cell list for
`A1:B3`, but the `[:2]` slice of the `parse_cell_reference` triple binds
the letter string as `start_col`, so every rectangular range raises
`TypeError` instead of returning the rectangle. -/
theorem C6_rectangular_range_type_error :
    parse_range_reference "A1:B3" =
        .error (.typeError "can only concatenate str (not \"int\") to str")
      ∧ parse_range_reference "A1:B3" ≠ .ok ["A1", "A2", "A3", "B1", "B2", "B3"] := by
  decide

/-! ### Claim C9 — bare-column ranges expand to rows 1..1000 -/

lemma splitChar_no_sep (sep : Char) (l : List Char) (h : ∀ c ∈ l, c ≠ sep) :
    splitChar sep l = [l] := by
  induction l with
  | nil => rfl
  | cons c rest ih =>
    have hc : c ≠ sep := h c (by simp)
    rw [splitChar, ih (fun a ha => h a (by simp [ha]))]
    simp [hc]

lemma splitChar_single_sep (sep : Char) (a b : List Char)
    (ha : ∀ c ∈ a, c ≠ sep) (hb : ∀ c ∈ b, c ≠ sep) :
    splitChar sep (a ++ sep :: b) = [a, b] := by
  induction a with
  | nil =>
    rw [List.nil_append, splitChar, splitChar_no_sep sep b hb]
    simp
  | cons x a' ih =>
    have hx : x ≠ sep := ha x (by simp)
    rw [List.cons_append, splitChar, ih (fun c hc => ha c (by simp [hc]))]
    simp [hx]

lemma dropWhile_all_false {p : Char → Bool} {l : List Char}
    (h : ∀ c ∈ l, p c = false) : l.dropWhile p = l := by
  cases l with
  | nil => rfl
  | cons c rest => rw [List.dropWhile_cons, if_neg (by simp [h c (by simp)])]

lemma pyStrip_no_ws (l : List Char) (h : ∀ c ∈ l, isPyWs c = false) : pyStrip l = l := by
  unfold pyStrip
  rw [dropWhile_all_false h, dropWhile_all_false (fun c hc => h c (List.mem_reverse.mp hc)),
    List.reverse_reverse]

lemma mapM_except_ok {α β : Type} (f : α → Except PyErr β) (g : α → β) (l : List α)
    (h : ∀ a ∈ l, f a = .ok (g a)) : l.mapM f = .ok (l.map g) := by
  induction l with
  | nil => rfl
  | cons a l ih =>
    rw [List.mapM_cons, h a (by simp), ih (fun x hx => h x (by simp [hx]))]
    rfl

lemma alpha_char_facts {c : Char} (h : pyIsAlphaChar c = true) :
    c ≠ ',' ∧ c ≠ ':' ∧ isPyWs c = false := by
  rw [pyIsAlphaChar_iff] at h
  refine ⟨?_, ?_, ?_⟩
  · rintro rfl; revert h; decide
  · rintro rfl; revert h; decide
  · rw [← Bool.not_eq_true]
    intro hws
    have : c = ' ' ∨ c = '\t' ∨ c = '\n' ∨ c = '\r' := by
      unfold isPyWs at hws
      simp only [Bool.or_eq_true, beq_iff_eq] at hws
      tauto
    rcases this with rfl | rfl | rfl | rfl <;> revert h <;> decide

/-- C9: for a bare-column range `X:Y` with purely alphabetic endpoints,
`parse_range_reference` expands every column from `index(X)` to
`index(Y)` to exactly rows 1..1000, column by column (1000 is the
hard-coded policy bound of `utils.py` line 129). -/
theorem C9_bare_column_range (X Y : String)
    (hx : pyIsAlpha X.data = true) (hy : pyIsAlpha Y.data = true) :
    parse_range_reference (X ++ ":" ++ Y) =
      .ok ((pyRange (column_letter_to_index X) (column_letter_to_index Y + 1)).flatMap
        (fun ci => (List.range' 1 1000).map (fun r => ⟨itlAux ci.toNat⟩ ++ natStrS r))) := by
  have hx' := hx
  have hy' := hy
  unfold pyIsAlpha at hx' hy'
  rw [Bool.and_eq_true, Bool.not_eq_true', List.isEmpty_eq_false] at hx' hy'
  obtain ⟨hxne, hxall⟩ := hx'
  obtain ⟨hyne, hyall⟩ := hy'
  have hxc : ∀ c ∈ X.data, pyIsAlphaChar c = true := List.all_eq_true.mp hxall
  have hyc : ∀ c ∈ Y.data, pyIsAlphaChar c = true := List.all_eq_true.mp hyall
  have hdata : (X ++ ":" ++ Y).data = X.data ++ ':' :: Y.data := by
    rw [String.data_append, String.data_append,
      show (":" : String).data = [':'] from rfl]
    simp
  unfold parse_range_reference
  rw [hdata]
  have hsplit : splitChar ',' (X.data ++ ':' :: Y.data) = [X.data ++ ':' :: Y.data] := by
    apply splitChar_no_sep
    intro c hc
    rcases List.mem_append.mp hc with h | h
    · exact (alpha_char_facts (hxc c h)).1
    · rcases List.mem_cons.mp h with rfl | h
      · decide
      · exact (alpha_char_facts (hyc c h)).1
  rw [hsplit]
  unfold rangeParts
  have hstrip : pyStrip (X.data ++ ':' :: Y.data) = X.data ++ ':' :: Y.data := by
    apply pyStrip_no_ws
    intro c hc
    rcases List.mem_append.mp hc with h | h
    · exact (alpha_char_facts (hxc c h)).2.2
    · rcases List.mem_cons.mp h with rfl | h
      · decide
      · exact (alpha_char_facts (hyc c h)).2.2
  rw [hstrip]
  unfold rangePart
  have hcont : (X.data ++ ':' :: Y.data).contains ':' = true :=
    List.elem_iff.mpr (by simp)
  rw [if_pos hcont]
  have hcolon : splitChar ':' (X.data ++ ':' :: Y.data) = [X.data, Y.data] :=
    splitChar_single_sep ':' X.data Y.data
      (fun c hc => (alpha_char_facts (hxc c hc)).2.1)
      (fun c hc => (alpha_char_facts (hyc c hc)).2.1)
  rw [hcolon]
  show (if pyIsAlpha X.data && pyIsAlpha Y.data then _ else _) >>= _ = _
  rw [if_pos (by rw [hx, hy]; rfl)]
  have hexp : expandColumnRange (colLetterIndex X.data) (colLetterIndex Y.data) =
      .ok ((pyRange (colLetterIndex X.data) (colLetterIndex Y.data + 1)).flatMap
        (fun ci => (List.range' 1 1000).map (fun r => ⟨itlAux ci.toNat⟩ ++ natStrS r))) := by
    unfold expandColumnRange
    have hpos : 1 ≤ colLetterIndex X.data :=
      colLetterIndex_pos X.data hxne (fun c hc => alpha_letterVal (hxc c hc))
    rw [mapM_except_ok _
      (fun ci => (List.range' 1 1000).map (fun r => (⟨itlAux ci.toNat⟩ : String) ++ natStrS r)) _
      ?_]
    · rw [List.flatMap_def]
      rfl
    · intro ci hci
      obtain ⟨k, _, rfl⟩ := List.mem_map.mp hci
      have h1 : (1 : Int) ≤ colLetterIndex X.data + (k : Int) := by omega
      unfold column_index_to_letter
      rw [if_neg (not_lt.mpr h1)]
      rfl
  rw [hexp]
  exact congrArg Except.ok (List.append_nil _)

theorem C9_bare_column_range_witness :
    parse_range_reference "A:B" =
      .ok ((pyRange (column_letter_to_index "A") (column_letter_to_index "B" + 1)).flatMap
        (fun ci => (List.range' 1 1000).map (fun r => ⟨itlAux ci.toNat⟩ ++ natStrS r))) :=
  C9_bare_column_range "A" "B" (by decide) (by decide)

/-! ### Python dict and value helpers -/

/-- Python dict assignment `m[k] = v`: update in place when the key exists,
append otherwise (insertion order preserved, as in Python 3.7+). -/
def dictSet {β : Type} : List (String × β) → String → β → List (String × β)
  | [], k, v => [(k, v)]
  | (k', v') :: rest, k, v =>
    if k' = k then (k, v) :: rest else (k', v') :: dictSet rest k v

/-- Python dict lookup returning the first (and only) binding. -/
def dictGet {β : Type} : List (String × β) → String → Option β
  | [], _ => none
  | (k', v') :: rest, k => if k' = k then some v' else dictGet rest k

/-- Python truthiness of a scalar. -/
def pyTruthyLeaf : PLeaf → Bool
  | .pnone => false
  | .pbool b => b
  | .pint n => !(n == 0)
  | .pfloat q => !(q == 0)
  | .pstr s => !s.data.isEmpty

/-- Python truthiness of a top-level value. -/
def pyTruthy : PVal → Bool
  | .leaf v => pyTruthyLeaf v
  | .list l => !l.isEmpty
  | .dict m => !m.isEmpty

/-! ### CSV record reader (csv.reader collaborator, excel dialect) -/

/-- Parser modes: start of a field, inside an unquoted field, inside a
quoted field, after a closing quote. -/
inductive CsvMode
  | start
  | unquoted
  | quoted
  | postq

/-- Prepend a character to the first (current) field. -/
def consFirst (c : Char) : List (List Char) → List (List Char)
  | [] => [[c]]
  | f :: r => (c :: f) :: r

/-- State machine of the quote-aware CSV field scanner: `"` opens a quoted
field only at field start, `""` inside quotes is a literal quote, text
after a closing quote is appended to the same field. -/
def csvGo : CsvMode → List Char → List (List Char)
  | _, [] => [[]]
  | .quoted, '"' :: '"' :: rest => consFirst '"' (csvGo .quoted rest)
  | .quoted, '"' :: rest => csvGo .postq rest
  | .quoted, c :: rest => consFirst c (csvGo .quoted rest)
  | .start, ',' :: rest => [] :: csvGo .start rest
  | .start, '"' :: rest => csvGo .quoted rest
  | .start, c :: rest => consFirst c (csvGo .unquoted rest)
  | .unquoted, ',' :: rest => [] :: csvGo .start rest
  | .unquoted, c :: rest => consFirst c (csvGo .unquoted rest)
  | .postq, ',' :: rest => [] :: csvGo .start rest
  | .postq, '"' :: rest => csvGo .quoted rest
  | .postq, c :: rest => consFirst c (csvGo .postq rest)

/-- Record terminators (`\r`, `\n`) at the end of a line are consumed by the
reader, not kept in the last field. -/
def dropTrailingCR (l : List Char) : List Char :=
  (l.reverse.dropWhile (fun c => c == '\r' || c == '\n')).reverse

/-- Fields of one CSV record line (`csv.reader` collaborator on a
single-line record). -/
def csvFields (l : List Char) : List (List Char) := csvGo .start (dropTrailingCR l)

/-! ### YAML collaborator model (yaml.safe_load / yaml.dump fragment) -/

/-- Words resolved as booleans by the YAML 1.1 resolver. -/
def yamlBoolWords : List (List Char) :=
  ["yes", "Yes", "YES", "no", "No", "NO", "true", "True", "TRUE",
    "false", "False", "FALSE", "on", "On", "ON", "off", "Off", "OFF"].map String.data

/-- Words whose truth value is `true` among `yamlBoolWords`. -/
def yamlTrueWords : List (List Char) :=
  ["yes", "Yes", "YES", "true", "True", "TRUE", "on", "On", "ON"].map String.data

/-- Words resolved as null. -/
def yamlNullWords : List (List Char) :=
  ["null", "Null", "NULL", "~"].map String.data

/-- Signed-integer shape `-?[0-9]+`. -/
def yamlIntShape (l : List Char) : Bool :=
  match l with
  | '-' :: r => pyIsDigitStr r
  | _ => pyIsDigitStr l

/-- Signed decimal float shape `-?[0-9]+\.[0-9]*`. -/
def yamlFloatShape (l : List Char) : Bool :=
  let m := floatCore l
  (m.count '.' == 1) && !(m.contains '-') && m.any isDigit09 &&
    m.all (fun c => isDigit09 c || c == '.')

/-- Resolution of a plain or quoted scalar to a Python value, modelling the
implicit resolvers PyYAML applies on the fragment of scalars these
documents contain. -/
def yamlResolveScalar (l : List Char) : PLeaf :=
  match l with
  | '\'' :: rest =>
    match rest.reverse with
    | '\'' :: core => .pstr ⟨core.reverse⟩
    | _ => .pstr ⟨l⟩
  | '"' :: rest =>
    match rest.reverse with
    | '"' :: core => .pstr ⟨core.reverse⟩
    | _ => .pstr ⟨l⟩
  | _ =>
    if l.isEmpty then .pnone
    else if yamlNullWords.contains l then .pnone
    else if yamlBoolWords.contains l then .pbool (yamlTrueWords.contains l)
    else if yamlIntShape l then
      match l with
      | '-' :: r => .pint (-(digitsToNat r : Int))
      | _ => .pint (digitsToNat l : Int)
    else if yamlFloatShape l then .pfloat (floatValOf l)
    else .pstr ⟨l⟩

/-- Split a mapping line at the first `:` that is followed by a space or
ends the line (the YAML key/value separator). -/
def findColonSep : List Char → Option (List Char × List Char)
  | [] => none
  | ':' :: [] => some ([], [])
  | ':' :: ' ' :: rest => some ([], rest)
  | c :: rest =>
    match findColonSep rest with
    | some (a, b) => some (c :: a, b)
    | none => none

/-- Is this (already stripped) line a `- item` sequence entry? -/
def isDashItem (s : List Char) : Bool := "- ".data.isPrefixOf s

/-- One classified line of a block-style YAML document. -/
inductive YTok
  | blank
  | item (v : PLeaf)
  | kv (k : String) (v : PLeaf)
  | kvEmpty (k : String)
deriving DecidableEq, Repr

/-- Classify one raw payload line.  Indentation-nested block structure is
outside the fragment these payloads use at this level and is reported as
a parse error rather than silently flattened. -/
def yamlTok (line : List Char) : Except String YTok :=
  let s := pyStrip line
  if s.isEmpty then .ok .blank
  else if (match line with | ' ' :: _ => true | _ => false) then
    .error "indented block outside modelled fragment"
  else if isDashItem s then .ok (.item (yamlResolveScalar (pyStrip (s.drop 2))))
  else
    match findColonSep s with
    | none => .error "could not find expected ':'"
    | some (k, v) =>
      let v' := pyStrip v
      if v'.isEmpty then .ok (.kvEmpty ⟨pyStrip k⟩)
      else .ok (.kv ⟨pyStrip k⟩ (yamlResolveScalar v'))

/-- Classify every line. -/
def yamlToks : List (List Char) → Except String (List YTok)
  | [] => .ok []
  | l :: rest =>
    match yamlTok l, yamlToks rest with
    | .error e, _ => .error e
    | _, .error e => .error e
    | .ok t, .ok ts => .ok (t :: ts)

/-- Assemble mapping entries from the token list processed in reverse:
`pending` carries the `- item` entries seen below the current position,
which attach to the nearest `key:` line above them. -/
def yamlGoRev : List YTok → List PLeaf → Except String (List (String × PSub))
  | [], pending =>
    if pending.isEmpty then .ok [] else .error "sequence entries without a key"
  | .blank :: rest, pending => yamlGoRev rest pending
  | .item v :: rest, pending => yamlGoRev rest (v :: pending)
  | .kv k v :: rest, pending =>
    if pending.isEmpty then
      match yamlGoRev rest [] with
      | .error e => .error e
      | .ok es => .ok (es ++ [(k, .leaf v)])
    else .error "sequence entries after scalar value"
  | .kvEmpty k :: rest, pending =>
    match yamlGoRev rest [] with
    | .error e => .error e
    | .ok es => .ok (es ++ [(k, if pending.isEmpty then .leaf .pnone else .list pending)])

/-- Model of the `yaml.safe_load` collaborator on the payload fragment:
block mappings of plain/quoted scalars, `key:` with unindented `- item`
sequences, pure sequence documents, single plain scalars, the empty flow
mapping, and the empty document. -/
def yamlLoadModel (s : String) : Except String PVal :=
  let t := pyStrip s.data
  if t.isEmpty then .ok (.leaf .pnone)
  else if t = "{}".data then .ok (.dict [])
  else
    match splitChar '\n' t with
    | [l] =>
      match yamlTok l with
      | .error _ => .ok (.leaf (yamlResolveScalar (pyStrip l)))
      | .ok (.item v) => .ok (.list [v])
      | .ok (.kv k v) => .ok (.dict [(k, .leaf v)])
      | .ok (.kvEmpty k) => .ok (.dict [(k, .leaf .pnone)])
      | .ok .blank => .ok (.leaf .pnone)
    | lines =>
      match yamlToks lines with
      | .error e => .error e
      | .ok toks =>
        if toks.all (fun tok => match tok with | .item _ => true | .blank => true | _ => false) then
          .ok (.list (toks.filterMap (fun tok => match tok with | .item v => some v | _ => none)))
        else
          match yamlGoRev toks.reverse [] with
          | .error e => .error e
          | .ok entries => .ok (.dict entries)

/-! ### mdn_parser.py — the Decoder (MDNToExcelConverter) -/

/-- Remove every occurrence of `pat` (`str.replace(pat, '')`), fuel-guarded
so it stays structural; `l.length` fuel always suffices. -/
def removeSeqGo (pat : List Char) : Nat → List Char → List Char
  | 0, l => l
  | _ + 1, [] => []
  | f + 1, c :: rest =>
    if pat ≠ [] ∧ pat.isPrefixOf (c :: rest) then
      removeSeqGo pat f (List.drop pat.length (c :: rest))
    else c :: removeSeqGo pat f rest

/-- Model of Python `s.replace(pat, '')`. -/
def removeSeq (pat l : List Char) : List Char := removeSeqGo pat l.length l

/-- Text before the first occurrence of `pat` (`s.split(pat)[0]`). -/
def beforeSeq (pat : List Char) : List Char → List Char
  | [] => []
  | c :: rest =>
    if pat ≠ [] ∧ pat.isPrefixOf (c :: rest) then []
    else c :: beforeSeq pat rest

/-- Model of `re.search(r'name=([^\s]+)', line)`: the first occurrence of
`name=` followed by at least one non-whitespace character captures the
maximal non-whitespace run after it. -/
def findNameAttr : List Char → Option (List Char)
  | [] => none
  | c :: rest =>
    if "name=".data.isPrefixOf (c :: rest) then
      let tok := (List.drop 5 (c :: rest)).takeWhile (fun a => !isPyWs a)
      if tok.isEmpty then findNameAttr rest else some tok
    else findNameAttr rest

/-- Parser state of `MDNToExcelConverter` (its instance fields). -/
structure DecoderState where
  sheets_data : List (String × List (List Char)) := []
  formulas : PVal := .dict []
  formatting : PVal := .dict []
  header_data : PVal := .dict []
deriving DecidableEq, Repr

/-- `_parse_header_section` (`mdn_parser.py` lines 82-96): strip the marker
token and the optional context sub-block, then YAML-parse.  A YAML syntax
error is recovered with the fallback header; but the success path calls
`self.header_data.get(...)`, which raises `AttributeError` when the parsed
payload is not a mapping. -/
def header_yaml_content (seg : List Char) : List Char :=
  let y := pyStrip (removeSeq "MDN:HEADER YAML".data seg)
  if containsSeq "# optional context section".data y then
    pyStrip (beforeSeq "# optional context section".data y)
  else y

def parse_header_section (st : DecoderState) (seg : List Char) :
    Except PyErr DecoderState :=
  let fallback : PVal :=
    PVal.dict [("source", .leaf (.pstr "unknown.xlsx")), ("sheets", .list [])]
  match yamlLoadModel ⟨header_yaml_content seg⟩ with
  | .error _ => .ok { st with header_data := fallback }
  | .ok v =>
    match v with
    | .dict m => .ok { st with header_data := PVal.dict m }
    | _ => .error (.attributeError "object has no attribute 'get'")

/-- Loop body of `_parse_sheet_section` (`mdn_parser.py` lines 98-116):
track the latest extracted sheet name (truncated at the first whitespace
by the `[^\s]+` capture) and accumulate the non-blank payload lines not
starting with `MDN:`, unstripped. -/
def sheetScanStep (acc : Option (List Char) × List (List Char)) (line : List Char) :
    Option (List Char) × List (List Char) :=
  if "MDN:SHEET CSV".data.isPrefixOf line then
    match findNameAttr line with
    | some tok => (some tok, acc.2)
    | none => acc
  else if !(pyStrip line).isEmpty && !("MDN:".data.isPrefixOf line) then
    (acc.1, acc.2 ++ [line])
  else acc

def parse_sheet_section (st : DecoderState) (seg : List Char) : DecoderState :=
  let lines := splitChar '\n' seg
  match lines.foldl sheetScanStep (none, []) with
  | (some nm, csv) =>
    if csv.isEmpty then st
    else { st with sheets_data := dictSet st.sheets_data ⟨nm⟩ csv }
  | (none, _) => st

/-- `_parse_formulas_section` (`mdn_parser.py` lines 118-128): YAML-parse
the payload; on failure warn and keep `{}`; a falsy result also becomes
`{}` (the `or {}`). -/
def parse_formulas_section (st : DecoderState) (seg : List Char) : DecoderState :=
  match yamlLoadModel ⟨pyStrip (removeSeq "MDN:FORMULAS JSON".data seg)⟩ with
  | .error _ => { st with formulas := .dict [] }
  | .ok v => { st with formulas := if pyTruthy v then v else .dict [] }

/-- `_parse_formatting_section` (`mdn_parser.py` lines 130-140). -/
def parse_formatting_section (st : DecoderState) (seg : List Char) : DecoderState :=
  match yamlLoadModel ⟨pyStrip (removeSeq "MDN:FORMAT JSON".data seg)⟩ with
  | .error _ => { st with formatting := .dict [] }
  | .ok v => { st with formatting := if pyTruthy v then v else .dict [] }

/-- `_parse_mdn_content` (`mdn_parser.py` lines 57-80): split on `---`,
strip each segment, classify by leading marker token. -/
def parse_mdn_content_go (st : DecoderState) :
    List (List Char) → Except PyErr DecoderState
  | [] => .ok st
  | seg :: rest =>
    let s := pyStrip seg
    if s.isEmpty then parse_mdn_content_go st rest
    else if "MDN:HEADER YAML".data.isPrefixOf s then
      match parse_header_section st s with
      | .error e => .error e
      | .ok st' => parse_mdn_content_go st' rest
    else if "MDN:SHEET CSV".data.isPrefixOf s then
      parse_mdn_content_go (parse_sheet_section st s) rest
    else if "MDN:FORMULAS JSON".data.isPrefixOf s then
      parse_mdn_content_go (parse_formulas_section st s) rest
    else if "MDN:FORMAT JSON".data.isPrefixOf s then
      parse_mdn_content_go (parse_formatting_section st s) rest
    else parse_mdn_content_go st rest

def parse_mdn_content (content : String) : Except PyErr DecoderState :=
  parse_mdn_content_go {} (splitDashes content.data)

/-! Workbook-construction model (the openpyxl collaborator surface the
decoder drives: created sheets, cell values, number formats, fonts). -/

/-- Font attribute record (`openpyxl.styles.Font(bold=…, italic=…)` plus a
colour slot). -/
structure OutFont where
  bold : Bool := false
  italic : Bool := false
  color : Option String := none
deriving DecidableEq, Repr

/-- Content of the cell's `font` attribute: either a font object, or — via
the `cell.font = openpyxl.styles.Color(...)` slip in `_apply_formatting` —
a bare colour object. -/
inductive FontSlot
  | font (f : OutFont)
  | colorObj (rgb : String)
deriving DecidableEq, Repr

/-- One written cell of the output workbook. -/
structure OutCell where
  value : PSub := .leaf .pnone
  number_format : Option PLeaf := none
  font : Option FontSlot := none
deriving DecidableEq, Repr

/-- Cells of one sheet keyed by (row, column), 1-based. -/
abbrev OutSheet : Type := List ((Nat × Nat) × OutCell)

/-- The constructed workbook: sheets in creation order. -/
abbrev OutWB : Type := List (String × OutSheet)

instance : DecidableEq (Except PyErr OutWB) := exceptDecEq

/-- Cell read with on-demand creation (openpyxl `sheet.cell(row, column)`). -/
def cellGet (sh : OutSheet) (rc : Nat × Nat) : OutCell :=
  match sh.lookup rc with
  | some c => c
  | none => {}

/-- Write back one cell. -/
def cellSet : OutSheet → Nat × Nat → OutCell → OutSheet
  | [], rc, c => [(rc, c)]
  | (rc', c') :: rest, rc, c =>
    if rc' = rc then (rc, c) :: rest else (rc', c') :: cellSet rest rc c

/-- Update one sheet of the workbook by name. -/
def wbUpdateSheet : OutWB → String → (OutSheet → OutSheet) → OutWB
  | [], _, _ => []
  | (n, sh) :: rest, nm, f =>
    if n = nm then (n, f sh) :: rest else (n, sh) :: wbUpdateSheet rest nm f

/-- Sheet names of the workbook. -/
def wbNames (wb : OutWB) : List String := wb.map Prod.fst

/-- `_create_workbook` (`mdn_parser.py` lines 142-156): one empty sheet per
parsed sheet name, in insertion order. -/
def create_workbook (st : DecoderState) : OutWB :=
  st.sheets_data.map (fun p => (p.1, ([] : OutSheet)))

/-- `_apply_sheet_data` (`mdn_parser.py` lines 158-183): for each stored
sheet, parse each CSV row (`list(csv.reader([row]))[0]` raises IndexError
on an empty line) and write each coerced field at (row, col), 1-based. -/
def apply_row_fields (sh : OutSheet) (row : Nat) :
    Nat → List (List Char) → Except PyErr OutSheet
  | _, [] => .ok sh
  | col, fld :: rest =>
    match coerce_field ⟨fld⟩ with
    | .error e => .error e
    | .ok v =>
      let c := cellGet sh (row, col)
      apply_row_fields (cellSet sh (row, col) { c with value := .leaf v }) row (col + 1) rest

def apply_rows (sh : OutSheet) : Nat → List (List Char) → Except PyErr OutSheet
  | _, [] => .ok sh
  | row, csv_row :: rest =>
    if csv_row.isEmpty then .error (.indexError "list index out of range")
    else
      match apply_row_fields sh row 1 (csvFields csv_row) with
      | .error e => .error e
      | .ok sh' => apply_rows sh' (row + 1) rest

def apply_sheet_data (st : DecoderState) (wb : OutWB) : Except PyErr OutWB :=
  go wb st.sheets_data
where
  go (wb : OutWB) : List (String × List (List Char)) → Except PyErr OutWB
    | [] => .ok wb
    | (nm, csv) :: rest =>
      match wb.lookup nm with
      | none => .error (.keyError nm)
      | some sh =>
        match apply_rows sh 1 csv with
        | .error e => .error e
        | .ok sh' => go (wbUpdateSheet wb nm (fun _ => sh')) rest

/-- `_parse_cell_ref` of the decoder (`mdn_parser.py` lines 211-217), the
same prefix-anchored `([A-Z]+)(\d+)` match returning letters and row. -/
def mdn_parse_cell_ref (cell_ref : List Char) : Except PyErr (List Char × Nat) :=
  let letters := cell_ref.takeWhile isUpperAZ
  let digits := (cell_ref.dropWhile isUpperAZ).takeWhile isDigit09
  if letters.isEmpty || digits.isEmpty then
    .error (.valueError "Invalid cell reference")
  else .ok (letters, digitsToNat digits)

/-- Split `key` at the first `!` (`key.split('!', 1)`); `none` when the key
contains no `!` (the `if '!' in formula_key` guard). -/
def splitBang : List Char → Option (List Char × List Char)
  | [] => none
  | '!' :: rest => some ([], rest)
  | c :: rest =>
    match splitBang rest with
    | some (a, b) => some (c :: a, b)
    | none => none

/-- One iteration of the `_apply_formulas` loop (`mdn_parser.py` lines
189-207): any exception inside the body is caught and the key skipped
(openpyxl rejects a row index below 1 with a caught `ValueError`; the
column index from uppercase letters is always at least 1). -/
def apply_formula_step (wb : OutWB) (key : String) (val : PSub) : OutWB :=
  match splitBang key.data with
  | none => wb
  | some (sheet_name, cell_ref) =>
    if (wbNames wb).contains ⟨sheet_name⟩ then
      match mdn_parse_cell_ref cell_ref with
      | .error _ => wb
      | .ok (letters, row) =>
        if row = 0 then wb
        else
          let col := (colLetterIndex letters).toNat
          wbUpdateSheet wb ⟨sheet_name⟩ (fun sh =>
            let c := cellGet sh (row, col)
            cellSet sh (row, col) { c with value := val })
    else wb

/-- `_apply_formulas`: iterating `.items()` raises `AttributeError` when the
parsed formulas value is not a mapping; each item is applied with a
catch-all `except` so failures only skip that key. -/
def apply_formulas (formulas : PVal) (wb : OutWB) : Except PyErr OutWB :=
  match formulas with
  | .dict m => .ok (m.foldl (fun wb p => apply_formula_step wb p.1 p.2) wb)
  | _ => .error (.attributeError "object has no attribute 'items'")

/-- Python `key in value` for a one-level value (dict key test, substring
test on a string, membership on a list, `TypeError` on scalars). -/
def pyInSub (k : String) (v : PSub) : Except PyErr Bool :=
  match v with
  | .dict m => .ok !(dictGet m k).isNone
  | .leaf (.pstr s) => .ok (containsSeq k.data s.data)
  | .list l => .ok (l.contains (.pstr k))
  | .leaf .pnone => .error (.typeError "argument of type 'NoneType' is not iterable")
  | .leaf (.pbool _) => .error (.typeError "argument of type 'bool' is not iterable")
  | .leaf (.pint _) => .error (.typeError "argument of type 'int' is not iterable")
  | .leaf (.pfloat _) => .error (.typeError "argument of type 'float' is not iterable")

/-- Python `value[k]` for a one-level value. -/
def pySubscript (v : PSub) (k : String) : Except PyErr PLeaf :=
  match v with
  | .dict m =>
    match dictGet m k with
    | some x => .ok x
    | none => .error (.keyError k)
  | .leaf (.pstr _) => .error (.typeError "string indices must be integers")
  | .list _ => .error (.typeError "list indices must be integers")
  | _ => .error (.typeError "object is not subscriptable")

/-- Run one formatting sub-step; an exception aborts the rest of this key's
record but keeps the mutations already applied (the `try` wraps the whole
loop body, and cell mutations take effect immediately). -/
def tryStage (c : OutCell) (f : OutCell → Except PyErr OutCell) : Except OutCell OutCell :=
  match f c with
  | .ok c' => .ok c'
  | .error _ => .error c

/-- `numberFormat` sub-step of `_apply_formatting` (lines 240-241). -/
def stageNumberFormat (rules : PSub) (c : OutCell) : Except PyErr OutCell := do
  let b ← pyInSub "numberFormat" rules
  if b then do
    let v ← pySubscript rules "numberFormat"
    pure { c with number_format := some v }
  else pure c

/-- `bold` sub-step (lines 244-245): the cell's font is REPLACED by a fresh
`Font(bold=True)` whose other attributes are the defaults. -/
def stageBold (rules : PSub) (c : OutCell) : Except PyErr OutCell := do
  let b ← pyInSub "bold" rules
  if b then do
    let v ← pySubscript rules "bold"
    if pyTruthyLeaf v then
      pure { c with font := some (.font { bold := true, italic := false, color := none }) }
    else pure c
  else pure c

/-- `italic` sub-step (lines 247-251): merge into an existing font, else a
fresh `Font(italic=True)`; an attribute set on a bare colour object (the
`cell.font = Color(...)` slip) has no modelled effect. -/
def stageItalic (rules : PSub) (c : OutCell) : Except PyErr OutCell := do
  let b ← pyInSub "italic" rules
  if b then do
    let v ← pySubscript rules "italic"
    if pyTruthyLeaf v then
      match c.font with
      | some (.font f) => pure { c with font := some (.font { f with italic := true }) }
      | some (.colorObj _) => pure c
      | none => pure { c with font := some (.font { bold := false, italic := true, color := none }) }
    else pure c
  else pure c

/-- `color` sub-step (lines 253-260): a `#RRGGBB` string gets a full-opacity
alpha prefix; with an existing font the colour is merged, otherwise the
cell's font slot is assigned a bare `Color` object (the source's slip);
a non-string colour raises `AttributeError` at `.startswith`. -/
def stageColor (rules : PSub) (c : OutCell) : Except PyErr OutCell := do
  let b ← pyInSub "color" rules
  if b then do
    let v ← pySubscript rules "color"
    match v with
    | .pstr s =>
      let color : String := if "#".data.isPrefixOf s.data then ⟨'F' :: 'F' :: s.data.drop 1⟩ else s
      match c.font with
      | some (.font f) => pure { c with font := some (.font { f with color := some color }) }
      | some (.colorObj _) => pure c
      | none => pure { c with font := some (.colorObj color) }
    | _ => .error (.attributeError "object has no attribute 'startswith'")
  else pure c

/-- Apply one format record to a cell in source order (numberFormat, bold,
italic, color), keeping partial effects when a sub-step raises. -/
def applyFormatRecord (rules : PSub) (c : OutCell) : OutCell :=
  let res : Except OutCell OutCell := do
    let c ← tryStage c (stageNumberFormat rules)
    let c ← tryStage c (stageBold rules)
    let c ← tryStage c (stageItalic rules)
    let c ← tryStage c (stageColor rules)
    pure c
  match res with
  | .ok c => c
  | .error c => c

/-- One iteration of the `_apply_formatting` loop (`mdn_parser.py` lines
223-263): key prechecks mirror `_apply_formulas`. -/
def apply_format_step (wb : OutWB) (key : String) (rules : PSub) : OutWB :=
  match splitBang key.data with
  | none => wb
  | some (sheet_name, cell_ref) =>
    if (wbNames wb).contains ⟨sheet_name⟩ then
      match mdn_parse_cell_ref cell_ref with
      | .error _ => wb
      | .ok (letters, row) =>
        if row = 0 then wb
        else
          let col := (colLetterIndex letters).toNat
          wbUpdateSheet wb ⟨sheet_name⟩ (fun sh =>
            cellSet sh (row, col) (applyFormatRecord rules (cellGet sh (row, col))))
    else wb

/-- `_apply_formatting` (`mdn_parser.py` lines 219-265). -/
def apply_formatting (formatting : PVal) (wb : OutWB) : Except PyErr OutWB :=
  match formatting with
  | .dict m => .ok (m.foldl (fun wb p => apply_format_step wb p.1 p.2) wb)
  | _ => .error (.attributeError "object has no attribute 'items'")

/-- `convert_content` (`mdn_parser.py` lines 25-55): the full decode
pipeline; the final save is modelled by returning the constructed
workbook. -/
def convert_content (mdn_content : String) : Except PyErr OutWB :=
  match parse_mdn_content mdn_content with
  | .error e => .error e
  | .ok st =>
    match apply_sheet_data st (create_workbook st) with
    | .error e => .error e
    | .ok wb =>
      match apply_formulas st.formulas wb with
      | .error e => .error e
      | .ok wb2 =>
        match apply_formatting st.formatting wb2 with
        | .error e => .error e
        | .ok wb3 => .ok wb3

/-! ### Claim C10 — the last FORMULAS / FORMAT section wins -/

/-- Value the decoder derives from one FORMULAS segment. -/
def formulasValueOf (s : List Char) : PVal :=
  match yamlLoadModel ⟨pyStrip (removeSeq "MDN:FORMULAS JSON".data s)⟩ with
  | .error _ => .dict []
  | .ok v => if pyTruthy v then v else .dict []

/-- Value the decoder derives from one FORMAT segment. -/
def formattingValueOf (s : List Char) : PVal :=
  match yamlLoadModel ⟨pyStrip (removeSeq "MDN:FORMAT JSON".data s)⟩ with
  | .error _ => .dict []
  | .ok v => if pyTruthy v then v else .dict []

/-- The last stripped segment starting with the given marker token. -/
def lastSegWith (pat : List Char) (segs : List (List Char)) : Option (List Char) :=
  ((segs.map pyStrip).filter (fun s => pat.isPrefixOf s)).getLast?

lemma isPrefixOf_excl (p q s : List Char) (hp : p.isPrefixOf s = true)
    (h1 : q.isPrefixOf p = false) (h2 : p.isPrefixOf q = false) :
    q.isPrefixOf s = false := by
  rw [← Bool.not_eq_true]
  intro hq
  rw [List.isPrefixOf_iff_prefix] at hp hq
  rcases List.prefix_or_prefix_of_prefix hq hp with h | h
  · rw [← List.isPrefixOf_iff_prefix] at h
    rw [h] at h1
    cases h1
  · rw [← List.isPrefixOf_iff_prefix] at h
    rw [h] at h2
    cases h2

lemma parse_header_section_fields {st : DecoderState} {seg : List Char} {st' : DecoderState}
    (h : parse_header_section st seg = .ok st') :
    st'.formulas = st.formulas ∧ st'.formatting = st.formatting := by
  unfold parse_header_section at h
  dsimp only at h
  split at h
  · exact ⟨by injection h with h'; rw [← h'], by injection h with h'; rw [← h']⟩
  · split at h
    · exact ⟨by injection h with h'; rw [← h'], by injection h with h'; rw [← h']⟩
    · cases h

lemma parse_sheet_section_fields (st : DecoderState) (seg : List Char) :
    (parse_sheet_section st seg).formulas = st.formulas
      ∧ (parse_sheet_section st seg).formatting = st.formatting := by
  unfold parse_sheet_section
  dsimp only
  split
  · split <;> exact ⟨rfl, rfl⟩
  · exact ⟨rfl, rfl⟩

lemma parse_formulas_section_fields (st : DecoderState) (seg : List Char) :
    (parse_formulas_section st seg).formulas = formulasValueOf seg
      ∧ (parse_formulas_section st seg).formatting = st.formatting := by
  unfold parse_formulas_section formulasValueOf
  split <;> exact ⟨rfl, rfl⟩

lemma parse_formatting_section_fields (st : DecoderState) (seg : List Char) :
    (parse_formatting_section st seg).formatting = formattingValueOf seg
      ∧ (parse_formatting_section st seg).formulas = st.formulas := by
  unfold parse_formatting_section formattingValueOf
  split <;> exact ⟨rfl, rfl⟩

lemma isPrefixOf_nil_false (p : List Char) (hne : p ≠ []) :
    p.isPrefixOf ([] : List Char) = false := by
  match p, hne with
  | c :: rest, _ => rfl

lemma lastSegWith_cons_skip (pat : List Char) (seg : List Char) (rest : List (List Char))
    (h : pat.isPrefixOf (pyStrip seg) = false) :
    lastSegWith pat (seg :: rest) = lastSegWith pat rest := by
  unfold lastSegWith
  rw [List.map_cons, List.filter_cons_of_neg (by simp [h])]

lemma lastSegWith_cons_hit (pat : List Char) (seg : List Char) (rest : List (List Char))
    (h : pat.isPrefixOf (pyStrip seg) = true) :
    lastSegWith pat (seg :: rest) =
      (match lastSegWith pat rest with
        | some s => some s
        | none => some (pyStrip seg)) := by
  unfold lastSegWith
  rw [List.map_cons, List.filter_cons_of_pos (by simp [h])]
  cases hf : ((rest.map pyStrip).filter (fun s => pat.isPrefixOf s)) with
  | nil => simp [hf]
  | cons x xs =>
    simp only [List.getLast?_cons_cons]
    cases hl : (x :: xs).getLast? with
    | none => simp at hl
    | some y => simp [hl]

lemma parse_go_last (segs : List (List Char)) : ∀ st₀ st : DecoderState,
    parse_mdn_content_go st₀ segs = .ok st →
    (st.formulas = (match lastSegWith "MDN:FORMULAS JSON".data segs with
      | some s => formulasValueOf s
      | none => st₀.formulas))
    ∧ (st.formatting = (match lastSegWith "MDN:FORMAT JSON".data segs with
      | some s => formattingValueOf s
      | none => st₀.formatting)) := by
  induction segs with
  | nil =>
    intro st₀ st h
    unfold parse_mdn_content_go at h
    injection h with h'
    subst h'
    exact ⟨rfl, rfl⟩
  | cons seg rest ih =>
    intro st₀ st h
    unfold parse_mdn_content_go at h
    by_cases h0 : (pyStrip seg).isEmpty
    · rw [if_pos h0] at h
      have hnil : pyStrip seg = [] := List.isEmpty_iff.mp h0
      have hf : ("MDN:FORMULAS JSON".data).isPrefixOf (pyStrip seg) = false := by
        rw [hnil]; exact isPrefixOf_nil_false _ (by decide)
      have hg : ("MDN:FORMAT JSON".data).isPrefixOf (pyStrip seg) = false := by
        rw [hnil]; exact isPrefixOf_nil_false _ (by decide)
      rw [lastSegWith_cons_skip _ _ _ hf, lastSegWith_cons_skip _ _ _ hg]
      exact ih st₀ st h
    rw [if_neg h0] at h
    by_cases hH : ("MDN:HEADER YAML".data).isPrefixOf (pyStrip seg) = true
    · rw [if_pos hH] at h
      have hf := isPrefixOf_excl _ "MDN:FORMULAS JSON".data _ hH (by decide) (by decide)
      have hg := isPrefixOf_excl _ "MDN:FORMAT JSON".data _ hH (by decide) (by decide)
      rw [lastSegWith_cons_skip _ _ _ hf, lastSegWith_cons_skip _ _ _ hg]
      cases hhd : parse_header_section st₀ (pyStrip seg) with
      | error e => rw [hhd] at h; cases h
      | ok st' =>
        rw [hhd] at h
        have hfield := parse_header_section_fields hhd
        have := ih st' st h
        rw [hfield.1, hfield.2] at this
        exact this
    rw [if_neg hH] at h
    by_cases hS : ("MDN:SHEET CSV".data).isPrefixOf (pyStrip seg) = true
    · rw [if_pos hS] at h
      have hf := isPrefixOf_excl _ "MDN:FORMULAS JSON".data _ hS (by decide) (by decide)
      have hg := isPrefixOf_excl _ "MDN:FORMAT JSON".data _ hS (by decide) (by decide)
      rw [lastSegWith_cons_skip _ _ _ hf, lastSegWith_cons_skip _ _ _ hg]
      have hfield := parse_sheet_section_fields st₀ (pyStrip seg)
      have := ih _ st h
      rw [hfield.1, hfield.2] at this
      exact this
    rw [if_neg hS] at h
    by_cases hF : ("MDN:FORMULAS JSON".data).isPrefixOf (pyStrip seg) = true
    · rw [if_pos hF] at h
      have hg := isPrefixOf_excl _ "MDN:FORMAT JSON".data _ hF (by decide) (by decide)
      rw [lastSegWith_cons_hit _ _ _ hF, lastSegWith_cons_skip _ _ _ hg]
      have hfield := parse_formulas_section_fields st₀ (pyStrip seg)
      have hres := ih _ st h
      constructor
      · rw [hres.1, hfield.1]
        cases lastSegWith "MDN:FORMULAS JSON".data rest <;> rfl
      · rw [hres.2, hfield.2]
    rw [if_neg hF] at h
    by_cases hG : ("MDN:FORMAT JSON".data).isPrefixOf (pyStrip seg) = true
    · rw [if_pos hG] at h
      have hf := isPrefixOf_excl _ "MDN:FORMULAS JSON".data _ hG (by decide) (by decide)
      rw [lastSegWith_cons_hit _ _ _ hG, lastSegWith_cons_skip _ _ _ hf]
      have hfield := parse_formatting_section_fields st₀ (pyStrip seg)
      have hres := ih _ st h
      constructor
      · rw [hres.1, hfield.2]
      · rw [hres.2, hfield.1]
        cases lastSegWith "MDN:FORMAT JSON".data rest <;> rfl
    rw [if_neg hG] at h
    have hf : ("MDN:FORMULAS JSON".data).isPrefixOf (pyStrip seg) = false := by
      rw [← Bool.not_eq_true]; exact hF
    have hg : ("MDN:FORMAT JSON".data).isPrefixOf (pyStrip seg) = false := by
      rw [← Bool.not_eq_true]; exact hG
    rw [lastSegWith_cons_skip _ _ _ hf, lastSegWith_cons_skip _ _ _ hg]
    exact ih st₀ st h

/-- C10: when a document contains several FORMULAS (or FORMAT) sections,
the decoder's state keeps exactly the mapping parsed from the LAST such
section of the document; earlier ones are overwritten, never merged
(and with no such section the initial empty mapping remains). -/
theorem C10_last_formulas_format_section_wins (content : String) (st : DecoderState)
    (h : parse_mdn_content content = .ok st) :
    (st.formulas = (match lastSegWith "MDN:FORMULAS JSON".data (splitDashes content.data) with
      | some s => formulasValueOf s
      | none => .dict []))
    ∧ (st.formatting = (match lastSegWith "MDN:FORMAT JSON".data (splitDashes content.data) with
      | some s => formattingValueOf s
      | none => .dict [])) :=
  parse_go_last (splitDashes content.data) {} st h

/-- Document with two FORMULAS sections, used to witness C10. -/
def c10doc : String :=
  "--- MDN:FORMULAS JSON\nS!A1: =OLD()\n---\n--- MDN:FORMULAS JSON\nS!A2: =NEW()\n---"

/-- Decoder state reached on `c10doc`. -/
def c10state : DecoderState := { formulas := .dict [("S!A2", .leaf (.pstr "=NEW()"))] }

/-- Witness: a document with two FORMULAS sections decodes to the second
mapping only (key `S!A2`), the first (`S!A1`) being discarded. -/
theorem C10_last_formulas_format_section_wins_witness :
    parse_mdn_content c10doc = .ok c10state
      ∧ c10state.formulas = (match lastSegWith "MDN:FORMULAS JSON".data
          (splitDashes c10doc.data) with
        | some s => formulasValueOf s
        | none => .dict [])
      ∧ c10state.formulas = .dict [("S!A2", .leaf (.pstr "=NEW()"))] := by
  have hp : parse_mdn_content c10doc = .ok c10state := by decide
  exact ⟨hp, (C10_last_formulas_format_section_wins c10doc c10state hp).1, by decide⟩

/-! ### Claim C3 — decode totality and its failure -/

/-- C3 counterexample: the single CSV field `1.2.3` passes the decoder's
numeric screen (digits after deleting `.` and `-`) but `float('1.2.3')`
raises, so the whole decode aborts with an uncaught `ValueError` — the
claim that decode completes on every input document is false. -/
theorem C3_counterexample :
    convert_content "--- MDN:SHEET CSV name=S\n1.2.3\n---" =
      .error (.valueError "could not convert string to float: 1.2.3") := by
  decide

/-- Condition under which `_parse_header_section` cannot raise: the header
payload YAML-parses to a mapping, or fails to parse (recovered with the
fallback header). -/
def headerPayloadOk (seg : List Char) : Bool :=
  match yamlLoadModel ⟨header_yaml_content seg⟩ with
  | .ok (.dict _) => true
  | .error _ => true
  | .ok _ => false

lemma parse_header_section_ok (st : DecoderState) (seg : List Char)
    (h : headerPayloadOk seg = true) :
    ∃ st', parse_header_section st seg = .ok st' := by
  unfold headerPayloadOk at h
  unfold parse_header_section
  dsimp only
  cases hy : yamlLoadModel ⟨header_yaml_content seg⟩ with
  | error e => exact ⟨_, rfl⟩
  | ok v =>
    rw [hy] at h
    cases v with
    | dict m => exact ⟨_, rfl⟩
    | leaf x => simp at h
    | list l => simp at h

lemma parse_go_total (segs : List (List Char)) : ∀ st₀ : DecoderState,
    (∀ seg ∈ segs, "MDN:HEADER YAML".data.isPrefixOf (pyStrip seg) = true →
      headerPayloadOk (pyStrip seg) = true) →
    ∃ st, parse_mdn_content_go st₀ segs = .ok st := by
  induction segs with
  | nil => intro st₀ _; exact ⟨st₀, rfl⟩
  | cons seg rest ih =>
    intro st₀ hh
    have hhrest : ∀ s ∈ rest, "MDN:HEADER YAML".data.isPrefixOf (pyStrip s) = true →
        headerPayloadOk (pyStrip s) = true :=
      fun s hs => hh s (by simp [hs])
    unfold parse_mdn_content_go
    by_cases h0 : (pyStrip seg).isEmpty
    · rw [if_pos h0]; exact ih st₀ hhrest
    rw [if_neg h0]
    by_cases hH : ("MDN:HEADER YAML".data).isPrefixOf (pyStrip seg) = true
    · rw [if_pos hH]
      obtain ⟨st', hst'⟩ := parse_header_section_ok st₀ (pyStrip seg)
        (hh seg (by simp) hH)
      rw [hst']
      exact ih st' hhrest
    rw [if_neg hH]
    by_cases hS : ("MDN:SHEET CSV".data).isPrefixOf (pyStrip seg) = true
    · rw [if_pos hS]; exact ih _ hhrest
    rw [if_neg hS]
    by_cases hF : ("MDN:FORMULAS JSON".data).isPrefixOf (pyStrip seg) = true
    · rw [if_pos hF]; exact ih _ hhrest
    rw [if_neg hF]
    by_cases hG : ("MDN:FORMAT JSON".data).isPrefixOf (pyStrip seg) = true
    · rw [if_pos hG]; exact ih _ hhrest
    rw [if_neg hG]
    exact ih st₀ hhrest

/-- Invariant: every stored sheet line has non-blank strip (established by
the `line.strip()` filter of `_parse_sheet_section`). -/
def SheetLinesOk (st : DecoderState) : Prop :=
  ∀ p ∈ st.sheets_data, ∀ l ∈ p.2, (pyStrip l).isEmpty = false

lemma dictSet_mem {β : Type} (m : List (String × β)) (k : String) (v : β) :
    ∀ p ∈ dictSet m k v, p = (k, v) ∨ p ∈ m := by
  induction m with
  | nil => intro p hp; simp [dictSet] at hp; simp [hp]
  | cons q rest ih =>
    intro p hp
    unfold dictSet at hp
    by_cases hk : q.1 = k
    · rw [if_pos hk] at hp
      rcases List.mem_cons.mp hp with rfl | hp
      · exact Or.inl rfl
      · exact Or.inr (by simp [hp])
    · rw [if_neg hk] at hp
      rcases List.mem_cons.mp hp with rfl | hp
      · exact Or.inr (by simp)
      · rcases ih p hp with h | h
        · exact Or.inl h
        · exact Or.inr (by simp [h])

lemma parse_sheet_scan_csv (lines : List (List Char)) :
    ∀ acc : Option (List Char) × List (List Char),
    (∀ l ∈ acc.2, (pyStrip l).isEmpty = false) →
    ∀ l ∈ (List.foldl sheetScanStep acc lines).2, (pyStrip l).isEmpty = false := by
  induction lines with
  | nil => intro acc hacc l hl; exact hacc l hl
  | cons line rest ih =>
    intro acc hacc
    rw [List.foldl_cons]
    apply ih
    unfold sheetScanStep
    by_cases h1 : "MDN:SHEET CSV".data.isPrefixOf line = true
    · rw [if_pos h1]
      cases findNameAttr line <;> exact hacc
    rw [if_neg h1]
    by_cases h2 : (!(pyStrip line).isEmpty && !("MDN:".data.isPrefixOf line)) = true
    · rw [if_pos h2]
      intro l hl
      rcases List.mem_append.mp hl with h | h
      · exact hacc l h
      · rcases List.mem_singleton.mp h with rfl
        rw [Bool.and_eq_true, Bool.not_eq_true'] at h2
        exact h2.1
    · rw [if_neg h2]
      exact hacc

lemma parse_sheet_section_inv (st : DecoderState) (seg : List Char)
    (h : SheetLinesOk st) : SheetLinesOk (parse_sheet_section st seg) := by
  unfold parse_sheet_section
  dsimp only
  split
  · rename_i nm csv hscan
    split
    · exact h
    · intro p hp l hl
      rcases dictSet_mem _ _ _ p hp with rfl | hp
      · refine parse_sheet_scan_csv (splitChar '\n' seg) (none, []) (by simp) l ?_
        rw [hscan]
        exact hl
      · exact h p hp l hl
  · exact h

lemma parse_header_section_sheets {st : DecoderState} {seg : List Char} {st' : DecoderState}
    (h : parse_header_section st seg = .ok st') : st'.sheets_data = st.sheets_data := by
  unfold parse_header_section at h
  split at h
  · injection h with h'; rw [← h']
  · split at h
    · injection h with h'; rw [← h']
    · cases h

lemma parse_formulas_section_sheets (st : DecoderState) (seg : List Char) :
    (parse_formulas_section st seg).sheets_data = st.sheets_data := by
  unfold parse_formulas_section
  split <;> rfl

lemma parse_formatting_section_sheets (st : DecoderState) (seg : List Char) :
    (parse_formatting_section st seg).sheets_data = st.sheets_data := by
  unfold parse_formatting_section
  split <;> rfl

lemma parse_go_inv (segs : List (List Char)) : ∀ st₀ st : DecoderState,
    parse_mdn_content_go st₀ segs = .ok st → SheetLinesOk st₀ → SheetLinesOk st := by
  induction segs with
  | nil =>
    intro st₀ st h h0
    unfold parse_mdn_content_go at h
    injection h with h'
    rw [← h']
    exact h0
  | cons seg rest ih =>
    intro st₀ st h h0
    unfold parse_mdn_content_go at h
    by_cases hEmpty : (pyStrip seg).isEmpty
    · rw [if_pos hEmpty] at h; exact ih st₀ st h h0
    rw [if_neg hEmpty] at h
    by_cases hH : ("MDN:HEADER YAML".data).isPrefixOf (pyStrip seg) = true
    · rw [if_pos hH] at h
      cases hhd : parse_header_section st₀ (pyStrip seg) with
      | error e => rw [hhd] at h; cases h
      | ok st' =>
        rw [hhd] at h
        refine ih st' st h ?_
        intro p hp
        rw [parse_header_section_sheets hhd] at hp
        exact h0 p hp
    rw [if_neg hH] at h
    by_cases hS : ("MDN:SHEET CSV".data).isPrefixOf (pyStrip seg) = true
    · rw [if_pos hS] at h
      exact ih _ st h (parse_sheet_section_inv st₀ (pyStrip seg) h0)
    rw [if_neg hS] at h
    by_cases hF : ("MDN:FORMULAS JSON".data).isPrefixOf (pyStrip seg) = true
    · rw [if_pos hF] at h
      refine ih _ st h ?_
      intro p hp
      rw [parse_formulas_section_sheets] at hp
      exact h0 p hp
    rw [if_neg hF] at h
    by_cases hG : ("MDN:FORMAT JSON".data).isPrefixOf (pyStrip seg) = true
    · rw [if_pos hG] at h
      refine ih _ st h ?_
      intro p hp
      rw [parse_formatting_section_sheets] at hp
      exact h0 p hp
    rw [if_neg hG] at h
    exact ih st₀ st h h0

lemma apply_row_fields_ok (row : Nat) :
    ∀ (fields : List (List Char)) (col : Nat) (sh : OutSheet),
    (∀ f ∈ fields, ∃ v, coerce_field ⟨f⟩ = .ok v) →
    ∃ sh', apply_row_fields sh row col fields = .ok sh' := by
  intro fields
  induction fields with
  | nil => intro col sh _; exact ⟨sh, rfl⟩
  | cons f rest ih =>
    intro col sh hco
    obtain ⟨v, hv⟩ := hco f (by simp)
    unfold apply_row_fields
    rw [hv]
    exact ih (col + 1) _ (fun g hg => hco g (by simp [hg]))

lemma apply_rows_ok :
    ∀ (rows : List (List Char)) (row : Nat) (sh : OutSheet),
    (∀ r ∈ rows, (pyStrip r).isEmpty = false ∧
      ∀ f ∈ csvFields r, ∃ v, coerce_field ⟨f⟩ = .ok v) →
    ∃ sh', apply_rows sh row rows = .ok sh' := by
  intro rows
  induction rows with
  | nil => intro row sh _; exact ⟨sh, rfl⟩
  | cons r rest ih =>
    intro row sh hrows
    obtain ⟨hnb, hco⟩ := hrows r (by simp)
    have hne : r.isEmpty = false := by
      rw [List.isEmpty_eq_false]
      intro hr
      rw [hr] at hnb
      cases hnb
    unfold apply_rows
    rw [hne, if_neg (Bool.false_ne_true)]
    obtain ⟨sh1, hsh1⟩ := apply_row_fields_ok row (csvFields r) 1 sh hco
    rw [hsh1]
    exact ih (row + 1) sh1 (fun q hq => hrows q (by simp [hq]))

lemma wbUpdateSheet_names (wb : OutWB) (nm : String) (f : OutSheet → OutSheet) :
    wbNames (wbUpdateSheet wb nm f) = wbNames wb := by
  induction wb with
  | nil => rfl
  | cons p rest ih =>
    unfold wbUpdateSheet
    by_cases h : p.1 = nm
    · rw [if_pos h]
      simp [wbNames, h]
    · rw [if_neg h]
      simp only [wbNames, List.map_cons]
      rw [show (wbUpdateSheet rest nm f).map Prod.fst = wbNames (wbUpdateSheet rest nm f) from rfl, ih]
      rfl

lemma lookup_of_mem_names (wb : OutWB) (nm : String) (h : nm ∈ wbNames wb) :
    ∃ sh, wb.lookup nm = some sh := by
  induction wb with
  | nil => simp [wbNames] at h
  | cons p rest ih =>
    cases hbeq : nm == p.1 with
    | true => exact ⟨p.2, by simp [List.lookup, hbeq]⟩
    | false =>
      have hne : ¬ nm = p.1 := by simpa using hbeq
      have hmem : nm ∈ wbNames rest := by
        simp only [wbNames, List.map_cons, List.mem_cons] at h
        rcases h with h | h
        · exact absurd h hne
        · exact h
      obtain ⟨sh, hsh⟩ := ih hmem
      exact ⟨sh, by simp [List.lookup, hbeq, hsh]⟩

lemma apply_sheet_data_go_ok :
    ∀ (entries : List (String × List (List Char))) (wb : OutWB),
    (∀ p ∈ entries, p.1 ∈ wbNames wb) →
    (∀ p ∈ entries, ∀ r ∈ p.2, (pyStrip r).isEmpty = false ∧
      ∀ f ∈ csvFields r, ∃ v, coerce_field ⟨f⟩ = .ok v) →
    ∃ wb', apply_sheet_data.go wb entries = .ok wb' := by
  intro entries
  induction entries with
  | nil => intro wb _ _; exact ⟨wb, rfl⟩
  | cons p rest ih =>
    intro wb hn hl
    obtain ⟨sh, hsh⟩ := lookup_of_mem_names wb p.1 (hn p (by simp))
    unfold apply_sheet_data.go
    rw [hsh]
    dsimp only
    obtain ⟨sh', hsh'⟩ := apply_rows_ok p.2 1 sh (fun r hr => hl p (by simp) r hr)
    rw [hsh']
    dsimp only
    refine ih _ ?_ (fun q hq => hl q (by simp [hq]))
    intro q hq
    rw [wbUpdateSheet_names]
    exact hn q (by simp [hq])

/-- C3 (amended): the decoder recovers YAML-unparsable header, FORMULAS
and FORMAT payloads with a warning and a default, and the whole decode
completes without raising whenever every header payload parses to a
mapping or fails, the final formulas/formatting values are mappings, and
every stored CSV field coerces without error; outside those conditions
decode CAN abort (see the counterexample). -/
theorem C3_decode_totality_amended (content : String)
    (hheader : ∀ seg ∈ splitDashes content.data,
      "MDN:HEADER YAML".data.isPrefixOf (pyStrip seg) = true →
      headerPayloadOk (pyStrip seg) = true) :
    ∃ st, parse_mdn_content content = .ok st ∧
      (∀ m m2, st.formulas = .dict m → st.formatting = .dict m2 →
        (∀ p ∈ st.sheets_data, ∀ line ∈ p.2, ∀ fld ∈ csvFields line,
          ∃ v, coerce_field ⟨fld⟩ = .ok v) →
        ∃ wb, convert_content content = .ok wb) := by
  obtain ⟨st, hst⟩ := parse_go_total (splitDashes content.data) {} hheader
  refine ⟨st, hst, ?_⟩
  intro m m2 hm hm2 hco
  have hlines : SheetLinesOk st :=
    parse_go_inv (splitDashes content.data) {} st hst (by intro p hp; simp at hp)
  have hnames : ∀ p ∈ st.sheets_data, p.1 ∈ wbNames (create_workbook st) := by
    intro p hp
    show p.1 ∈ (st.sheets_data.map (fun q => (q.1, ([] : OutSheet)))).map Prod.fst
    rw [List.map_map]
    exact List.mem_map.mpr ⟨p, hp, rfl⟩
  obtain ⟨wb1, hwb1⟩ := apply_sheet_data_go_ok st.sheets_data (create_workbook st) hnames
    (fun p hp r hr => ⟨hlines p hp r hr, fun f hf => hco p hp r hr f hf⟩)
  refine ⟨(m2.foldl (fun wb p => apply_format_step wb p.1 p.2)
    (m.foldl (fun wb p => apply_formula_step wb p.1 p.2) wb1)), ?_⟩
  unfold convert_content
  rw [show parse_mdn_content content = .ok st from hst]
  dsimp only
  rw [show apply_sheet_data st (create_workbook st) = .ok wb1 from hwb1]
  dsimp only
  rw [hm, hm2]
  rfl

/-- Witness for the amended C3 statement at a concrete document (one sheet,
safe fields, empty formulas/formatting), including the resulting completed
decode. -/
theorem C3_decode_totality_amended_witness :
    (∃ st, parse_mdn_content "--- MDN:SHEET CSV name=S\na,2\n---" = .ok st ∧
      (∀ m m2, st.formulas = .dict m → st.formatting = .dict m2 →
        (∀ p ∈ st.sheets_data, ∀ line ∈ p.2, ∀ fld ∈ csvFields line,
          ∃ v, coerce_field ⟨fld⟩ = .ok v) →
        ∃ wb, convert_content "--- MDN:SHEET CSV name=S\na,2\n---" = .ok wb))
    ∧ convert_content "--- MDN:SHEET CSV name=S\na,2\n---" =
      .ok [("S", [((1, 1), { value := .leaf (.pstr "a") }),
                   ((1, 2), { value := .leaf (.pint 2) })])] :=
  ⟨C3_decode_totality_amended "--- MDN:SHEET CSV name=S\na,2\n---" (by decide), by decide⟩

/-! ### Claim C8 — bold/italic application to a cell's font -/

/-- C8 counterexample: two format keys resolving to the same cell S!A1 (the
prefix-anchored reference parse maps `A1X` to A1 as well).  The first
record sets italic; applying the second record's bold attribute REPLACES
the font with a fresh bold-only font, so the italic flag that was set is
clobbered — not left unchanged as the claim states. -/
theorem C8_counterexample :
    apply_formatting
        (.dict [("S!A1", .dict [("italic", .pbool true)]),
                ("S!A1X", .dict [("bold", .pbool true)])])
        [("S", [])]
      = .ok [("S", [((1, 1),
          { value := .leaf .pnone, number_format := none,
            font := some (.font { bold := true, italic := false, color := none }) })])]
    ∧ apply_format_step [("S", [])] "S!A1" (.dict [("italic", .pbool true)])
      = [("S", [((1, 1),
          { value := .leaf .pnone, number_format := none,
            font := some (.font { bold := false, italic := true, color := none }) })])] := by
  decide

/-- C8 (amended): applying a record's `bold` attribute REPLACES the cell's
font with a fresh `Font(bold=True)` (clobbering any italic flag or colour
already present); applying `italic` merges into an existing font
(preserving bold and colour), or installs a fresh italic-only font when
the cell has none. -/
theorem C8_format_application_amended :
    (∀ c : OutCell, applyFormatRecord (.dict [("bold", .pbool true)]) c
      = { c with font := some (.font { bold := true, italic := false, color := none }) })
    ∧ (∀ (c : OutCell) (f : OutFont), c.font = some (.font f) →
      applyFormatRecord (.dict [("italic", .pbool true)]) c
        = { c with font := some (.font { f with italic := true }) })
    ∧ (∀ c : OutCell, c.font = none →
      applyFormatRecord (.dict [("italic", .pbool true)]) c
        = { c with font := some (.font { bold := false, italic := true, color := none }) }) := by
  refine ⟨?_, ?_, ?_⟩
  · intro c
    rfl
  · intro c f hf
    rcases c with ⟨v, nf, fo⟩
    cases hf
    rfl
  · intro c hf
    rcases c with ⟨v, nf, fo⟩
    cases hf
    rfl

/-- Witness: merging italic into a font that already carries bold and a
colour keeps both. -/
theorem C8_format_application_amended_witness :
    applyFormatRecord (.dict [("italic", .pbool true)])
        { value := .leaf .pnone, number_format := none,
          font := some (.font { bold := true, italic := false, color := some "FFABCDEF" }) }
      = { value := .leaf .pnone, number_format := none,
          font := some (.font { bold := true, italic := true, color := some "FFABCDEF" }) } :=
  C8_format_application_amended.2.1 _ _ rfl

/-! ### excel_parser.py — the Encoder (ExcelToMDNConverter)

The workbook collaborator surface the encoder reads: sheets in order, cell
values, number formats, fonts with colour records.  Float cell values are
omitted from the embedding (their textual form is the platform float repr,
outside this embedding's scope; no claim depends on them). -/

structure XColor where
  rgb : Option String := none
  theme : Option Int := none
  ctype : Option String := none
deriving DecidableEq, Repr

structure XFont where
  bold : Bool := false
  italic : Bool := false
  color : Option XColor := none
deriving DecidableEq, Repr

inductive XVal
  | vNone
  | vInt (n : Int)
  | vStr (s : String)
deriving DecidableEq, Repr

structure XCell where
  value : XVal := .vNone
  number_format : String := "General"
  font : Option XFont := none
deriving DecidableEq, Repr

abbrev XSheet : Type := List (List XCell)

abbrev Workbook : Type := List (String × XSheet)

/-- `sheet.max_row` of the collaborator: the grid height. -/
def sheetMaxRow (sh : XSheet) : Nat := sh.length

/-- `sheet.max_column`: the widest row. -/
def sheetMaxCol (sh : XSheet) : Nat := sh.foldr (fun r m => max r.length m) 0

/-- `sheet.cell(row, column)`, 1-based, empty outside the grid. -/
def sheetCellAt (sh : XSheet) (r c : Nat) : XCell :=
  ((sh.get? (r - 1)).bind (fun row => row.get? (c - 1))).getD {}

/-- Textual form of a cell value (`str(value)`, `""` for `None`). -/
def cellText (v : XVal) : List Char :=
  match v with
  | .vNone => []
  | .vInt n => intStr n
  | .vStr s => s.data

/-- Characters forcing `csv.writer` (excel dialect, QUOTE_MINIMAL) to quote
a field: the delimiter, the quote char, and the line-terminator chars. -/
def csvNeedsQuote (c : Char) : Bool := c == ',' || c == '"' || c == '\n' || c == '\r'

/-- One rendered CSV field, with standard doubling of embedded quotes. -/
def renderField (f : List Char) : List Char :=
  if f.any csvNeedsQuote then
    '"' :: (f.flatMap (fun c => if c == '"' then ['"', '"'] else [c])) ++ ['"']
  else f

def joinComma : List (List Char) → List Char
  | [] => []
  | [x] => x
  | x :: y :: rest => x ++ ',' :: joinComma (y :: rest)

/-- One CSV record line for grid row `r` over columns `1..maxc`. -/
def renderRow (sh : XSheet) (r maxc : Nat) : List Char :=
  joinComma ((List.range' 1 maxc).map (fun c => renderField (cellText (sheetCellAt sh r c).value)))

/-- `_sheet_to_csv` (`excel_parser.py` lines 107-144): rows joined with the
CSV writer's CRLF terminator and the whole buffer stripped. -/
def sheet_to_csv (sh : XSheet) : List Char :=
  if sheetMaxRow sh = 0 ∨ sheetMaxCol sh = 0 then []
  else pyStrip
    (((List.range' 1 (sheetMaxRow sh)).map
      (fun r => renderRow sh r (sheetMaxCol sh) ++ "\r\n".data)).flatten)

/-! YAML dump collaborator model (`yaml.dump(..., default_flow_style=False,
sort_keys=False)`) on the fragment of values the encoder emits. -/

/-- Special words and shapes PyYAML's implicit resolvers would re-type, so
the emitter quotes them instead of writing a plain scalar. -/
def yamlDotSpecials : List (List Char) :=
  [".inf", ".Inf", ".INF", "-.inf", "-.Inf", "-.INF", ".nan", ".NaN", ".NAN"].map String.data

/-- Date-like shape `dddd-dd-dd...` caught by the timestamp resolver. -/
def yamlTimestampShape (l : List Char) : Bool :=
  match l with
  | a :: b :: c :: d :: '-' :: e :: f :: '-' :: g :: h :: rest =>
    isDigit09 a && isDigit09 b && isDigit09 c && isDigit09 d &&
    isDigit09 e && isDigit09 f && isDigit09 g && isDigit09 h &&
    (rest.isEmpty || (match rest with
      | 'T' :: _ => true
      | 't' :: _ => true
      | ' ' :: _ => true
      | _ => false))
  | _ => false

def yamlResolverMatch (l : List Char) : Bool :=
  l.isEmpty || yamlNullWords.contains l || yamlBoolWords.contains l ||
  yamlIntShape l || yamlFloatShape l || yamlTimestampShape l ||
  l = "=".data || yamlDotSpecials.contains l

/-- First-character restrictions on a plain scalar. -/
def yamlLeadOk : List Char → Bool
  | [] => false
  | '-' :: [] => false
  | '-' :: c :: _ => !(c == ' ')
  | ':' :: _ => false
  | '?' :: _ => false
  | c :: _ =>
    !("#&*!|>'\"%@`,[]{}".data.contains c) && !(isPyWs c)

/-- Printable ASCII inside a plain scalar. -/
def yamlPlainChar (c : Char) : Bool := 32 ≤ c.toNat && c.toNat ≤ 126

/-- Can this scalar be emitted plain (unquoted)? -/
def yamlPlainOk (l : List Char) : Bool :=
  yamlLeadOk l &&
  (match l.reverse with
    | [] => false
    | c :: _ => !(isPyWs c) && !(c == ':')) &&
  l.all yamlPlainChar &&
  !(containsSeq ": ".data l) && !(containsSeq " #".data l) &&
  !(yamlResolverMatch l)

/-- Emit a scalar, single-quoted when it cannot be plain (the emitted
fragment contains no embedded quotes or newlines). -/
def yamlDumpScalar (l : List Char) : List Char :=
  if yamlPlainOk l then l else '\'' :: (l ++ ['\''])

/-- Scalar rendering of the Python values the encoder dumps. -/
def yamlDumpLeaf (v : PLeaf) : List Char :=
  match v with
  | .pstr s => yamlDumpScalar s.data
  | .pbool b => if b then "true".data else "false".data
  | .pint n => intStr n
  | .pnone => "null".data
  | .pfloat _ => "0.0".data

/-- One block-mapping entry. -/
def yamlDumpEntry (p : String × PSub) : List Char :=
  match p.2 with
  | .leaf v => yamlDumpScalar p.1.data ++ ':' :: ' ' :: yamlDumpLeaf v ++ ['\n']
  | .list [] => yamlDumpScalar p.1.data ++ ": []\n".data
  | .list items =>
    yamlDumpScalar p.1.data ++ ':' :: '\n' ::
      (items.map (fun v => '-' :: ' ' :: yamlDumpLeaf v ++ ['\n'])).flatten
  | .dict [] => yamlDumpScalar p.1.data ++ ": {}\n".data
  | .dict sub =>
    yamlDumpScalar p.1.data ++ ':' :: '\n' ::
      (sub.map (fun q => ' ' :: ' ' :: yamlDumpScalar q.1.data ++ ':' :: ' ' ::
        yamlDumpLeaf q.2 ++ ['\n'])).flatten

/-- `yaml.dump` of a top-level mapping in block style. -/
def yamlDump (v : PVal) : List Char :=
  match v with
  | .dict [] => "{}\n".data
  | .dict entries => (entries.map yamlDumpEntry).flatten
  | .leaf w => yamlDumpLeaf w ++ ['\n']
  | .list items => (items.map (fun w => '-' :: ' ' :: yamlDumpLeaf w ++ ['\n'])).flatten

/-- Per-cell body of `_generate_formulas`: record a string value starting
with `=` under `"<sheet>!<ColLetter><Row>"`. -/
def formulaCellStep (nm : String) (r c : Nat) (cell : XCell)
    (acc : List (String × String)) : List (String × String) :=
  match cell.value with
  | .vStr s =>
    if "=".data.isPrefixOf s.data then
      dictSet acc (nm ++ "!" ++ (⟨itlAux c⟩ : String) ++ natStrS r) s
    else acc
  | _ => acc

/-- `_generate_formulas` (`excel_parser.py` lines 146-172): scan every cell
sheet by sheet, row-major, in first-seen order. -/
def generate_formulas (wb : Workbook) : List (String × String) :=
  wb.foldl (fun acc p =>
    (List.range' 1 (sheetMaxRow p.2)).foldl (fun acc r =>
      (List.range' 1 (sheetMaxCol p.2)).foldl (fun acc c =>
        formulaCellStep p.1 r c (sheetCellAt p.2 r c) acc) acc) acc) []

/-- Format-record accumulator type of `_generate_formatting`. -/
abbrev FmtMap : Type := List (String × List (String × PLeaf))

/-- `if format_key not in formatting: formatting[format_key] = {}`. -/
def fmtEnsure (m : FmtMap) (k : String) : FmtMap :=
  if (dictGet m k).isSome then m else m ++ [(k, [])]

/-- `formatting[format_key][attr] = v` (creating the record if absent). -/
def fmtSet (m : FmtMap) (k attr : String) (v : PLeaf) : FmtMap :=
  dictSet m k (dictSet ((dictGet m k).getD []) attr v)

/-- Per-cell body of `_generate_formatting` (`excel_parser.py` lines
184-232): number format, then font attributes; a colour records its theme
index whenever `theme != 1` (note Python `None != 1` is true), and its RGB
value when the colour is of `rgb` kind, stripping a leading `FF` alpha. -/
def formatCellStep (nm : String) (r c : Nat) (cell : XCell) (acc : FmtMap) : FmtMap :=
  let key := nm ++ "!" ++ (⟨itlAux c⟩ : String) ++ natStrS r
  let acc :=
    if cell.number_format ≠ "" ∧ cell.number_format ≠ "General" then
      fmtSet acc key "numberFormat" (.pstr cell.number_format)
    else acc
  match cell.font with
  | none => acc
  | some f =>
    let acc := fmtEnsure acc key
    let acc := if f.bold then fmtSet acc key "bold" (.pbool true) else acc
    let acc := if f.italic then fmtSet acc key "italic" (.pbool true) else acc
    let acc :=
      match f.color with
      | none => acc
      | some col =>
        if ¬(col.theme = some 1) then
          fmtSet acc key "theme" (match col.theme with | some t => .pint t | none => .pnone)
        else acc
    match f.color with
    | none => acc
    | some col =>
      match col.rgb, col.ctype with
      | some rgbs, some ct =>
        if ct = "rgb" ∧ rgbs.data ≠ [] then
          let core := if "FF".data.isPrefixOf rgbs.data then rgbs.data.drop 2 else rgbs.data
          fmtSet acc key "color" (.pstr ⟨'#' :: core⟩)
        else acc
      | _, _ => acc

def generate_formatting (wb : Workbook) : FmtMap :=
  wb.foldl (fun acc p =>
    (List.range' 1 (sheetMaxRow p.2)).foldl (fun acc r =>
      (List.range' 1 (sheetMaxCol p.2)).foldl (fun acc c =>
        formatCellStep p.1 r c (sheetCellAt p.2 r c) acc) acc) acc) []

/-- Header record of `_generate_header` (source name, fixed version, the
caller-supplied timestamp, the sheet names in workbook order). -/
def headerPVal (source created : String) (names : List String) : PVal :=
  .dict [("source", .leaf (.pstr source)), ("version", .leaf (.pstr "1.0")),
    ("created", .leaf (.pstr created)), ("sheets", .list (names.map .pstr))]

/-- Fixed context block of `_generate_header`. -/
def contextPVal : PVal :=
  .dict [("purpose", .leaf (.pstr "excel_to_mdn_conversion")),
    ("keyMetrics", .list [.pstr "data_integrity", .pstr "formula_preservation"]),
    ("businessRules", .list [.pstr "All formulas must be preserved",
      .pstr "Data types maintained through formatting",
      .pstr "Sheet structure preserved"])]

/-- The `self.mdn_content` fragment list built by `convert_file`; the
`created` timestamp is a parameter (the source calls `format_timestamp()`). -/
def encodeElements (wb : Workbook) (source created : String) : List (List Char) :=
  ["--- MDN:HEADER YAML".data,
    yamlDump (headerPVal source created (wb.map Prod.fst)), "---".data,
    "# optional context section".data, yamlDump contextPVal, "---".data]
  ++ (wb.flatMap (fun p =>
    [("--- MDN:SHEET CSV name=".data ++ p.1.data), sheet_to_csv p.2, "---".data]))
  ++ ["--- MDN:FORMULAS JSON".data,
    yamlDump (.dict ((generate_formulas wb).map (fun q => (q.1, .leaf (.pstr q.2))))),
    "---".data]
  ++ (let fmt := generate_formatting wb
    if fmt.isEmpty then []
    else
      let clean := fmt.filter (fun p => !p.2.isEmpty)
      if clean.isEmpty then []
      else ["--- MDN:FORMAT JSON".data,
        yamlDump (.dict (clean.map (fun p => (p.1, PSub.dict p.2)))), "---".data])
  ++ ["END DOCUMENT".data]

/-- `'\n'.join`. -/
def joinNL : List (List Char) → List Char
  | [] => []
  | [x] => x
  | x :: y :: rest => x ++ '\n' :: joinNL (y :: rest)

/-- `convert_file` (`excel_parser.py` lines 21-49) without the file I/O:
the MDN document text for a workbook. -/
def encode (wb : Workbook) (source created : String) : String :=
  ⟨joinNL (encodeElements wb source created)⟩

/-! ### mdn_validator.py — the Validator (MDNValidator)

The `json.loads` collaborator is modelled by a strict recursive-descent
parser over the JSON grammar (objects, arrays, strings with the standard
escapes, numbers, `true`/`false`/`null`); the `NaN`/`Infinity` extensions
never appear in these documents and are outside the fragment.  Validation
warnings never affect acceptance (`is_valid` counts errors only), so the
model returns the error stream; error message texts are kept close to the
source but abbreviated (dynamic `str(e)` fragments and quote characters
are dropped). -/

/-- JSON value. -/
inductive JVal
  | jnull
  | jbool (b : Bool)
  | jnum (lit : String)
  | jstr (s : String)
  | jarr (xs : List JVal)
  | jobj (es : List (String × JVal))

/-- JSON whitespace. -/
def jsWs (c : Char) : Bool := c == ' ' || c == '\t' || c == '\n' || c == '\r'

def jskip (l : List Char) : List Char := l.dropWhile jsWs

def jsHex (c : Char) : Option Nat :=
  if '0' ≤ c ∧ c ≤ '9' then some (c.toNat - 48)
  else if 'a' ≤ c ∧ c ≤ 'f' then some (c.toNat - 87)
  else if 'A' ≤ c ∧ c ≤ 'F' then some (c.toNat - 55)
  else none

/-- Body of a JSON string after the opening quote: returns the decoded
characters and the text after the closing quote. -/
def jsStringGo : Nat → List Char → Option (List Char × List Char)
  | 0, _ => none
  | _ + 1, [] => none
  | _ + 1, '"' :: rest => some ([], rest)
  | f + 1, '\\' :: rest =>
    match rest with
    | [] => none
    | e :: r =>
      let cont := fun (c : Char) (r' : List Char) =>
        match jsStringGo f r' with
        | some (s, r2) => some (c :: s, r2)
        | none => none
      if e == '"' then cont '"' r
      else if e == '\\' then cont '\\' r
      else if e == '/' then cont '/' r
      else if e == 'b' then cont (Char.ofNat 8) r
      else if e == 'f' then cont (Char.ofNat 12) r
      else if e == 'n' then cont '\n' r
      else if e == 'r' then cont (Char.ofNat 13) r
      else if e == 't' then cont '\t' r
      else if e == 'u' then
        match r with
        | a :: b :: c :: d :: r2 =>
          match jsHex a, jsHex b, jsHex c, jsHex d with
          | some x, some y, some z, some w =>
            cont (Char.ofNat (((x * 16 + y) * 16 + z) * 16 + w)) r2
          | _, _, _, _ => none
        | _ => none
      else none
  | f + 1, c :: rest =>
    if c.toNat < 32 then none
    else
      match jsStringGo f rest with
      | some (s, r2) => some (c :: s, r2)
      | none => none

/-- JSON number at the head of the input (the `NUMBER_RE` shape
`-?(0|[1-9]\d*)(\.\d+)?([eE][+-]?\d+)?`); the literal text is kept. -/
def jsNum (l : List Char) : Option (JVal × List Char) :=
  let ps : List Char × List Char :=
    match l with
    | '-' :: r => (['-'], r)
    | _ => ([], l)
  match ps.2 with
  | [] => none
  | c :: r =>
    if ¬(isDigit09 c) then none
    else
      let ipTail : List Char × List Char :=
        if c == '0' then ([], r) else (r.takeWhile isDigit09, r.dropWhile isDigit09)
      let frac : List Char × List Char :=
        match ipTail.2 with
        | '.' :: r2 =>
          let ds := r2.takeWhile isDigit09
          if ds.isEmpty then ([], ipTail.2) else ('.' :: ds, r2.dropWhile isDigit09)
        | _ => ([], ipTail.2)
      let ex : List Char × List Char :=
        match frac.2 with
        | e :: r3 =>
          if e == 'e' || e == 'E' then
            let sgn : List Char × List Char :=
              match r3 with
              | '+' :: t => (['+'], t)
              | '-' :: t => (['-'], t)
              | _ => ([], r3)
            let ds := sgn.2.takeWhile isDigit09
            if ds.isEmpty then ([], frac.2)
            else (e :: (sgn.1 ++ ds), sgn.2.dropWhile isDigit09)
          else ([], frac.2)
        | _ => ([], frac.2)
      some (.jnum ⟨ps.1 ++ c :: ipTail.1 ++ frac.1 ++ ex.1⟩, ex.2)

/-- Control state of the JSON value parser: a value, the tail of an array
(after at least one element is due), or the tail of an object (positioned
at a key). -/
inductive JTask
  | tval
  | tarr (acc : List JVal)
  | tobj (acc : List (String × JVal))

/-- Fuel-guarded recursive-descent JSON parser; `4 * length + 4` fuel
always suffices (every recursive call consumes input or nesting). -/
def jsP : Nat → JTask → List Char → Option (JVal × List Char)
  | 0, _, _ => none
  | f + 1, .tval, l =>
    match jskip l with
    | '"' :: r =>
      match jsStringGo (r.length + 1) r with
      | some (s, r2) => some (.jstr ⟨s⟩, r2)
      | none => none
    | '{' :: r =>
      (match jskip r with
        | '}' :: r2 => some (.jobj [], r2)
        | _ => jsP f (.tobj []) (jskip r))
    | '[' :: r =>
      (match jskip r with
        | ']' :: r2 => some (.jarr [], r2)
        | _ => jsP f (.tarr []) (jskip r))
    | 't' :: 'r' :: 'u' :: 'e' :: r => some (.jbool true, r)
    | 'f' :: 'a' :: 'l' :: 's' :: 'e' :: r => some (.jbool false, r)
    | 'n' :: 'u' :: 'l' :: 'l' :: r => some (.jnull, r)
    | rest => jsNum rest
  | f + 1, .tarr acc, l =>
    match jsP f .tval l with
    | none => none
    | some (v, r) =>
      match jskip r with
      | ',' :: r2 => jsP f (.tarr (acc ++ [v])) r2
      | ']' :: r2 => some (.jarr (acc ++ [v]), r2)
      | _ => none
  | f + 1, .tobj acc, l =>
    match l with
    | '"' :: r =>
      (match jsStringGo (r.length + 1) r with
        | none => none
        | some (k, r2) =>
          match jskip r2 with
          | ':' :: r3 =>
            (match jsP f .tval r3 with
              | none => none
              | some (v, r4) =>
                match jskip r4 with
                | ',' :: r5 => jsP f (.tobj (dictSet acc ⟨k⟩ v)) (jskip r5)
                | '}' :: r5 => some (.jobj (dictSet acc ⟨k⟩ v), r5)
                | _ => none)
          | _ => none)
    | _ => none

/-- `json.loads`: parse one value, then nothing but whitespace may remain. -/
def json_loads (s : String) : Option JVal :=
  match jsP (4 * s.data.length + 4) .tval s.data with
  | some (v, r) => if (jskip r).isEmpty then some v else none
  | none => none

/-- The `section_positions` dict of `_find_sections`: one slot per section
token; `MDN:SHEET CSV` collects every position, the others keep the last. -/
structure SecPos where
  header : Option Nat := none
  sheet : List Nat := []
  formulas : Option Nat := none
  format : Option Nat := none
  ai : Option Nat := none
deriving DecidableEq, Repr

/-- One line of `_find_sections` (`mdn_validator.py` lines 139-154): a
stripped line starting with `--- ` is matched against the section tokens
in `ALL_SECTIONS` order, recording the first that occurs as a substring. -/
def findSectionsStep (i : Nat) (line : List Char) (sp : SecPos) : SecPos :=
  let s := pyStrip line
  if "--- ".data.isPrefixOf s then
    if containsSeq "MDN:HEADER YAML".data s then { sp with header := some i }
    else if containsSeq "MDN:SHEET CSV".data s then { sp with sheet := sp.sheet ++ [i] }
    else if containsSeq "MDN:FORMULAS JSON".data s then { sp with formulas := some i }
    else if containsSeq "MDN:FORMAT JSON".data s then { sp with format := some i }
    else if containsSeq "MDN:AI_PROMPT".data s then { sp with ai := some i }
    else sp
  else sp

def findSectionsGo (i : Nat) (sp : SecPos) : List (List Char) → SecPos
  | [] => sp
  | l :: rest => findSectionsGo (i + 1) (findSectionsStep i l sp) rest

/-- The per-section content loop `for i in range(start+1, len): strip;
stop at ---; append` shared by every section validator. -/
def collectUntilDashes : List (List Char) → List (List Char)
  | [] => []
  | l :: rest =>
    let s := pyStrip l
    if s = "---".data then [] else s :: collectUntilDashes rest

/-- Python `key in value` on a loaded YAML value (`field not in yaml_data`):
key test on a dict, membership on a list, substring on a string,
`TypeError` on anything else. -/
def pyInVal (k : String) (v : PVal) : Except PyErr Bool :=
  match v with
  | .dict m => .ok (dictGet m k).isSome
  | .list l => .ok (l.contains (.pstr k))
  | .leaf (.pstr s) => .ok (containsSeq k.data s.data)
  | .leaf _ => .error (.typeError "argument is not iterable")

/-- Python `value[k]` on a loaded YAML value. -/
def pyValSubscript (v : PVal) (k : String) : Except PyErr PSub :=
  match v with
  | .dict m =>
    match dictGet m k with
    | some x => .ok x
    | none => .error (.keyError k)
  | .list _ => .error (.typeError "list indices must be integers")
  | .leaf (.pstr _) => .error (.typeError "string indices must be integers")
  | .leaf _ => .error (.typeError "object is not subscriptable")

/-- The `required_fields` loop of `_validate_yaml_header`. -/
def requiredFieldErrors (data : PVal) : List String → Except PyErr (List String)
  | [] => .ok []
  | f :: rest =>
    match pyInVal f data with
    | .error e => .error e
    | .ok b =>
      match requiredFieldErrors data rest with
      | .error e => .error e
      | .ok es => .ok ((if b then [] else ["Missing required YAML field: " ++ f]) ++ es)

/-- The `sheets` field checks of `_validate_yaml_header` (list-ness and
non-emptiness give errors; duplicates only a warning). -/
def vSheetsFieldErrors (data : PVal) : Except PyErr (List String) :=
  match pyInVal "sheets" data with
  | .error e => .error e
  | .ok false => .ok []
  | .ok true =>
    match pyValSubscript data "sheets" with
    | .error e => .error e
    | .ok v =>
      match v with
      | .list l => .ok (if l.isEmpty then ["sheets list cannot be empty"] else [])
      | _ => .ok ["sheets field must be a list"]

/-- `_validate_yaml_header` (`mdn_validator.py` lines 156-210), errors
only (the version-format check yields a warning). -/
def vYamlErrors (lines : List (List Char)) (sp : SecPos) : Except PyErr (List String) :=
  match sp.header with
  | none => .ok []
  | some pos =>
    let yc := collectUntilDashes (lines.drop (pos + 1))
    if yc.isEmpty then .ok ["YAML header section is empty"]
    else
      match yamlLoadModel ⟨joinNL yc⟩ with
      | .error _ => .ok ["Invalid YAML syntax"]
      | .ok data =>
        match requiredFieldErrors data ["source", "version", "created", "sheets"] with
        | .error e => .error e
        | .ok es1 =>
          match vSheetsFieldErrors data with
          | .error e => .error e
          | .ok es2 => .ok (es1 ++ es2)

/-- Characters ending a `name=` attribute match (`[^,\s]+` stops at a
comma or whitespace). -/
def vNameStop (c : Char) : Bool := c == ',' || isPyWs c

/-- `re.search(r'name=([^,\s]+)', line)`: the first position where
`name=` is followed by at least one admissible character. -/
def searchNameAttr : List Char → Option (List Char)
  | [] => none
  | c :: rest =>
    if "name=".data.isPrefixOf (c :: rest) then
      let tok := ((c :: rest).drop 5).takeWhile (fun x => !(vNameStop x))
      if tok.isEmpty then searchNameAttr rest else some tok
    else searchNameAttr rest

/-- One CSV sheet section of `_validate_csv_sections` (lines 224-259),
errors only (row-count and column-count checks yield warnings). -/
def vCsvOneErrors (lines : List (List Char)) (pos : Nat) : List String :=
  let section_line := pyStrip (lines.getD pos [])
  match searchNameAttr section_line with
  | none => ["Missing sheet name in CSV section at line " ++ natStrS (pos + 1)]
  | some nm =>
    let csvc := collectUntilDashes (lines.drop (pos + 1))
    if csvc.isEmpty then ["CSV section for sheet " ++ (⟨nm⟩ : String) ++ " is empty"]
    else []

def vCsvErrors (lines : List (List Char)) (sp : SecPos) : List String :=
  sp.sheet.flatMap (vCsvOneErrors lines)

/-- `_validate_formulas_section` (lines 263-313), errors only; JSON object
keys are strings by construction, so the key-type branch cannot fire, and
the reference/`=`-prefix shape checks yield warnings. -/
def vFormulasErrors (lines : List (List Char)) (sp : SecPos) : List String :=
  match sp.formulas with
  | none => []
  | some pos =>
    let jc := collectUntilDashes (lines.drop (pos + 1))
    if jc.isEmpty then ["Formulas section is empty"]
    else
      match json_loads ⟨joinNL jc⟩ with
      | none => ["Invalid JSON syntax in formulas section"]
      | some (.jobj entries) =>
        entries.flatMap (fun p =>
          match p.2 with
          | .jstr _ => []
          | _ => ["Invalid formula type for " ++ p.1])
      | some _ => ["Formulas section must contain a JSON object"]

/-- `_validate_format_section` (lines 315-354), errors only. -/
def vFormatErrors (lines : List (List Char)) (sp : SecPos) : List String :=
  match sp.format with
  | none => []
  | some pos =>
    let jc := collectUntilDashes (lines.drop (pos + 1))
    if jc.isEmpty then ["Format section is empty"]
    else
      match json_loads ⟨joinNL jc⟩ with
      | none => ["Invalid JSON syntax in format section"]
      | some (.jobj entries) =>
        entries.flatMap (fun p =>
          match p.2 with
          | .jobj _ => []
          | _ => ["Format info for " ++ p.1 ++ " must be an object"])
      | some _ => ["Format section must contain a JSON object"]

def natListMin : List Nat → Nat
  | [] => 0
  | x :: r => r.foldl Nat.min x

/-- The present sections in `expected_order`, with the first position used
for the CSV section list. -/
def sectionPosList (sp : SecPos) : List (String × Nat) :=
  (match sp.header with | some i => [("MDN:HEADER YAML", i)] | none => [])
  ++ (match sp.sheet with | [] => [] | xs => [("MDN:SHEET CSV", natListMin xs)])
  ++ (match sp.formulas with | some i => [("MDN:FORMULAS JSON", i)] | none => [])
  ++ (match sp.format with | some i => [("MDN:FORMAT JSON", i)] | none => [])
  ++ (match sp.ai with | some i => [("MDN:AI_PROMPT", i)] | none => [])

/-- Adjacent-pair comparison of `_validate_section_order` (lines 398-409). -/
def adjOrderErrors : List (String × Nat) → List String
  | a :: b :: rest =>
    (if b.2 < a.2 then
      ["Section order violation: " ++ a.1 ++ " appears after " ++ b.1]
    else []) ++ adjOrderErrors (b :: rest)
  | _ => []

def vOrderErrors (sp : SecPos) : List String := adjOrderErrors (sectionPosList sp)

/-- `validate_string` / `_validate_content` (`mdn_validator.py` lines
62-133): the error stream of the validation (acceptance is its
emptiness).  The AI-prompt section check yields warnings only and is
elided. -/
def validate_string_errors (content : String) : Except PyErr (List String) :=
  let lines := splitChar '\n' content.data
  let sp := findSectionsGo 0 {} lines
  match vYamlErrors lines sp with
  | .error e => .error e
  | .ok yerrs =>
    .ok ((if containsSeq "END DOCUMENT".data content.data then []
        else ["Missing END DOCUMENT marker"])
      ++ (if sp.header.isSome then [] else ["Missing required section: MDN:HEADER YAML"])
      ++ (if sp.sheet.isEmpty then ["Missing required section: MDN:SHEET CSV"] else [])
      ++ (if sp.formulas.isSome then [] else ["Missing required section: MDN:FORMULAS JSON"])
      ++ yerrs
      ++ vCsvErrors lines sp
      ++ vFormulasErrors lines sp
      ++ vFormatErrors lines sp
      ++ vOrderErrors sp)

/-- Row 10 of the C2 workbook: 26 empty cells, then the formula in AA10. -/
def q3row10 : List XCell :=
  List.replicate 26 ({ value := .vNone } : XCell) ++ [{ value := .vStr "=SUM(A1:A2)" }]

/-- Workbook with one sheet `"Q3 Data"` holding `=SUM(A1:A2)` in cell AA10
(row 10, column 27). -/
def q3wb : Workbook := [("Q3 Data", (List.replicate 9 ([] : List XCell)) ++ [q3row10])]

set_option maxRecDepth 10000 in
/-- C2: for the workbook whose sheet `"Q3 Data"` holds a formula in AA10,
the encoder does record it under the key `"Q3 Data!AA10"`, and that
reference does denote column 27, row 10 — but decoding the encoded
document does NOT apply the formula back to a sheet named `"Q3 Data"`:
the decoded workbook's only sheet is named `"Q3"` (the sheet-name regex
`name=([^\s]+)` truncates at the space), so the formula key matches no
sheet and `_apply_formulas` skips it, as the last conjunct shows directly
on the application step. -/
theorem C2_formula_key_round_trip_broken :
    generate_formulas q3wb = [("Q3 Data!AA10", "=SUM(A1:A2)")] ∧
    column_letter_to_index "AA" = 27 ∧
    mdn_parse_cell_ref ("AA10" : String).data = .ok (("AA" : String).data, 10) ∧
    (convert_content (encode q3wb "test.xlsx" "2025-01-15T12:00:00Z")).map wbNames =
      .ok ["Q3"] ∧
    apply_formula_step [("Q3", [])] "Q3 Data!AA10" (.leaf (.pstr "=SUM(A1:A2)")) =
      [("Q3", [])] := by
  refine ⟨by decide, by decide, by decide, by decide, by decide⟩

/-! ### C1: validator on encoder output -/

/-- Characters safe in sheet names, sources and cell text for the amended
C1 statement: ASCII letters, digits, `_` and `.`. -/
def plainSafeChar (c : Char) : Bool :=
  isUpperAZ c || ('a' ≤ c && c ≤ 'z') || isDigit09 c || c == '_' || c == '.'

/-- A non-empty string of safe characters. -/
def nameSafe (s : String) : Bool := !s.data.isEmpty && s.data.all plainSafeChar

/-- Characters admitted in the `created` timestamp (adds `-`, `:`, `+`). -/
def tsSafeChar (c : Char) : Bool :=
  plainSafeChar c || c == '-' || c == ':' || c == '+'

/-- Cell values covered by the amended C1 statement: empty, a non-negative
integer, or safe text (which cannot start with `=`, so the cell is not a
formula). -/
def cellValOk : XVal → Bool
  | .vNone => true
  | .vInt n => decide (0 ≤ n)
  | .vStr s => s.data.all plainSafeChar

/-- A cell with no formatting (default number format, no font) and a safe
value. -/
def cellOk (c : XCell) : Bool :=
  c.number_format == "General" && c.font.isNone && cellValOk c.value

/-- Well-formed workbook for the amended C1 statement: at least one sheet,
safe sheet names, unformatted cells with safe values (so no formulas and
no format rules). -/
def wbOk (wb : Workbook) : Bool :=
  !wb.isEmpty &&
    wb.all (fun p => nameSafe p.1 && p.2.all (fun row => row.all cellOk))

/-- The C1 counterexample workbook: one sheet with one formula cell. -/
def wbC1 : Workbook := [("Sheet1", [[{ value := .vStr "=1" }]])]

set_option maxRecDepth 40000 in
/-- C1 counterexample: the encoder emits the FORMULAS payload with
`yaml.dump` (block style `Sheet1!A1: =1`), but the validator reads it with
`json.loads`, which rejects it, so a workbook holding even one formula is
encoded into a document the validator rejects. -/
theorem C1_counterexample :
    generate_formulas wbC1 = [("Sheet1!A1", "=1")] ∧
    validate_string_errors (encode wbC1 "test.xlsx" "2025-01-15T12:00:00Z") =
      .ok ["Invalid JSON syntax in formulas section"] :=
  ⟨by decide, by decide⟩

/-! Generic list infrastructure for the C1 acceptance proof. -/

lemma splitChar_ne_nil (sep : Char) (l : List Char) : splitChar sep l ≠ [] := by
  cases l with
  | nil => simp [splitChar]
  | cons c rest =>
    rw [splitChar]
    split
    · simp
    · split <;> simp

lemma splitChar_append (sep : Char) (a b : List Char) :
    splitChar sep (a ++ sep :: b) = splitChar sep a ++ splitChar sep b := by
  induction a with
  | nil =>
    rw [List.nil_append, splitChar]
    rcases h : splitChar sep b with _ | ⟨r, rs⟩
    · exact absurd h (splitChar_ne_nil sep b)
    · have hs : splitChar sep (sep :: b) =
          match splitChar sep b with
          | [] => [[sep]]
          | r :: rs => if sep == sep then [] :: r :: rs else (sep :: r) :: rs := rfl
      rw [hs, h]
      simp
  | cons c a' ih =>
    have h1 : splitChar sep (c :: (a' ++ sep :: b)) =
        match splitChar sep (a' ++ sep :: b) with
        | [] => [[c]]
        | r :: rs => if c == sep then [] :: r :: rs else (c :: r) :: rs := rfl
    have h2 : splitChar sep (c :: a') =
        match splitChar sep a' with
        | [] => [[c]]
        | r :: rs => if c == sep then [] :: r :: rs else (c :: r) :: rs := rfl
    rw [List.cons_append, h1, h2, ih]
    rcases h : splitChar sep a' with _ | ⟨r, rs⟩
    · exact absurd h (splitChar_ne_nil sep a')
    · by_cases hc : c == sep <;> simp [hc]

lemma joinNL_cons (x : List Char) (ls : List (List Char)) (h : ls ≠ []) :
    joinNL (x :: ls) = x ++ '\n' :: joinNL ls := by
  cases ls with
  | nil => exact absurd rfl h
  | cons y tl => rfl

lemma splitChar_joinNL (ls : List (List Char)) (h : ls ≠ []) :
    splitChar '\n' (joinNL ls) = ls.flatMap (fun x => splitChar '\n' x) := by
  induction ls with
  | nil => exact absurd rfl h
  | cons x tl ih =>
    cases tl with
    | nil => simp [joinNL]
    | cons y t2 =>
      rw [joinNL_cons x _ (by simp), splitChar_append, ih (by simp)]
      simp

lemma joinNL_terminated (ls : List (List Char)) :
    (ls.map (fun x => x ++ ['\n'])).flatten = joinNL (ls ++ [[]]) := by
  induction ls with
  | nil => rfl
  | cons x tl ih =>
    rw [List.map_cons, List.flatten_cons, ih, List.cons_append,
      joinNL_cons x (tl ++ [[]]) (by simp)]
    simp

lemma splitChar_mem_subset (sep : Char) {l l' : List Char}
    (h : l' ∈ splitChar sep l) {c : Char} (hc : c ∈ l') : c ∈ l ∧ c ≠ sep := by
  induction l generalizing l' with
  | nil =>
    simp [splitChar] at h
    subst h
    simp at hc
  | cons d rest ih =>
    rw [splitChar] at h
    rcases hs : splitChar sep rest with _ | ⟨r, rs⟩
    · exact absurd hs (splitChar_ne_nil sep rest)
    · rw [hs] at h
      dsimp only at h
      by_cases hd : d == sep
      · rw [if_pos hd] at h
        rcases List.mem_cons.mp h with h0 | h1
        · subst h0; simp at hc
        · have := ih (hs ▸ h1) hc
          exact ⟨List.mem_cons_of_mem _ this.1, this.2⟩
      · rw [if_neg hd] at h
        rcases List.mem_cons.mp h with h0 | h1
        · subst h0
          rcases List.mem_cons.mp hc with rfl | hcr
          · exact ⟨List.mem_cons_self _ _, by simpa using hd⟩
          · have := ih (hs ▸ List.mem_cons_self r rs) hcr
            exact ⟨List.mem_cons_of_mem _ this.1, this.2⟩
        · have := ih (hs ▸ List.mem_cons_of_mem r h1) hc
          exact ⟨List.mem_cons_of_mem _ this.1, this.2⟩

lemma pyStrip_mem {l : List Char} {c : Char} (h : c ∈ pyStrip l) : c ∈ l := by
  unfold pyStrip at h
  have h1 := List.mem_reverse.mp h
  have h2 := (List.dropWhile_sublist _).mem h1
  have h3 := List.mem_reverse.mp h2
  exact (List.dropWhile_sublist _).mem h3

lemma pyStrip_ends {l : List Char} (hh : ∀ c, l.head? = some c → isPyWs c = false)
    (hl : ∀ c, l.getLast? = some c → isPyWs c = false) : pyStrip l = l := by
  unfold pyStrip
  have h1 : l.dropWhile isPyWs = l := by
    cases l with
    | nil => rfl
    | cons c rest => rw [List.dropWhile_cons, if_neg (by simp [hh c rfl])]
  rw [h1]
  have h2 : l.reverse.dropWhile isPyWs = l.reverse := by
    cases hr : l.reverse with
    | nil => rfl
    | cons c rest =>
      have hc : l.getLast? = some c := by rw [← List.head?_reverse, hr]; rfl
      rw [List.dropWhile_cons, if_neg (by simp [hl c hc])]
  rw [h2, List.reverse_reverse]

lemma containsSeq_iff (p l : List Char) :
    containsSeq p l = true ↔ ∃ a b, l = a ++ p ++ b := by
  induction l with
  | nil =>
    rw [containsSeq]
    constructor
    · intro h
      have hp : p = [] := List.isEmpty_iff.mp h
      exact ⟨[], [], by simp [hp]⟩
    · rintro ⟨a, b, hab⟩
      have hlen := congrArg List.length hab
      simp at hlen
      have hp : p = [] := List.length_eq_zero.mp (by omega)
      simp [hp]
  | cons c rest ih =>
    rw [containsSeq, Bool.or_eq_true, ih, List.isPrefixOf_iff_prefix]
    constructor
    · rintro (⟨t, ht⟩ | ⟨a, b, hab⟩)
      · exact ⟨[], t, by simp [ht]⟩
      · exact ⟨c :: a, b, by simp [hab]⟩
    · rintro ⟨a, b, hab⟩
      cases a with
      | nil => exact Or.inl ⟨b, by simpa using hab.symm⟩
      | cons a0 a' =>
        simp only [List.cons_append, List.cons.injEq] at hab
        exact Or.inr ⟨a', b, hab.2⟩

lemma containsSeq_of_parts (p a b : List Char) : containsSeq p (a ++ p ++ b) = true :=
  (containsSeq_iff _ _).mpr ⟨a, b, rfl⟩

lemma containsSeq_false_of_missing {p l : List Char} {ch : Char}
    (hp : ch ∈ p) (hl : ∀ c ∈ l, c ≠ ch) : containsSeq p l = false := by
  cases h : containsSeq p l with
  | false => rfl
  | true =>
    obtain ⟨a, b, hab⟩ := (containsSeq_iff p l).mp h
    exact absurd rfl (hl ch (hab ▸ by simp [hp]))

lemma foldl_min_le (xs : List Nat) (init : Nat) : xs.foldl Nat.min init ≤ init := by
  induction xs generalizing init with
  | nil => exact Nat.le_refl _
  | cons x tl ih =>
    calc tl.foldl Nat.min (Nat.min init x) ≤ Nat.min init x := ih _
      _ ≤ init := Nat.min_le_left _ _

lemma natListMin_head_le (x : Nat) (xs : List Nat) : natListMin (x :: xs) ≤ x :=
  foldl_min_le xs x

lemma findStep_benign (i : Nat) (sp : SecPos) {l : List Char}
    (h : "--- ".data.isPrefixOf (pyStrip l) = false) : findSectionsStep i l sp = sp := by
  simp [findSectionsStep, h]

lemma findGo_benign_block (B rest : List (List Char)) (i : Nat) (sp : SecPos)
    (hB : ∀ l ∈ B, "--- ".data.isPrefixOf (pyStrip l) = false) :
    findSectionsGo i sp (B ++ rest) = findSectionsGo (i + B.length) sp rest := by
  induction B generalizing i sp with
  | nil => simp [findSectionsGo]
  | cons l B' ih =>
    rw [List.cons_append, findSectionsGo, findStep_benign i sp (hB l (by simp)),
      ih _ _ (fun x hx => hB x (by simp [hx]))]
    rw [List.length_cons]
    have : i + 1 + B'.length = i + (B'.length + 1) := by omega
    rw [this]

lemma collect_quiet_block (B rest : List (List Char))
    (hB : ∀ l ∈ B, pyStrip l ≠ "---".data) :
    collectUntilDashes (B ++ rest) = B.map pyStrip ++ collectUntilDashes rest := by
  induction B with
  | nil => simp
  | cons l B' ih =>
    rw [List.cons_append, collectUntilDashes]
    simp only
    rw [if_neg (hB l (by simp)), ih (fun x hx => hB x (by simp [hx])), List.map_cons,
      List.cons_append]

lemma collect_stop (rest : List (List Char)) :
    collectUntilDashes ("---".data :: rest) = [] := by
  rw [collectUntilDashes]
  simp only
  rw [if_pos (by decide)]

/-! Character-class facts for the safe character sets. -/

lemma plainSafe_ne {c d : Char} (h : plainSafeChar c = true)
    (hd : plainSafeChar d = false) : c ≠ d := fun he => by
  rw [he, hd] at h
  cases h

lemma plainSafe_not_ws {c : Char} (h : plainSafeChar c = true) : isPyWs c = false := by
  have h1 : c ≠ ' ' := plainSafe_ne h (by decide)
  have h2 : c ≠ '\t' := plainSafe_ne h (by decide)
  have h3 : c ≠ '\n' := plainSafe_ne h (by decide)
  have h4 : c ≠ '\r' := plainSafe_ne h (by decide)
  simp [isPyWs, h1, h2, h3, h4]

lemma tsSafe_ne {c d : Char} (h : tsSafeChar c = true)
    (hd : tsSafeChar d = false) : c ≠ d := fun he => by
  rw [he, hd] at h
  cases h

lemma tsSafe_not_ws {c : Char} (h : tsSafeChar c = true) : isPyWs c = false := by
  have h1 : c ≠ ' ' := tsSafe_ne h (by decide)
  have h2 : c ≠ '\t' := tsSafe_ne h (by decide)
  have h3 : c ≠ '\n' := tsSafe_ne h (by decide)
  have h4 : c ≠ '\r' := tsSafe_ne h (by decide)
  simp [isPyWs, h1, h2, h3, h4]

/-! No formulas and no format rules come out of a well-formed workbook. -/

lemma sheetCellAt_ok {sh : XSheet}
    (hsh : sh.all (fun row => row.all cellOk) = true) (r c : Nat) :
    cellOk (sheetCellAt sh r c) = true := by
  unfold sheetCellAt
  rcases h1 : sh.get? (r - 1) with _ | row
  · have hb : (Option.none.bind fun row : List XCell => row.get? (c - 1)) = none := rfl
    rw [hb, Option.getD_none]
    decide
  · have hb : ((some row).bind fun row : List XCell => row.get? (c - 1)) =
        row.get? (c - 1) := rfl
    rw [hb]
    rcases h2 : row.get? (c - 1) with _ | cell
    · rw [Option.getD_none]
      decide
    · rw [Option.getD_some]
      have hrow : row ∈ sh := List.get?_mem h1
      have hcell : cell ∈ row := List.get?_mem h2
      exact List.all_eq_true.mp (List.all_eq_true.mp hsh row hrow) cell hcell

lemma foldl_congr_id {α β : Type} (l : List α) (f : β → α → β) (b : β)
    (h : ∀ a ∈ l, ∀ x, f x a = x) : l.foldl f b = b := by
  induction l generalizing b with
  | nil => rfl
  | cons a tl ih =>
    rw [List.foldl_cons, h a (by simp), ih _ (fun a' ha' x => h a' (by simp [ha']) x)]

lemma formulaCellStep_id {cell : XCell} (hc : cellOk cell = true)
    (nm : String) (r c : Nat) (acc : List (String × String)) :
    formulaCellStep nm r c cell acc = acc := by
  have hv : cellValOk cell.value = true := by
    rw [cellOk, Bool.and_eq_true, Bool.and_eq_true] at hc
    exact hc.2
  cases hval : cell.value with
  | vNone => simp [formulaCellStep, hval]
  | vInt n => simp [formulaCellStep, hval]
  | vStr s =>
    rw [hval] at hv
    have hv' : s.data.all plainSafeChar = true := hv
    have hpre : "=".data.isPrefixOf s.data = false := by
      cases hd : s.data with
      | nil => rfl
      | cons c0 tl =>
        have hc0 : plainSafeChar c0 = true := by
          rw [hd] at hv'
          exact List.all_eq_true.mp hv' c0 (by simp)
        have hbe : ('=' == c0) = false :=
          beq_eq_false_iff_ne.mpr (fun he => plainSafe_ne hc0 (by decide) he.symm)
        simp [List.isPrefixOf, hbe]
    simp [formulaCellStep, hval, hpre]

lemma formatCellStep_id {cell : XCell} (hc : cellOk cell = true)
    (nm : String) (r c : Nat) (acc : FmtMap) :
    formatCellStep nm r c cell acc = acc := by
  rw [cellOk, Bool.and_eq_true, Bool.and_eq_true] at hc
  have h1 : cell.number_format = "General" := by
    have := hc.1.1
    simpa using this
  have h2 : cell.font = none := Option.isNone_iff_eq_none.mp hc.1.2
  simp [formatCellStep, h1, h2]

lemma wbOk_parts {wb : Workbook} (h : wbOk wb = true) :
    wb ≠ [] ∧ ∀ p ∈ wb, nameSafe p.1 = true ∧
      p.2.all (fun row => row.all cellOk) = true := by
  rw [wbOk, Bool.and_eq_true] at h
  constructor
  · intro he
    rw [he] at h
    exact absurd h.1 (by decide)
  · intro p hp
    have := List.all_eq_true.mp h.2 p hp
    rwa [Bool.and_eq_true] at this

lemma generate_formulas_nil {wb : Workbook} (h : wbOk wb = true) :
    generate_formulas wb = [] := by
  unfold generate_formulas
  refine foldl_congr_id _ _ _ (fun p hp acc => ?_)
  have hsh := ((wbOk_parts h).2 p hp).2
  refine foldl_congr_id _ _ _ (fun r _ acc' => ?_)
  refine foldl_congr_id _ _ _ (fun c _ acc'' => ?_)
  exact formulaCellStep_id (sheetCellAt_ok hsh r c) _ _ _ _

lemma generate_formatting_nil {wb : Workbook} (h : wbOk wb = true) :
    generate_formatting wb = [] := by
  unfold generate_formatting
  refine foldl_congr_id _ _ _ (fun p hp acc => ?_)
  have hsh := ((wbOk_parts h).2 p hp).2
  refine foldl_congr_id _ _ _ (fun r _ acc' => ?_)
  refine foldl_congr_id _ _ _ (fun c _ acc'' => ?_)
  exact formatCellStep_id (sheetCellAt_ok hsh r c) _ _ _ _

/-! Facts about emitted scalars. -/

lemma yamlDumpScalar_cases (l : List Char) :
    yamlDumpScalar l = l ∨ yamlDumpScalar l = '\'' :: (l ++ ['\'']) := by
  unfold yamlDumpScalar
  by_cases h : yamlPlainOk l = true <;> simp [h]

lemma mem_yamlDumpScalar {x : List Char} {c : Char} (h : c ∈ yamlDumpScalar x) :
    c ∈ x ∨ c = '\'' := by
  rcases yamlDumpScalar_cases x with he | he <;> rw [he] at h
  · exact Or.inl h
  · rcases List.mem_cons.mp h with rfl | h2
    · exact Or.inr rfl
    · rcases List.mem_append.mp h2 with h3 | h3
      · exact Or.inl h3
      · exact Or.inr (by simpa using h3)

lemma dumpScalar_ne_nil {x : List Char} (hx : x ≠ []) : yamlDumpScalar x ≠ [] := by
  rcases yamlDumpScalar_cases x with he | he <;> rw [he] <;> simp [hx]

lemma dumpScalar_getLast_not_ws {x : List Char} (hx : x ≠ [])
    (hs : ∀ c ∈ x, isPyWs c = false) :
    ∀ c, (yamlDumpScalar x).getLast? = some c → isPyWs c = false := by
  intro c hc
  rcases yamlDumpScalar_cases x with he | he <;> rw [he] at hc
  · exact hs c (List.mem_of_mem_getLast? hc)
  · have h2 : ('\'' :: (x ++ ['\''])).getLast? = some '\'' := by
      rw [show '\'' :: (x ++ ['\'']) = ('\'' :: x) ++ ['\''] from rfl,
        List.getLast?_concat]
    rw [h2] at hc
    cases hc
    decide

/-! The header dump, line by line. -/

/-- The `version: '1.0'` header line. -/
def versionLine : List Char := "version: ".data ++ '\'' :: ("1.0".data ++ ['\''])

/-- The lines of the dumped header mapping, in order. -/
def headerLines (source created : String) (names : List String) : List (List Char) :=
  ("source: ".data ++ yamlDumpScalar source.data) ::
  versionLine ::
  ("created: ".data ++ yamlDumpScalar created.data) ::
  "sheets:".data ::
  names.map (fun n => '-' :: ' ' :: yamlDumpScalar n.data)

lemma nameSafe_parts {s : String} (h : nameSafe s = true) :
    s.data ≠ [] ∧ ∀ c ∈ s.data, plainSafeChar c = true := by
  rw [nameSafe, Bool.and_eq_true] at h
  refine ⟨?_, List.all_eq_true.mp h.2⟩
  have := h.1
  intro he
  rw [he] at this
  exact absurd this (by decide)

/-- A line that survives the validator's per-line handling unchanged:
stripping is the identity, it is not marker-like, it is not a `---`
separator, and it holds no newline. -/
def goodLine (l : List Char) : Prop :=
  pyStrip l = l ∧ "--- ".data.isPrefixOf l = false ∧ l ≠ "---".data ∧ ∀ c ∈ l, c ≠ '\n'

instance goodLineDec (l : List Char) : Decidable (goodLine l) := by
  unfold goodLine
  infer_instance

lemma dumpScalar_not_nl {x : List Char} (hs : ∀ c ∈ x, isPyWs c = false) :
    ∀ c ∈ yamlDumpScalar x, c ≠ '\n' := by
  intro c hc he
  rcases mem_yamlDumpScalar hc with h | h
  · have := hs c h
    rw [he] at this
    exact absurd this (by decide)
  · rw [he] at h
    cases h

lemma goodLine_of_parts {c0 : Char} {rest : List Char}
    (h0ws : isPyWs c0 = false) (h0d : c0 ≠ '-') (h0nl : c0 ≠ '\n')
    (hlast : ∀ c, (c0 :: rest).getLast? = some c → isPyWs c = false)
    (hnl : ∀ c ∈ rest, c ≠ '\n') :
    goodLine (c0 :: rest) := by
  refine ⟨?_, ?_, ?_, ?_⟩
  · refine pyStrip_ends (fun c hc => ?_) hlast
    cases hc
    exact h0ws
  · have : ('-' == c0) = false := beq_eq_false_iff_ne.mpr (fun he => h0d he.symm)
    simp [List.isPrefixOf, this]
  · intro he
    injection he with h1 _
    exact h0d h1
  · intro c hc
    rcases List.mem_cons.mp hc with rfl | h
    · exact h0nl
    · exact hnl c h

lemma goodLine_kv (pre : List Char) (c0 : Char) {x : List Char}
    (hpre : ∀ c ∈ pre, c ≠ '\n')
    (h0ws : isPyWs c0 = false) (h0d : c0 ≠ '-') (h0nl : c0 ≠ '\n')
    (hx : x ≠ []) (hs : ∀ c ∈ x, isPyWs c = false) :
    goodLine (c0 :: (pre ++ yamlDumpScalar x)) := by
  refine goodLine_of_parts h0ws h0d h0nl (fun c hc => ?_) (fun c hc => ?_)
  · have hlv : (yamlDumpScalar x).getLast? = some c → isPyWs c = false :=
      dumpScalar_getLast_not_ws hx hs c
    have hne : yamlDumpScalar x ≠ [] := dumpScalar_ne_nil hx
    rcases hv : (yamlDumpScalar x).getLast? with _ | d
    · exact absurd (List.getLast?_eq_none_iff.mp hv) hne
    · have : (c0 :: (pre ++ yamlDumpScalar x)).getLast? = some d := by
        rw [show c0 :: (pre ++ yamlDumpScalar x) = (c0 :: pre) ++ yamlDumpScalar x from rfl,
          List.getLast?_append, hv]
        rfl
      rw [this] at hc
      cases hc
      exact hlv hv
  · rcases List.mem_append.mp hc with h | h
    · exact hpre c h
    · exact dumpScalar_not_nl hs c h

lemma goodLine_item {x : List Char} (hx : x ≠ []) (hs : ∀ c ∈ x, isPyWs c = false) :
    goodLine ('-' :: ' ' :: yamlDumpScalar x) := by
  refine ⟨?_, ?_, ?_, ?_⟩
  · refine pyStrip_ends (fun c hc => ?_) (fun c hc => ?_)
    · cases hc
      decide
    · have hne : yamlDumpScalar x ≠ [] := dumpScalar_ne_nil hx
      rcases hv : (yamlDumpScalar x).getLast? with _ | d
      · exact absurd (List.getLast?_eq_none_iff.mp hv) hne
      · have : ('-' :: ' ' :: yamlDumpScalar x).getLast? = some d := by
          rw [show '-' :: ' ' :: yamlDumpScalar x = ['-', ' '] ++ yamlDumpScalar x from rfl,
            List.getLast?_append, hv]
          rfl
        rw [this] at hc
        cases hc
        exact dumpScalar_getLast_not_ws hx hs c hv
  · simp [List.isPrefixOf]
  · intro he
    injection he with _ h2
    injection h2 with h2' _
    exact absurd h2' (by decide)
  · intro c hc
    rcases List.mem_cons.mp hc with rfl | hc2
    · decide
    · rcases List.mem_cons.mp hc2 with rfl | hc3
      · decide
      · exact dumpScalar_not_nl hs c hc3

lemma headerLines_good {source created : String} {names : List String}
    (hsrc : nameSafe source = true)
    (hcrn : created.data ≠ []) (hcrs : ∀ c ∈ created.data, tsSafeChar c = true)
    (hns : ∀ n ∈ names, nameSafe n = true) :
    ∀ l ∈ headerLines source created names, goodLine l := by
  intro l hl
  obtain ⟨hsn, hss⟩ := nameSafe_parts hsrc
  rw [headerLines] at hl
  rcases List.mem_cons.mp hl with rfl | hl
  · exact goodLine_kv "ource: ".data 's' (by decide) (by decide) (by decide) (by decide)
      hsn (fun c hc => plainSafe_not_ws (hss c hc))
  rcases List.mem_cons.mp hl with rfl | hl
  · decide
  rcases List.mem_cons.mp hl with rfl | hl
  · exact goodLine_kv "reated: ".data 'c' (by decide) (by decide) (by decide) (by decide)
      hcrn (fun c hc => tsSafe_not_ws (hcrs c hc))
  rcases List.mem_cons.mp hl with rfl | hl
  · decide
  · obtain ⟨n, hn, rfl⟩ := List.mem_map.mp hl
    obtain ⟨hnn, hnc⟩ := nameSafe_parts (hns n hn)
    exact goodLine_item hnn (fun c hc => plainSafe_not_ws (hnc c hc))

/-- Lines in which `-` does not occur can neither look like markers nor
terminate a section. -/
def quietLine (l : List Char) : Prop :=
  "--- ".data.isPrefixOf (pyStrip l) = false ∧ pyStrip l ≠ "---".data

lemma goodLine_quiet {l : List Char} (h : goodLine l) : quietLine l := by
  obtain ⟨h1, h2, h3, _⟩ := h
  exact ⟨by rw [h1]; exact h2, by rw [h1]; exact h3⟩

lemma quiet_of_no_dash {l : List Char} (h : ∀ c ∈ l, c ≠ '-') : quietLine l := by
  constructor
  · cases hs : pyStrip l with
    | nil => rfl
    | cons c rest =>
      have hc : c ≠ '-' := h c (pyStrip_mem (hs ▸ List.mem_cons_self c rest))
      have hb : ('-' == c) = false := beq_eq_false_iff_ne.mpr (fun he => hc he.symm)
      simp [List.isPrefixOf, hb]
  · intro he
    have hm : '-' ∈ pyStrip l := by
      rw [he]
      decide
    exact h '-' (pyStrip_mem hm) rfl

lemma containsSeq_mem {p l : List Char} (h : containsSeq p l = true) {c : Char}
    (hc : c ∈ p) : c ∈ l := by
  obtain ⟨a, b, rfl⟩ := (containsSeq_iff p l).mp h
  simp [hc]

lemma sheetMarker_no_header_pat {n : List Char} (hn : ∀ c ∈ n, plainSafeChar c = true) :
    containsSeq "MDN:HEADER YAML".data ("--- MDN:SHEET CSV name=".data ++ n) = false := by
  cases h : containsSeq "MDN:HEADER YAML".data ("--- MDN:SHEET CSV name=".data ++ n) with
  | false => rfl
  | true =>
    exfalso
    have hn' : containsSeq
        ['M', 'D', 'N', ':', 'H', 'E', 'A', 'D', 'E', 'R', ' ', 'Y', 'A', 'M', 'L'] n
          = false := by
      refine @containsSeq_false_of_missing _ _ ':' (by decide) (fun c hc he => ?_)
      subst he
      exact absurd (hn _ hc) (by decide)
    rw [show "--- MDN:SHEET CSV name=".data =
      ['-', '-', '-', ' ', 'M', 'D', 'N', ':', 'S', 'H', 'E', 'E', 'T', ' ',
       'C', 'S', 'V', ' ', 'n', 'a', 'm', 'e', '='] from by decide] at h
    simp only [List.cons_append, List.nil_append, containsSeq, List.isPrefixOf, hn'] at h
    simp at h
    rw [h] at hn'
    exact Bool.noConfusion hn'

lemma searchNameAttr_ne_none (x : List Char) {n : List Char} {c0 : Char} {tl : List Char}
    (hn : n = c0 :: tl) (h0 : vNameStop c0 = false) :
    searchNameAttr (x ++ "name=".data ++ n) ≠ none := by
  induction x with
  | nil =>
    rw [List.nil_append,
      show ("name=".data ++ n : List Char) = 'n' :: 'a' :: 'm' :: 'e' :: '=' :: n from rfl,
      searchNameAttr.eq_def]
    dsimp only
    have hcond : (['n', 'a', 'm', 'e', '='].isPrefixOf
        ('n' :: 'a' :: 'm' :: 'e' :: '=' :: n)) = true := by
      simp [List.isPrefixOf]
    rw [if_pos hcond]
    subst hn
    have htok : (List.takeWhile (fun x => !vNameStop x)
        (List.drop 5 ('n' :: 'a' :: 'm' :: 'e' :: '=' :: (c0 :: tl)))) =
        c0 :: List.takeWhile (fun x => !vNameStop x) tl := by
      rw [show (List.drop 5 ('n' :: 'a' :: 'm' :: 'e' :: '=' :: (c0 :: tl))) = c0 :: tl
          from rfl,
        List.takeWhile_cons, show (!vNameStop c0) = true from by rw [h0]; rfl]
      simp
    rw [htok]
    simp
  | cons d x' ih =>
    rw [List.cons_append, List.cons_append, searchNameAttr.eq_def]
    dsimp only
    by_cases hp : "name=".data.isPrefixOf (d :: (x' ++ "name=".data ++ n)) = true
    · rw [if_pos hp]
      by_cases ht : (((d :: (x' ++ "name=".data ++ n)).drop 5).takeWhile
          (fun x => !vNameStop x)).isEmpty = true
      · rw [if_pos ht]
        exact ih
      · rw [if_neg ht]
        simp
    · rw [if_neg hp]
      exact ih

/-! Characters of the emitted CSV payload. -/

lemma natStrGo_digits (f : Nat) : ∀ (n : Nat), ∀ c ∈ natStrGo f n, isDigit09 c = true := by
  induction f with
  | zero =>
    intro n c hc
    simp [natStrGo] at hc
  | succ f ih =>
    intro n c hc
    rw [natStrGo] at hc
    by_cases h : n < 10
    · rw [if_pos h] at hc
      simp at hc
      subst hc
      interval_cases n <;> decide
    · rw [if_neg h] at hc
      rcases List.mem_append.mp hc with h1 | h1
      · exact ih _ c h1
      · simp at h1
        subst h1
        have hm : n % 10 < 10 := Nat.mod_lt _ (by norm_num)
        set m := n % 10 with hmdef
        interval_cases m <;> decide

lemma digit_plainSafe {c : Char} (h : isDigit09 c = true) : plainSafeChar c = true := by
  rw [plainSafeChar, h]
  simp

lemma cellText_chars {cell : XCell} (hc : cellOk cell = true) :
    ∀ c ∈ cellText cell.value, plainSafeChar c = true := by
  have hv : cellValOk cell.value = true := by
    rw [cellOk, Bool.and_eq_true, Bool.and_eq_true] at hc
    exact hc.2
  intro c hcm
  cases hval : cell.value with
  | vNone =>
    rw [hval] at hcm
    simp [cellText] at hcm
  | vInt n =>
    rw [hval] at hv hcm
    have hn : ¬(n < 0) := by
      have : decide (0 ≤ n) = true := hv
      simp at this
      omega
    rw [cellText, intStr, if_neg hn] at hcm
    exact digit_plainSafe (natStrGo_digits _ _ c hcm)
  | vStr s =>
    rw [hval] at hv hcm
    have hv' : s.data.all plainSafeChar = true := hv
    exact List.all_eq_true.mp hv' c hcm

lemma renderField_id {f : List Char} (h : ∀ c ∈ f, plainSafeChar c = true) :
    renderField f = f := by
  rw [renderField, if_neg]
  intro ha
  obtain ⟨c, hc, hq⟩ := List.any_eq_true.mp ha
  have hp := h c hc
  rcases (by simpa [csvNeedsQuote] using hq :
      ((c = ',' ∨ c = '"') ∨ c = '\n') ∨ c = '\r')
      with ((rfl | rfl) | rfl) | rfl <;>
    exact absurd hp (by decide)

lemma mem_joinComma {ls : List (List Char)} {c : Char} (h : c ∈ joinComma ls) :
    (∃ l ∈ ls, c ∈ l) ∨ c = ',' := by
  induction ls with
  | nil => simp [joinComma] at h
  | cons x tl ih =>
    cases tl with
    | nil => exact Or.inl ⟨x, by simp, by simpa [joinComma] using h⟩
    | cons y t2 =>
      rw [joinComma] at h
      rcases List.mem_append.mp h with h1 | h1
      · exact Or.inl ⟨x, by simp, h1⟩
      · rcases List.mem_cons.mp h1 with rfl | h2
        · exact Or.inr rfl
        · rcases ih h2 with ⟨l, hl, hcl⟩ | hc2
          · exact Or.inl ⟨l, by simp [hl], hcl⟩
          · exact Or.inr hc2

lemma renderRow_chars {sh : XSheet}
    (hsh : sh.all (fun row => row.all cellOk) = true) (r maxc : Nat) :
    ∀ c ∈ renderRow sh r maxc, plainSafeChar c = true ∨ c = ',' := by
  intro c hc
  rcases mem_joinComma hc with ⟨l, hl, hcl⟩ | rfl
  · obtain ⟨cidx, _, rfl⟩ := List.mem_map.mp hl
    left
    have hct := cellText_chars (sheetCellAt_ok hsh r cidx)
    rw [renderField_id hct] at hcl
    exact hct c hcl
  · exact Or.inr rfl

lemma sheet_to_csv_chars {sh : XSheet}
    (hsh : sh.all (fun row => row.all cellOk) = true) :
    ∀ c ∈ sheet_to_csv sh, plainSafeChar c = true ∨ c = ',' ∨ c = '\r' ∨ c = '\n' := by
  intro c hc
  rw [sheet_to_csv] at hc
  split at hc
  · simp at hc
  · have hc2 := pyStrip_mem hc
    obtain ⟨blk, hblk, hcb⟩ := List.mem_flatten.mp hc2
    obtain ⟨r, _, rfl⟩ := List.mem_map.mp hblk
    rcases List.mem_append.mp hcb with h1 | h1
    · rcases renderRow_chars hsh r _ c h1 with h | h
      · exact Or.inl h
      · exact Or.inr (Or.inl h)
    · rcases (by simpa using h1 : c = '\r' ∨ c = '\n') with rfl | rfl
      · exact Or.inr (Or.inr (Or.inl rfl))
      · exact Or.inr (Or.inr (Or.inr rfl))

lemma csv_lines_quiet {sh : XSheet}
    (hsh : sh.all (fun row => row.all cellOk) = true) :
    ∀ l ∈ splitChar '\n' (sheet_to_csv sh), quietLine l := by
  intro l hl
  refine quiet_of_no_dash (fun c hc he => ?_)
  subst he
  have := splitChar_mem_subset '\n' hl hc
  rcases sheet_to_csv_chars hsh '-' this.1 with h | h | h | h
  · exact absurd h (by decide)
  · cases h
  · cases h
  · cases h

/-- The lines of the fixed context dump. -/
def ctxLines : List (List Char) :=
  ["purpose: excel_to_mdn_conversion".data, "keyMetrics:".data,
    "- data_integrity".data, "- formula_preservation".data,
    "businessRules:".data, "- All formulas must be preserved".data,
    "- Data types maintained through formatting".data,
    "- Sheet structure preserved".data]

set_option maxRecDepth 4000 in
lemma ctxDump_eq : yamlDump contextPVal = joinNL (ctxLines ++ [[]]) := by decide

set_option maxRecDepth 4000 in
lemma ctxLines_good : ∀ l ∈ ctxLines, goodLine l := by decide

lemma findStep_headerMarker (i : Nat) (sp : SecPos) :
    findSectionsStep i "--- MDN:HEADER YAML".data sp = { sp with header := some i } := by
  have h0 : pyStrip "--- MDN:HEADER YAML".data = "--- MDN:HEADER YAML".data := by decide
  have h1 : "--- ".data.isPrefixOf "--- MDN:HEADER YAML".data = true := by decide
  have h2 : containsSeq "MDN:HEADER YAML".data "--- MDN:HEADER YAML".data = true := by
    decide
  simp [findSectionsStep, h0, h1, h2]

lemma findStep_formulasMarker (i : Nat) (sp : SecPos) :
    findSectionsStep i "--- MDN:FORMULAS JSON".data sp =
      { sp with formulas := some i } := by
  have h0 : pyStrip "--- MDN:FORMULAS JSON".data = "--- MDN:FORMULAS JSON".data := by
    decide
  have h1 : "--- ".data.isPrefixOf "--- MDN:FORMULAS JSON".data = true := by decide
  have hH : containsSeq "MDN:HEADER YAML".data "--- MDN:FORMULAS JSON".data = false := by
    decide
  have hS : containsSeq "MDN:SHEET CSV".data "--- MDN:FORMULAS JSON".data = false := by
    decide
  have hF : containsSeq "MDN:FORMULAS JSON".data "--- MDN:FORMULAS JSON".data = true := by
    decide
  simp [findSectionsStep, h0, h1, hH, hS, hF]

/-- The full sheet-marker line for name `n`. -/
def sheetMarkerLine (n : List Char) : List Char := "--- MDN:SHEET CSV name=".data ++ n

lemma sheetMarker_strip {n : List Char} (hn : n ≠ [])
    (hpc : ∀ c ∈ n, plainSafeChar c = true) :
    pyStrip (sheetMarkerLine n) = sheetMarkerLine n := by
  refine pyStrip_ends (fun c hc => ?_) (fun c hc => ?_)
  · rw [show (sheetMarkerLine n).head? = some '-' from rfl] at hc
    cases hc
    decide
  · rcases hv : n.getLast? with _ | d
    · exact absurd (List.getLast?_eq_none_iff.mp hv) hn
    · have hg : (sheetMarkerLine n).getLast? = some d := by
        rw [sheetMarkerLine, List.getLast?_append, hv]
        rfl
      rw [hg] at hc
      cases hc
      exact plainSafe_not_ws (hpc c (List.mem_of_mem_getLast? hv))

lemma findStep_sheetMarker (i : Nat) (sp : SecPos) {n : List Char} (hn : n ≠ [])
    (hpc : ∀ c ∈ n, plainSafeChar c = true) :
    findSectionsStep i (sheetMarkerLine n) sp = { sp with sheet := sp.sheet ++ [i] } := by
  have hstrip := sheetMarker_strip hn hpc
  have hpre : "--- ".data.isPrefixOf (sheetMarkerLine n) = true := by
    rw [List.isPrefixOf_iff_prefix]
    exact ⟨"MDN:SHEET CSV name=".data ++ n, rfl⟩
  have hH := sheetMarker_no_header_pat hpc
  have hS : containsSeq "MDN:SHEET CSV".data (sheetMarkerLine n) = true :=
    (containsSeq_iff _ _).mpr ⟨"--- ".data, " name=".data ++ n, rfl⟩
  unfold findSectionsStep
  rw [hstrip, if_pos hpre]
  have hH' : ¬(containsSeq "MDN:HEADER YAML".data (sheetMarkerLine n) = true) := by
    have hx : containsSeq "MDN:HEADER YAML".data (sheetMarkerLine n) = false := hH
    simp [hx]
  rw [if_neg hH', if_pos hS]

lemma sheetMarker_name {n : List Char} {c0 : Char} {tl : List Char}
    (hn : n = c0 :: tl) (hpc : ∀ c ∈ n, plainSafeChar c = true) :
    searchNameAttr (sheetMarkerLine n) ≠ none := by
  have h0 : vNameStop c0 = false := by
    have hp : plainSafeChar c0 = true := hpc c0 (by rw [hn]; simp)
    have h1 : c0 ≠ ',' := plainSafe_ne hp (by decide)
    have hb : (c0 == ',') = false := beq_eq_false_iff_ne.mpr h1
    rw [vNameStop, hb, plainSafe_not_ws hp]
    rfl
  have he : sheetMarkerLine n = "--- MDN:SHEET CSV ".data ++ "name=".data ++ n := rfl
  rw [he]
  exact searchNameAttr_ne_none _ hn h0

lemma joinNL_snoc (ls : List (List Char)) (x : List Char) (h : ls ≠ []) :
    joinNL (ls ++ [x]) = joinNL ls ++ '\n' :: x := by
  induction ls with
  | nil => exact absurd rfl h
  | cons a tl ih =>
    cases tl with
    | nil => rfl
    | cons b t2 =>
      rw [List.cons_append, joinNL_cons a ((b :: t2) ++ [x]) (by simp), ih (by simp),
        joinNL_cons a (b :: t2) (by simp)]
      simp

lemma pyStrip_snoc_ws {x : List Char} {c : Char} (hc : isPyWs c = true) :
    pyStrip (x ++ [c]) = pyStrip x := by
  unfold pyStrip
  rw [List.dropWhile_append]
  by_cases he : (x.dropWhile isPyWs).isEmpty = true
  · rw [if_pos he]
    have hx : x.dropWhile isPyWs = [] := by
      cases hxx : x.dropWhile isPyWs
      · rfl
      · rw [hxx] at he
        cases he
    rw [hx]
    simp [List.dropWhile, hc]
  · rw [if_neg he]
    rw [List.reverse_append]
    simp only [List.reverse_cons, List.reverse_nil, List.nil_append, List.cons_append]
    rw [List.dropWhile_cons, if_pos (by simp [hc])]

lemma splitChar_joinNL_id (ls : List (List Char)) (h : ls ≠ [])
    (hnl : ∀ l ∈ ls, ∀ c ∈ l, c ≠ '\n') : splitChar '\n' (joinNL ls) = ls := by
  rw [splitChar_joinNL ls h]
  induction ls with
  | nil => rfl
  | cons x tl ih =>
    rw [List.flatMap_cons, splitChar_no_sep '\n' x (hnl x (by simp))]
    cases tl with
    | nil => rfl
    | cons y t2 =>
      rw [ih (by simp) (fun l hl => hnl l (by simp [hl]))]
      rfl

lemma dumpScalar_strip {x : List Char} (hx : x ≠ []) (hs : ∀ c ∈ x, isPyWs c = false) :
    pyStrip (yamlDumpScalar x) = yamlDumpScalar x := by
  refine pyStrip_ends (fun c hc => ?_) (dumpScalar_getLast_not_ws hx hs)
  rcases yamlDumpScalar_cases x with he | he <;> rw [he] at hc
  · cases x with
    | nil => exact absurd rfl hx
    | cons d tl =>
      rw [show (d :: tl).head? = some d from rfl] at hc
      cases hc
      exact hs c (by simp)
  · rw [show ('\'' :: (x ++ ['\''])).head? = some '\'' from rfl] at hc
    cases hc
    decide

lemma findColonSep_key (key : List Char) (V : List Char) (hk : ∀ c ∈ key, c ≠ ':') :
    findColonSep (key ++ ':' :: ' ' :: V) = some (key, V) := by
  induction key with
  | nil => rfl
  | cons c rest ih =>
    rw [List.cons_append, findColonSep.eq_def]
    split <;> rename_i heq
    · simp at heq
    · injection heq with h1 _
      exact absurd h1 (hk c (by simp))
    · injection heq with h1 _
      exact absurd h1 (hk c (by simp))
    · injection heq with h1 h2
      subst h1
      rw [← h2, ih (fun a ha => hk a (by simp [ha]))]

set_option maxRecDepth 4000 in
lemma headerDump_eq (source created : String) (names : List String) (h : names ≠ []) :
    yamlDump (headerPVal source created names) =
      joinNL (headerLines source created names ++ [[]]) := by
  rw [← joinNL_terminated]
  cases names with
  | nil => exact absurd rfl h
  | cons n0 ns =>
    have hksrc : yamlDumpScalar "source".data = "source".data := by decide
    have hkver : yamlDumpScalar "version".data = "version".data := by decide
    have hkcre : yamlDumpScalar "created".data = "created".data := by decide
    have hkshe : yamlDumpScalar "sheets".data = "sheets".data := by decide
    have hv10 : yamlDumpScalar "1.0".data = '\'' :: ("1.0".data ++ ['\'']) := by decide
    simp [yamlDump, yamlDumpEntry, yamlDumpLeaf, headerPVal, headerLines, versionLine,
      hksrc, hkver, hkcre, hkshe, hv10, List.map_cons, List.flatten_cons, List.map_map]
    refine congrArg List.flatten (List.map_congr_left fun n _ => rfl)

lemma dumpScalar_not_ws {x : List Char} (hs : ∀ c ∈ x, isPyWs c = false) :
    ∀ c ∈ yamlDumpScalar x, isPyWs c = false := by
  intro c hc
  rcases mem_yamlDumpScalar hc with h | rfl
  · exact hs c h
  · decide

lemma append_getLast_not_ws {pre V : List Char} (hV : V ≠ [])
    (hVs : ∀ c ∈ V, isPyWs c = false) :
    ∀ c, (pre ++ V).getLast? = some c → isPyWs c = false := by
  intro c hc
  rcases hv : V.getLast? with _ | d
  · exact absurd (List.getLast?_eq_none_iff.mp hv) hV
  · have hg : (pre ++ V).getLast? = some d := by
      rw [List.getLast?_append, hv]
      rfl
    rw [hg] at hc
    cases hc
    exact hVs c (List.mem_of_mem_getLast? hv)

lemma yamlTok_source {V : List Char} (hV : V ≠ []) (hVs : ∀ c ∈ V, isPyWs c = false) :
    yamlTok ("source: ".data ++ V) = .ok (.kv "source" (yamlResolveScalar V)) := by
  have hstrip : pyStrip ("source: ".data ++ V) = "source: ".data ++ V := by
    refine pyStrip_ends (fun c hc => ?_) (append_getLast_not_ws hV hVs)
    rw [show ("source: ".data ++ V).head? = some 's' from rfl] at hc
    cases hc
    decide
  unfold yamlTok
  rw [hstrip]
  rw [if_neg (by rw [show ("source: ".data ++ V).isEmpty = false from rfl]; simp)]
  rw [if_neg (by
    rw [show (match ("source: ".data ++ V : List Char) with
      | ' ' :: _ => true | _ => false) = false from rfl]
    simp)]
  rw [if_neg (by rw [show isDashItem ("source: ".data ++ V) = false from rfl]; simp)]
  rw [show ("source: ".data ++ V : List Char) = "source".data ++ ':' :: ' ' :: V from rfl,
    findColonSep_key "source".data V (by decide)]
  dsimp only
  rw [pyStrip_no_ws V hVs]
  rw [if_neg (by
    have : V.isEmpty = false := by cases V with | nil => exact absurd rfl hV | cons a b => rfl
    simp [this])]
  rfl

lemma yamlTok_created {V : List Char} (hV : V ≠ []) (hVs : ∀ c ∈ V, isPyWs c = false) :
    yamlTok ("created: ".data ++ V) = .ok (.kv "created" (yamlResolveScalar V)) := by
  have hstrip : pyStrip ("created: ".data ++ V) = "created: ".data ++ V := by
    refine pyStrip_ends (fun c hc => ?_) (append_getLast_not_ws hV hVs)
    rw [show ("created: ".data ++ V).head? = some 'c' from rfl] at hc
    cases hc
    decide
  unfold yamlTok
  rw [hstrip]
  rw [if_neg (by rw [show ("created: ".data ++ V).isEmpty = false from rfl]; simp)]
  rw [if_neg (by
    rw [show (match ("created: ".data ++ V : List Char) with
      | ' ' :: _ => true | _ => false) = false from rfl]
    simp)]
  rw [if_neg (by rw [show isDashItem ("created: ".data ++ V) = false from rfl]; simp)]
  rw [show ("created: ".data ++ V : List Char) = "created".data ++ ':' :: ' ' :: V from rfl,
    findColonSep_key "created".data V (by decide)]
  dsimp only
  rw [pyStrip_no_ws V hVs]
  rw [if_neg (by
    have : V.isEmpty = false := by cases V with | nil => exact absurd rfl hV | cons a b => rfl
    simp [this])]
  rfl

lemma yamlTok_item {V : List Char} (hV : V ≠ []) (hVs : ∀ c ∈ V, isPyWs c = false) :
    yamlTok ('-' :: ' ' :: V) = .ok (.item (yamlResolveScalar V)) := by
  have hstrip : pyStrip ('-' :: ' ' :: V) = '-' :: ' ' :: V := by
    refine pyStrip_ends (fun c hc => ?_) (@append_getLast_not_ws ['-', ' '] _ hV hVs)
    rw [show ('-' :: ' ' :: V).head? = some '-' from rfl] at hc
    cases hc
    decide
  unfold yamlTok
  rw [hstrip]
  rw [if_neg (by rw [show ('-' :: ' ' :: V).isEmpty = false from rfl]; simp)]
  rw [if_neg (by
    rw [show (match ('-' :: ' ' :: V : List Char) with
      | ' ' :: _ => true | _ => false) = false from rfl]
    simp)]
  rw [if_pos (show isDashItem ('-' :: ' ' :: V) = true by simp [isDashItem, List.isPrefixOf])]
  rw [show (('-' :: ' ' :: V : List Char).drop 2) = V from rfl, pyStrip_no_ws V hVs]

lemma yamlToks_cons_ok {l : List Char} {t : YTok} {rest : List (List Char)} {ts : List YTok}
    (h1 : yamlTok l = .ok t) (h2 : yamlToks rest = .ok ts) :
    yamlToks (l :: rest) = .ok (t :: ts) := by
  rw [yamlToks, h1, h2]

lemma yamlToks_items {names : List String} (hns : ∀ n ∈ names, nameSafe n = true) :
    yamlToks (names.map (fun n => '-' :: ' ' :: yamlDumpScalar n.data)) =
      .ok (names.map (fun n => .item (yamlResolveScalar (yamlDumpScalar n.data)))) := by
  induction names with
  | nil => rfl
  | cons n ns ih =>
    obtain ⟨hn1, hn2⟩ := nameSafe_parts (hns n (by simp))
    rw [List.map_cons, List.map_cons]
    exact yamlToks_cons_ok
      (yamlTok_item (dumpScalar_ne_nil hn1)
        (dumpScalar_not_ws (fun c hc => plainSafe_not_ws (hn2 c hc))))
      (ih (fun m hm => hns m (by simp [hm])))

lemma yamlGoRev_items (vs : List PLeaf) (rest : List YTok) (pending : List PLeaf) :
    yamlGoRev ((vs.map YTok.item).reverse ++ rest) pending =
      yamlGoRev rest (vs ++ pending) := by
  induction vs generalizing rest pending with
  | nil => simp
  | cons v tl ih =>
    rw [List.map_cons, List.reverse_cons, List.append_assoc, ih]
    rfl



lemma yamlGoRev_items2 (g : String → PLeaf) (names : List String) (rest : List YTok)
    (pending : List PLeaf) :
    yamlGoRev ((names.map (fun n => YTok.item (g n))).reverse ++ rest) pending =
      yamlGoRev rest (names.map g ++ pending) := by
  have h : names.map (fun n => YTok.item (g n)) = (names.map g).map YTok.item := by
    rw [List.map_map]
    rfl
  rw [h, yamlGoRev_items]

lemma yamlGoRev_four {v1 v2 v3 : PLeaf} {P : List PLeaf} (hP : P ≠ []) :
    yamlGoRev [.kvEmpty "sheets", .kv "created" v3, .kv "version" v2, .kv "source" v1] P =
      .ok [("source", .leaf v1), ("version", .leaf v2), ("created", .leaf v3),
        ("sheets", .list P)] := by
  have hPf : P.isEmpty = false := by
    cases P with
    | nil => exact absurd rfl hP
    | cons a b => rfl
  simp [yamlGoRev, hPf]

set_option maxRecDepth 4000 in
lemma yamlLoad_header {source created : String} {names : List String} (hne : names ≠ [])
    (hsrc : nameSafe source = true) (hcrn : created.data ≠ [])
    (hcrs : ∀ c ∈ created.data, tsSafeChar c = true)
    (hns : ∀ n ∈ names, nameSafe n = true) :
    yamlLoadModel ⟨yamlDump (headerPVal source created names)⟩ =
      .ok (.dict
        [("source", .leaf (yamlResolveScalar (yamlDumpScalar source.data))),
         ("version", .leaf (.pstr "1.0")),
         ("created", .leaf (yamlResolveScalar (yamlDumpScalar created.data))),
         ("sheets", .list (names.map (fun n =>
            yamlResolveScalar (yamlDumpScalar n.data))))]) := by
  obtain ⟨hsn, hss⟩ := nameSafe_parts hsrc
  have hsw : ∀ c ∈ source.data, isPyWs c = false := fun c hc => plainSafe_not_ws (hss c hc)
  have hcw : ∀ c ∈ created.data, isPyWs c = false := fun c hc => tsSafe_not_ws (hcrs c hc)
  have hVsne : yamlDumpScalar source.data ≠ [] := dumpScalar_ne_nil hsn
  have hVsw := dumpScalar_not_ws hsw
  have hVcne : yamlDumpScalar created.data ≠ [] := dumpScalar_ne_nil hcrn
  have hVcw := dumpScalar_not_ws hcw
  have hLne : headerLines source created names ≠ [] := by rw [headerLines]; simp
  have hLnl : ∀ l ∈ headerLines source created names, ∀ c ∈ l, c ≠ '\n' :=
    fun l hl => (headerLines_good hsrc hcrn hcrs hns l hl).2.2.2
  have hheadshape : ∃ t, joinNL (headerLines source created names) = 's' :: t := by
    rw [show headerLines source created names =
        ("source: ".data ++ yamlDumpScalar source.data) ::
        (versionLine :: ("created: ".data ++ yamlDumpScalar created.data) ::
          "sheets:".data ::
          names.map (fun n => '-' :: ' ' :: yamlDumpScalar n.data)) from rfl,
      joinNL_cons _ _ (by simp)]
    exact ⟨_, rfl⟩
  have hlastok : ∀ c, (joinNL (headerLines source created names)).getLast? = some c →
      isPyWs c = false := by
    obtain (hnil | ⟨ns', nk, hnames⟩) := List.eq_nil_or_concat names
    · exact absurd hnil hne
    · subst hnames
      have hnk : nameSafe nk = true := hns nk (by simp [List.concat_eq_append])
      obtain ⟨hkn, hkc⟩ := nameSafe_parts hnk
      have hdw : ∀ a ∈ yamlDumpScalar nk.data, isPyWs a = false :=
        dumpScalar_not_ws (fun a ha => plainSafe_not_ws (hkc a ha))
      have hLsplit : headerLines source created (ns'.concat nk) =
          (("source: ".data ++ yamlDumpScalar source.data) :: versionLine ::
            ("created: ".data ++ yamlDumpScalar created.data) :: "sheets:".data ::
            ns'.map (fun n => '-' :: ' ' :: yamlDumpScalar n.data)) ++
          [('-' :: ' ' :: yamlDumpScalar nk.data)] := by
        rw [headerLines]
        simp [List.concat_eq_append]
      rw [hLsplit, joinNL_snoc _ _ (by simp)]
      intro c hc
      rw [List.getLast?_append,
        show ('\n' :: ('-' :: ' ' :: yamlDumpScalar nk.data)) =
          ['\n'] ++ ('-' :: ' ' :: yamlDumpScalar nk.data) from rfl,
        List.getLast?_append] at hc
      rcases hv : (yamlDumpScalar nk.data).getLast? with _ | d
      · exact absurd (List.getLast?_eq_none_iff.mp hv) (dumpScalar_ne_nil hkn)
      · have h1 : ('-' :: ' ' :: yamlDumpScalar nk.data).getLast? = some d := by
          rw [show ('-' :: ' ' :: yamlDumpScalar nk.data) =
            ['-', ' '] ++ yamlDumpScalar nk.data from rfl, List.getLast?_append, hv]
          rfl
        rw [h1] at hc
        simp [Option.or] at hc
        subst hc
        exact hdw d (List.mem_of_mem_getLast? hv)
  have hstripJoin : pyStrip (joinNL (headerLines source created names)) =
      joinNL (headerLines source created names) := by
    refine pyStrip_ends (fun c hc => ?_) hlastok
    obtain ⟨t, ht⟩ := hheadshape
    rw [ht] at hc
    cases hc
    decide
  have htoks : yamlToks (headerLines source created names) =
      .ok (.kv "source" (yamlResolveScalar (yamlDumpScalar source.data)) ::
        .kv "version" (.pstr "1.0") ::
        .kv "created" (yamlResolveScalar (yamlDumpScalar created.data)) ::
        .kvEmpty "sheets" ::
        names.map (fun n => YTok.item (yamlResolveScalar (yamlDumpScalar n.data)))) := by
    refine yamlToks_cons_ok (yamlTok_source hVsne hVsw) ?_
    refine yamlToks_cons_ok (by decide) ?_
    refine yamlToks_cons_ok (yamlTok_created hVcne hVcw) ?_
    exact yamlToks_cons_ok (by decide) (yamlToks_items hns)
  rw [headerDump_eq _ _ _ hne]
  unfold yamlLoadModel
  rw [show (⟨joinNL (headerLines source created names ++ [[]])⟩ : String).data
      = joinNL (headerLines source created names ++ [[]]) from rfl,
    joinNL_snoc _ _ hLne, pyStrip_snoc_ws (by decide), hstripJoin]
  obtain ⟨t0, ht0⟩ := hheadshape
  rw [if_neg (by rw [ht0]; simp), if_neg (by
    rw [ht0]
    intro he
    injection he with h1 _
    exact absurd h1 (by decide))]
  rw [splitChar_joinNL_id _ hLne hLnl]
  rw [show headerLines source created names =
      ("source: ".data ++ yamlDumpScalar source.data) ::
      versionLine :: ("created: ".data ++ yamlDumpScalar created.data) ::
        "sheets:".data ::
        names.map (fun n => '-' :: ' ' :: yamlDumpScalar n.data) from rfl]
  dsimp only
  rw [show yamlToks (("source: ".data ++ yamlDumpScalar source.data) ::
      versionLine :: ("created: ".data ++ yamlDumpScalar created.data) ::
        "sheets:".data ::
        names.map (fun n => '-' :: ' ' :: yamlDumpScalar n.data)) =
      .ok (.kv "source" (yamlResolveScalar (yamlDumpScalar source.data)) ::
        .kv "version" (.pstr "1.0") ::
        .kv "created" (yamlResolveScalar (yamlDumpScalar created.data)) ::
        .kvEmpty "sheets" ::
        names.map (fun n => YTok.item (yamlResolveScalar (yamlDumpScalar n.data))))
      from htoks]
  dsimp only
  rw [if_neg (by simp [List.all_cons])]
  rw [show (.kv "source" (yamlResolveScalar (yamlDumpScalar source.data)) ::
        .kv "version" (.pstr "1.0") ::
        .kv "created" (yamlResolveScalar (yamlDumpScalar created.data)) ::
        .kvEmpty "sheets" ::
        names.map (fun n => YTok.item (yamlResolveScalar (yamlDumpScalar n.data)))
        : List YTok).reverse =
      (names.map (fun n => YTok.item (yamlResolveScalar (yamlDumpScalar n.data)))).reverse
        ++ [.kvEmpty "sheets",
          .kv "created" (yamlResolveScalar (yamlDumpScalar created.data)),
          .kv "version" (.pstr "1.0"),
          .kv "source" (yamlResolveScalar (yamlDumpScalar source.data))] from by
    simp]
  rw [yamlGoRev_items2 (fun n => yamlResolveScalar (yamlDumpScalar n.data)) names _ _,
    List.append_nil,
    yamlGoRev_four (by
      intro he
      exact hne (List.map_eq_nil_iff.mp he))]

/-- The document lines contributed by one sheet section. -/
def sheetBlockLines (p : String × XSheet) : List (List Char) :=
  sheetMarkerLine p.1.data :: (splitChar '\n' (sheet_to_csv p.2) ++ ["---".data])

lemma vCsvOne_block {pre : List (List Char)} {p : String × XSheet}
    {X : List (List Char)} (hpn : nameSafe p.1 = true)
    (hpc : p.2.all (fun row => row.all cellOk) = true) :
    vCsvOneErrors (pre ++ (sheetBlockLines p ++ X)) pre.length = [] := by
  obtain ⟨hn1, hn2⟩ := nameSafe_parts hpn
  have hblk : sheetBlockLines p ++ X =
      sheetMarkerLine p.1.data ::
        (splitChar '\n' (sheet_to_csv p.2) ++ ("---".data :: X)) := by
    rw [sheetBlockLines]
    simp
  rw [hblk]
  unfold vCsvOneErrors
  have hget : (pre ++ (sheetMarkerLine p.1.data ::
      (splitChar '\n' (sheet_to_csv p.2) ++ ("---".data :: X)))).getD pre.length [] =
      sheetMarkerLine p.1.data := by
    unfold List.getD
    rw [List.get?_append_right (Nat.le_refl _), Nat.sub_self]
    rfl
  have hna' : searchNameAttr (sheetMarkerLine p.1.data) ≠ none := by
    cases hd : p.1.data with
    | nil => exact absurd hd hn1
    | cons c0 tl => exact sheetMarker_name rfl (hd ▸ hn2)
  have hdrop : (pre ++ (sheetMarkerLine p.1.data ::
      (splitChar '\n' (sheet_to_csv p.2) ++ ("---".data :: X)))).drop (pre.length + 1) =
      splitChar '\n' (sheet_to_csv p.2) ++ ("---".data :: X) := by
    rw [List.drop_append_eq_append_drop, List.drop_eq_nil_of_le (by omega)]
    simp
  have hcol : collectUntilDashes (splitChar '\n' (sheet_to_csv p.2) ++ ("---".data :: X)) =
      (splitChar '\n' (sheet_to_csv p.2)).map pyStrip := by
    rw [collect_quiet_block _ _ (fun l hl => (csv_lines_quiet hpc l hl).2), collect_stop,
      List.append_nil]
  have hemp : ((splitChar '\n' (sheet_to_csv p.2)).map pyStrip).isEmpty = false := by
    cases hmm : (splitChar '\n' (sheet_to_csv p.2)).map pyStrip with
    | nil => exact absurd (List.map_eq_nil_iff.mp hmm) (splitChar_ne_nil '\n' _)
    | cons a b => rfl
  rcases hopt : searchNameAttr (sheetMarkerLine p.1.data) with _ | nm
  · exact absurd hopt hna'
  · simp only [vCsvOneErrors, hget, sheetMarker_strip hn1 hn2, hopt, hdrop, hcol, hemp]
    simp


lemma findGo_sheetBlocks (wb' : Workbook)
    (hok : ∀ p ∈ wb', nameSafe p.1 = true ∧ p.2.all (fun row => row.all cellOk) = true) :
    ∀ (pre : List (List Char)) (sp : SecPos) (rest : List (List Char)),
    ∃ ss : List Nat,
      findSectionsGo pre.length sp (wb'.flatMap sheetBlockLines ++ rest) =
        findSectionsGo (pre.length + (wb'.flatMap sheetBlockLines).length)
          { sp with sheet := sp.sheet ++ ss } rest ∧
      ss.length = wb'.length ∧
      (∀ x ∈ ss, pre.length ≤ x ∧
        x < pre.length + (wb'.flatMap sheetBlockLines).length) ∧
      (∀ x ∈ ss, vCsvOneErrors (pre ++ (wb'.flatMap sheetBlockLines ++ rest)) x = []) := by
  induction wb' with
  | nil =>
    intro pre sp rest
    refine ⟨[], by simp, rfl, by simp, by simp⟩
  | cons p wbt ih =>
    intro pre sp rest
    obtain ⟨hpn, hpc⟩ := hok p (by simp)
    have hoktail : ∀ q ∈ wbt, nameSafe q.1 = true ∧
        q.2.all (fun row => row.all cellOk) = true := fun q hq => hok q (by simp [hq])
    obtain ⟨hn1, hn2⟩ := nameSafe_parts hpn
    have hstep : findSectionsGo pre.length sp ((p :: wbt).flatMap sheetBlockLines ++ rest) =
        findSectionsGo (pre.length + (sheetBlockLines p).length)
          { sp with sheet := sp.sheet ++ [pre.length] }
          (wbt.flatMap sheetBlockLines ++ rest) := by
      rw [List.flatMap_cons, List.append_assoc,
        show sheetBlockLines p = sheetMarkerLine p.1.data ::
          (splitChar '\n' (sheet_to_csv p.2) ++ ["---".data]) from rfl,
        List.cons_append, findSectionsGo, findStep_sheetMarker _ _ hn1 hn2,
        List.append_assoc,
        findGo_benign_block _ _ _ _ (fun l hl => (csv_lines_quiet hpc l hl).1),
        findGo_benign_block ["---".data] _ _ _ (by
          intro l hl
          rcases (by simpa using hl : l = "---".data) with rfl
          decide)]
      have hlen : pre.length + 1 + (splitChar '\n' (sheet_to_csv p.2)).length + 1 =
          pre.length + (sheetMarkerLine p.1.data ::
            (splitChar '\n' (sheet_to_csv p.2) ++ ["---".data])).length := by
        simp
        omega
      rw [show (["---".data] : List (List Char)).length = 1 from rfl, hlen]
    obtain ⟨ss', hgo, hlen', hbnd, hcsv⟩ := ih hoktail (pre ++ sheetBlockLines p)
      { sp with sheet := sp.sheet ++ [pre.length] } rest
    refine ⟨pre.length :: ss', ?_, by simp [hlen'], ?_, ?_⟩
    · rw [hstep,
        show pre.length + (sheetBlockLines p).length = (pre ++ sheetBlockLines p).length
          from (List.length_append _ _).symm,
        hgo]
      congr 1
      · simp [List.flatMap_cons]
        omega
      · simp
    · intro x hx
      rcases List.mem_cons.mp hx with rfl | hx'
      · refine ⟨Nat.le_refl _, ?_⟩
        have : 1 ≤ ((p :: wbt).flatMap sheetBlockLines).length := by
          simp [List.flatMap_cons, sheetBlockLines]
        omega
      · have hb := hbnd x hx'
        rw [List.length_append] at hb
        have : ((p :: wbt).flatMap sheetBlockLines).length =
            (sheetBlockLines p).length + (wbt.flatMap sheetBlockLines).length := by
          simp [List.flatMap_cons]
        omega
    · intro x hx
      rcases List.mem_cons.mp hx with rfl | hx'
      · rw [List.flatMap_cons, List.append_assoc]
        exact vCsvOne_block hpn hpc
      · have hc := hcsv x hx'
        rw [List.append_assoc] at hc
        rw [List.flatMap_cons, List.append_assoc]
        exact hc



/-- The leading document lines: header marker, header dump lines, separator,
context comment, context dump lines, separator. -/
def c1Lpre (source created : String) (names : List String) : List (List Char) :=
  "--- MDN:HEADER YAML".data ::
    ((headerLines source created names ++ [[]]) ++
      ("---".data :: "# optional context section".data ::
        ((ctxLines ++ [[]]) ++ ["---".data])))

/-- The trailing document lines: formulas marker, empty JSON object, blank,
separator, end marker. -/
def c1Lpost : List (List Char) :=
  ["--- MDN:FORMULAS JSON".data, "{}".data, [], "---".data, "END DOCUMENT".data]

lemma c1_sheets_lines {wb : Workbook}
    (hok : ∀ p ∈ wb, nameSafe p.1 = true ∧ p.2.all (fun row => row.all cellOk) = true) :
    (wb.flatMap (fun p => [("--- MDN:SHEET CSV name=".data ++ p.1.data),
        sheet_to_csv p.2, "---".data])).flatMap (fun x => splitChar '\n' x) =
      wb.flatMap sheetBlockLines := by
  induction wb with
  | nil => rfl
  | cons p wbt ih =>
    obtain ⟨hpn, hpc⟩ := hok p (by simp)
    obtain ⟨hn1, hn2⟩ := nameSafe_parts hpn
    rw [List.flatMap_cons, List.flatMap_cons, List.flatMap_append,
      ih (fun q hq => hok q (by simp [hq]))]
    congr 1
    have hm : splitChar '\n' ("--- MDN:SHEET CSV name=".data ++ p.1.data) =
        [sheetMarkerLine p.1.data] := by
      refine splitChar_no_sep _ _ ?_
      intro c hc
      rcases List.mem_append.mp hc with h | h
      · intro he
        subst he
        exact absurd h (by decide)
      · exact plainSafe_ne (hn2 c h) (by decide)
    rw [List.flatMap_cons, List.flatMap_cons, List.flatMap_cons, List.flatMap_nil, hm,
      splitChar_no_sep _ "---".data (by decide)]
    rw [sheetBlockLines]
    simp

lemma c1_lines {wb : Workbook} {source created : String}
    (hwb : wbOk wb = true) (hsrc : nameSafe source = true)
    (hcrn : created.data ≠ []) (hcrs : ∀ c ∈ created.data, tsSafeChar c = true) :
    splitChar '\n' (joinNL (encodeElements wb source created)) =
      c1Lpre source created (wb.map Prod.fst) ++
        (wb.flatMap sheetBlockLines ++ c1Lpost) := by
  obtain ⟨hwne, hwp⟩ := wbOk_parts hwb
  have hne : wb.map Prod.fst ≠ [] := by
    intro he
    exact hwne (List.map_eq_nil_iff.mp he)
  have hns : ∀ n ∈ wb.map Prod.fst, nameSafe n = true := by
    intro n hn
    obtain ⟨p, hp, rfl⟩ := List.mem_map.mp hn
    exact (hwp p hp).1
  have hEl : encodeElements wb source created =
      (["--- MDN:HEADER YAML".data,
        yamlDump (headerPVal source created (wb.map Prod.fst)), "---".data,
        "# optional context section".data, yamlDump contextPVal, "---".data]
      ++ wb.flatMap (fun p => [("--- MDN:SHEET CSV name=".data ++ p.1.data),
          sheet_to_csv p.2, "---".data])
      ++ ["--- MDN:FORMULAS JSON".data, "{}\n".data, "---".data])
      ++ ["END DOCUMENT".data] := by
    rw [encodeElements, generate_formulas_nil hwb, generate_formatting_nil hwb]
    simp [show yamlDump (PVal.dict []) = "{}\n".data from rfl]
  rw [hEl]
  rw [splitChar_joinNL _ (by simp)]
  rw [List.flatMap_append, List.flatMap_append, List.flatMap_append]
  have hd2 : splitChar '\n' (yamlDump (headerPVal source created (wb.map Prod.fst))) =
      headerLines source created (wb.map Prod.fst) ++ [[]] := by
    rw [headerDump_eq _ _ _ hne]
    refine splitChar_joinNL_id _ (by simp) ?_
    intro l hl
    rcases List.mem_append.mp hl with h | h
    · exact (headerLines_good hsrc hcrn hcrs hns l h).2.2.2
    · rcases (by simpa using h : l = []) with rfl
      simp
  have hd5 : splitChar '\n' (yamlDump contextPVal) = ctxLines ++ [[]] := by
    rw [ctxDump_eq]
    refine splitChar_joinNL_id _ (by simp) ?_
    intro l hl
    rcases List.mem_append.mp hl with h | h
    · exact (ctxLines_good l h).2.2.2
    · rcases (by simpa using h : l = []) with rfl
      simp
  rw [c1_sheets_lines hwp]
  rw [List.flatMap_cons, List.flatMap_cons, List.flatMap_cons, List.flatMap_cons,
    List.flatMap_cons, List.flatMap_cons, List.flatMap_nil, hd2, hd5,
    splitChar_no_sep '\n' "--- MDN:HEADER YAML".data (by decide),
    splitChar_no_sep '\n' "---".data (by decide),
    splitChar_no_sep '\n' "# optional context section".data (by decide)]
  rw [List.flatMap_cons, List.flatMap_cons, List.flatMap_cons, List.flatMap_nil,
    splitChar_no_sep '\n' "--- MDN:FORMULAS JSON".data (by decide),
    show splitChar '\n' ("{}\n".data) = ["{}".data, []] from by decide]
  rw [List.flatMap_cons, List.flatMap_nil,
    splitChar_no_sep '\n' "END DOCUMENT".data (by decide)]
  rw [c1Lpre, c1Lpost]
  simp [show splitChar '\n' ['-', '-', '-'] = [['-', '-', '-']] from by decide]



lemma c1_findSections {wb : Workbook} {source created : String}
    (hwb : wbOk wb = true) (hsrc : nameSafe source = true)
    (hcrn : created.data ≠ []) (hcrs : ∀ c ∈ created.data, tsSafeChar c = true) :
    ∃ ss : List Nat, ss.length = wb.length ∧
      findSectionsGo 0 {} (c1Lpre source created (wb.map Prod.fst) ++
          (wb.flatMap sheetBlockLines ++ c1Lpost)) =
        { header := some 0, sheet := ss,
          formulas := some ((c1Lpre source created (wb.map Prod.fst)).length +
            (wb.flatMap sheetBlockLines).length),
          format := none, ai := none } ∧
      (∀ x ∈ ss, x < (c1Lpre source created (wb.map Prod.fst)).length +
        (wb.flatMap sheetBlockLines).length) ∧
      (∀ x ∈ ss, vCsvOneErrors (c1Lpre source created (wb.map Prod.fst) ++
        (wb.flatMap sheetBlockLines ++ c1Lpost)) x = []) := by
  obtain ⟨hwne, hwp⟩ := wbOk_parts hwb
  have hns : ∀ n ∈ wb.map Prod.fst, nameSafe n = true := by
    intro n hn
    obtain ⟨p, hp, rfl⟩ := List.mem_map.mp hn
    exact (hwp p hp).1
  have hB1 : ∀ l ∈ ((headerLines source created (wb.map Prod.fst) ++ [[]]) ++
      ("---".data :: "# optional context section".data ::
        ((ctxLines ++ [[]]) ++ ["---".data]))),
      "--- ".data.isPrefixOf (pyStrip l) = false := by
    intro l hl
    rcases List.mem_append.mp hl with h | h
    · rcases List.mem_append.mp h with h2 | h2
      · exact (goodLine_quiet (headerLines_good hsrc hcrn hcrs hns l h2)).1
      · rcases (by simpa using h2 : l = []) with rfl
        decide
    · rcases List.mem_cons.mp h with rfl | h2
      · decide
      · rcases List.mem_cons.mp h2 with rfl | h3
        · decide
        · rcases List.mem_append.mp h3 with h4 | h4
          · rcases List.mem_append.mp h4 with h5 | h5
            · exact (goodLine_quiet (ctxLines_good l h5)).1
            · rcases (by simpa using h5 : l = []) with rfl
              decide
          · rcases (by simpa using h4 : l = "---".data) with rfl
            decide
  have hstep1 : findSectionsGo 0 {} (c1Lpre source created (wb.map Prod.fst) ++
      (wb.flatMap sheetBlockLines ++ c1Lpost)) =
      findSectionsGo (c1Lpre source created (wb.map Prod.fst)).length
        { header := some 0 } (wb.flatMap sheetBlockLines ++ c1Lpost) := by
    rw [c1Lpre, List.cons_append, findSectionsGo, findStep_headerMarker,
      findGo_benign_block _ _ _ _ hB1]
    have hl : (1 : Nat) + ((headerLines source created (wb.map Prod.fst) ++ [[]]) ++
        ("---".data :: "# optional context section".data ::
          ((ctxLines ++ [[]]) ++ ["---".data]))).length =
        (c1Lpre source created (wb.map Prod.fst)).length := by
      rw [c1Lpre]
      simp
      omega
    rw [hl]
    rfl
  obtain ⟨ss, hgo, hlen, hbnd, hcsv⟩ := findGo_sheetBlocks wb hwp
    (c1Lpre source created (wb.map Prod.fst)) { header := some 0 } c1Lpost
  have hB2 : ∀ l ∈ (["{}".data, [], "---".data, "END DOCUMENT".data] : List (List Char)),
      "--- ".data.isPrefixOf (pyStrip l) = false := by
    intro l hl
    rcases (by simpa using hl :
        l = "{}".data ∨ l = [] ∨ l = "---".data ∨ l = "END DOCUMENT".data)
      with rfl | rfl | rfl | rfl <;> decide
  have hstep3 : findSectionsGo ((c1Lpre source created (wb.map Prod.fst)).length +
      (wb.flatMap sheetBlockLines).length)
      { header := some 0, sheet := [] ++ ss } c1Lpost =
      { header := some 0, sheet := ss,
        formulas := some ((c1Lpre source created (wb.map Prod.fst)).length +
          (wb.flatMap sheetBlockLines).length),
        format := none, ai := none } := by
    rw [c1Lpost]
    rw [show (["--- MDN:FORMULAS JSON".data, "{}".data, [], "---".data,
        "END DOCUMENT".data] : List (List Char)) =
      "--- MDN:FORMULAS JSON".data ::
        (["{}".data, [], "---".data, "END DOCUMENT".data] ++ []) from by simp]
    rw [findSectionsGo, findStep_formulasMarker, findGo_benign_block _ _ _ _ hB2]
    simp [findSectionsGo]
  refine ⟨ss, hlen, ?_, ?_, hcsv⟩
  · rw [hstep1, hgo, ← hstep3]
  · intro x hx
    have := hbnd x hx
    omega



lemma c1_yaml_ok {wb : Workbook} {source created : String} {sp : SecPos}
    (hwb : wbOk wb = true) (hsrc : nameSafe source = true)
    (hcrn : created.data ≠ []) (hcrs : ∀ c ∈ created.data, tsSafeChar c = true)
    (hsp : sp.header = some 0) :
    vYamlErrors (c1Lpre source created (wb.map Prod.fst) ++
      (wb.flatMap sheetBlockLines ++ c1Lpost)) sp = .ok [] := by
  obtain ⟨hwne, hwp⟩ := wbOk_parts hwb
  have hne : wb.map Prod.fst ≠ [] := fun he => hwne (List.map_eq_nil_iff.mp he)
  have hns : ∀ n ∈ wb.map Prod.fst, nameSafe n = true := by
    intro n hn
    obtain ⟨p, hp, rfl⟩ := List.mem_map.mp hn
    exact (hwp p hp).1
  have hdrop : (c1Lpre source created (wb.map Prod.fst) ++
      (wb.flatMap sheetBlockLines ++ c1Lpost)).drop (0 + 1) =
      (headerLines source created (wb.map Prod.fst) ++ [[]]) ++
        ("---".data :: (("# optional context section".data ::
          ((ctxLines ++ [[]]) ++ ["---".data])) ++
          (wb.flatMap sheetBlockLines ++ c1Lpost))) := by
    rw [c1Lpre]
    simp
  have hquiet : ∀ l ∈ headerLines source created (wb.map Prod.fst) ++ [[]],
      pyStrip l ≠ "---".data := by
    intro l hl
    rcases List.mem_append.mp hl with h | h
    · exact (goodLine_quiet (headerLines_good hsrc hcrn hcrs hns l h)).2
    · rcases (by simpa using h : l = []) with rfl
      decide
  have hmap : (headerLines source created (wb.map Prod.fst) ++ [[]]).map pyStrip =
      headerLines source created (wb.map Prod.fst) ++ [[]] := by
    rw [List.map_append]
    congr 1
    · have h1 : (headerLines source created (wb.map Prod.fst)).map pyStrip =
          (headerLines source created (wb.map Prod.fst)).map id :=
        List.map_congr_left
          (fun l hl' => (headerLines_good hsrc hcrn hcrs hns l hl').1)
      rw [h1, List.map_id]
  have hcol : collectUntilDashes ((headerLines source created (wb.map Prod.fst) ++ [[]]) ++
      ("---".data :: (("# optional context section".data ::
        ((ctxLines ++ [[]]) ++ ["---".data])) ++
        (wb.flatMap sheetBlockLines ++ c1Lpost)))) =
      headerLines source created (wb.map Prod.fst) ++ [[]] := by
    rw [collect_quiet_block _ _ hquiet, collect_stop, List.append_nil, hmap]
  have hempty : (headerLines source created (wb.map Prod.fst) ++ [[]]).isEmpty = false := by
    simp [headerLines]
  have hitems : ((wb.map Prod.fst).map
      (fun n => yamlResolveScalar (yamlDumpScalar n.data))).isEmpty = false := by
    cases hh : wb.map Prod.fst with
    | nil => exact absurd hh hne
    | cons a b => rfl
  have hjd : (⟨joinNL (headerLines source created (wb.map Prod.fst) ++ [[]])⟩ : String) =
      ⟨yamlDump (headerPVal source created (wb.map Prod.fst))⟩ := by
    rw [headerDump_eq _ _ _ hne]
  unfold vYamlErrors
  rw [hsp]
  dsimp only
  rw [hdrop, hcol]
  rw [if_neg (by simp [hempty])]
  rw [hjd, yamlLoad_header hne hsrc hcrn hcrs hns]
  dsimp only
  have hreq : requiredFieldErrors
      (.dict [("source", .leaf (yamlResolveScalar (yamlDumpScalar source.data))),
        ("version", .leaf (.pstr "1.0")),
        ("created", .leaf (yamlResolveScalar (yamlDumpScalar created.data))),
        ("sheets", .list ((wb.map Prod.fst).map (fun n =>
          yamlResolveScalar (yamlDumpScalar n.data))))])
      ["source", "version", "created", "sheets"] = .ok [] := by
    simp [requiredFieldErrors, pyInVal, dictGet]
  have hshf : vSheetsFieldErrors
      (.dict [("source", .leaf (yamlResolveScalar (yamlDumpScalar source.data))),
        ("version", .leaf (.pstr "1.0")),
        ("created", .leaf (yamlResolveScalar (yamlDumpScalar created.data))),
        ("sheets", .list ((wb.map Prod.fst).map (fun n =>
          yamlResolveScalar (yamlDumpScalar n.data))))]) = .ok [] := by
    simp [vSheetsFieldErrors, pyInVal, pyValSubscript, dictGet, hitems]
    exact hwne
  rw [hreq]
  dsimp only
  rw [hshf]
  rfl



lemma c1_formulas_ok {wb : Workbook} {source created : String} {sp : SecPos}
    (hsp : sp.formulas = some ((c1Lpre source created (wb.map Prod.fst)).length +
      (wb.flatMap sheetBlockLines).length)) :
    vFormulasErrors (c1Lpre source created (wb.map Prod.fst) ++
      (wb.flatMap sheetBlockLines ++ c1Lpost)) sp = [] := by
  have hdropJ : (c1Lpre source created (wb.map Prod.fst) ++
      (wb.flatMap sheetBlockLines ++ c1Lpost)).drop
        ((c1Lpre source created (wb.map Prod.fst)).length +
          (wb.flatMap sheetBlockLines).length + 1) =
      ["{}".data, [], "---".data, "END DOCUMENT".data] := by
    rw [List.drop_append_eq_append_drop, List.drop_eq_nil_of_le (by omega),
      List.drop_append_eq_append_drop, List.drop_eq_nil_of_le (by omega)]
    have h1 : (c1Lpre source created (wb.map Prod.fst)).length +
        (wb.flatMap sheetBlockLines).length + 1 -
        (c1Lpre source created (wb.map Prod.fst)).length -
        (wb.flatMap sheetBlockLines).length = 1 := by omega
    rw [h1]
    rfl
  have hcolJ : collectUntilDashes
      (["{}".data, [], "---".data, "END DOCUMENT".data] : List (List Char)) =
      ["{}".data, []] := by decide
  have hjson : json_loads (⟨joinNL ["{}".data, []]⟩ : String) = some (.jobj []) := rfl
  unfold vFormulasErrors
  rw [hsp]
  dsimp only
  rw [hdropJ, hcolJ]
  rw [if_neg (by simp)]
  rw [hjson]
  rfl

theorem c1_order_ok {ss : List Nat} {J : Nat} (hss : ss ≠ [])
    (hbnd : ∀ x ∈ ss, x < J) :
    vOrderErrors (⟨some 0, ss, some J, none, none⟩ : SecPos) = [] := by
  cases ss with
  | nil => exact absurd rfl hss
  | cons x0 rest =>
    have hx0 : x0 < J := hbnd x0 (by simp)
    have hmin : natListMin (x0 :: rest) ≤ x0 := natListMin_head_le x0 rest
    unfold vOrderErrors sectionPosList
    dsimp only
    simp only [List.append_nil, List.singleton_append, List.cons_append, List.nil_append]
    unfold adjOrderErrors
    rw [if_neg (show ¬(natListMin (x0 :: rest) < 0) by omega)]
    unfold adjOrderErrors
    rw [if_neg (show ¬(J < natListMin (x0 :: rest)) by omega)]
    rfl



lemma containsSeq_joinNL_snoc (es : List (List Char)) (p : List Char) (h : es ≠ []) :
    containsSeq p (joinNL (es ++ [p])) = true := by
  rw [joinNL_snoc _ _ h]
  refine (containsSeq_iff _ _).mpr ⟨joinNL es ++ ['\n'], [], ?_⟩
  simp

/-- C1 (amended): for every well-formed workbook — at least one sheet, safe
sheet names, unformatted cells with safe values, hence no formulas and no
format rules — together with a safe source name and timestamp, the
validator accepts the encoder output with zero errors (the FORMAT section
is omitted and the FORMULAS payload is the empty mapping `{}`, which is
the one payload that is simultaneously valid YAML and valid JSON).  The
original claim over workbooks WITH formulas or format rules is refuted by
`C1_counterexample`: those payloads are emitted as block YAML, which the
validator's `json.loads` rejects. -/
theorem C1_validator_accepts_encoder_output_amended
    (wb : Workbook) (source created : String)
    (hwb : wbOk wb = true) (hsrc : nameSafe source = true)
    (hcrn : created.data ≠ []) (hcrs : created.data.all tsSafeChar = true) :
    validate_string_errors (encode wb source created) = .ok [] := by
  have hcrs' : ∀ c ∈ created.data, tsSafeChar c = true := List.all_eq_true.mp hcrs
  obtain ⟨hwne, hwp⟩ := wbOk_parts hwb
  have hlines := c1_lines hwb hsrc hcrn hcrs'
  obtain ⟨ss, hsslen, hfind, hbnd, hcsv⟩ := c1_findSections hwb hsrc hcrn hcrs'
  have hssne : ss ≠ [] := by
    intro he
    rw [he] at hsslen
    exact hwne (List.length_eq_zero.mp hsslen.symm)
  have hssE : ss.isEmpty = false := by
    cases ss with
    | nil => exact absurd rfl hssne
    | cons a b => rfl
  have hEND : containsSeq "END DOCUMENT".data
      (joinNL (encodeElements wb source created)) = true := by
    have hE2 : encodeElements wb source created =
        (["--- MDN:HEADER YAML".data,
          yamlDump (headerPVal source created (wb.map Prod.fst)), "---".data,
          "# optional context section".data, yamlDump contextPVal, "---".data]
        ++ (wb.flatMap (fun p => [("--- MDN:SHEET CSV name=".data ++ p.1.data),
            sheet_to_csv p.2, "---".data]))
        ++ ["--- MDN:FORMULAS JSON".data,
          yamlDump (.dict ((generate_formulas wb).map
            (fun q => (q.1, .leaf (.pstr q.2))))), "---".data]
        ++ (let fmt := generate_formatting wb
          if fmt.isEmpty then []
          else
            let clean := fmt.filter (fun p => !p.2.isEmpty)
            if clean.isEmpty then []
            else ["--- MDN:FORMAT JSON".data,
              yamlDump (.dict (clean.map (fun p => (p.1, PSub.dict p.2)))), "---".data]))
        ++ ["END DOCUMENT".data] := rfl
    rw [hE2]
    exact containsSeq_joinNL_snoc _ _ (by simp)
  have hdata : (encode wb source created).data =
      joinNL (encodeElements wb source created) := rfl
  unfold validate_string_errors
  dsimp only
  rw [hdata, hlines, hfind]
  rw [c1_yaml_ok hwb hsrc hcrn hcrs' rfl]
  dsimp only
  rw [if_pos hEND]
  have hcsvE : vCsvErrors (c1Lpre source created (wb.map Prod.fst) ++
      (wb.flatMap sheetBlockLines ++ c1Lpost))
      ⟨some 0, ss, some ((c1Lpre source created (wb.map Prod.fst)).length +
        (wb.flatMap sheetBlockLines).length), none, none⟩ = [] := by
    unfold vCsvErrors
    dsimp only
    rw [List.flatMap_eq_nil_iff]
    exact hcsv
  have hform := @c1_formulas_ok wb source created
    ⟨some 0, ss, some ((c1Lpre source created (wb.map Prod.fst)).length +
      (wb.flatMap sheetBlockLines).length), none, none⟩ rfl
  have horder := c1_order_ok hssne hbnd
  rw [hcsvE, hform, horder]
  simp [hssE]
  rfl

/-- Closed instance of the amended C1 theorem at a one-sheet one-cell
workbook. -/
theorem C1_validator_accepts_encoder_output_amended_witness :
    wbOk [("Sheet1", [[{ value := .vStr "hello" }]])] = true ∧
    nameSafe "test.xlsx" = true ∧
    ("2025-01-15T12:00:00Z" : String).data ≠ [] ∧
    ("2025-01-15T12:00:00Z" : String).data.all tsSafeChar = true ∧
    validate_string_errors (encode [("Sheet1", [[{ value := .vStr "hello" }]])]
      "test.xlsx" "2025-01-15T12:00:00Z") = .ok [] :=
  ⟨by decide, by decide, by decide, by decide,
    C1_validator_accepts_encoder_output_amended _ _ _ (by decide) (by decide)
      (by decide) (by decide)⟩


end MDN
